import Mathlib

/-!
# Impostor-Game: the per-room state machine of `server/index.js`

A shallow embedding of the game server.  One room is modelled; the registry
`rooms` holds it under its code until the `disconnect` handler deletes it.

Conventions of the embedding

* Socket ids are opaque connection identities (`SocketId`); the vote sentinel
  `'SKIP'` is a constructor of `Target`, so a vote names a socket id or `SKIP`,
  and the target of `steal_life` is a socket id or null.
* A JavaScript object whose keys are created at run time (`room.votes`, the
  tally `voteCounts`) is an association list in key-creation order, which is the
  order `Object.values` / `Object.entries` enumerate socket-id keys in.
* `Math.floor(Math.random() * n)` is a number below `n`; every random draw is a
  parameter `d : Nat` of the handler and the value used is `d % n`.
* A handler returns the new room together with the effects it performed, in
  order: messages emitted and continuations scheduled with `setTimeout` or a
  local `setInterval`.  The interval stored in `room.timerInterval` is part of
  the room; `Event.interval_tick` is one firing of it, `Event.timeout i` one
  firing of the `i`-th scheduled continuation.  A handler runs to completion
  before the next event.
* Player objects are shared by reference in JavaScript; `find` followed by a
  field assignment is `modifyFirst` on the player list, and an object picked
  out of a filtered copy of `room.players` is followed by its position.
* Where the JavaScript would throw a `TypeError` (a field read of `undefined`)
  the handler stops with the room as it is at that point.
* `getSafeRoom` works on the field list of the room object, so that "the view
  has no such field" can be stated.
-/

namespace ImpostorGame

/-! ## Data model -/

abbrev SocketId := Nat

inductive Phase where
  | LOBBY | COUNTDOWN | SETUP | CLUE | VOTE | RESOLUTION | STEAL_LIFE
  | ROUND_END | GAME_OVER | HEAD_TO_HEAD
  deriving DecidableEq, Repr

inductive Role where
  | IMPOSTOR | INNOCENT | SPECTATOR
  deriving DecidableEq, Repr

/-- Value of `room.votes[voterId]`: a player id or the string `'SKIP'`. -/
inductive Target where
  | SKIP
  | player (id : SocketId)
  deriving DecidableEq, Repr

/-- Reason strings used in `room.stealReason`, `phase_change` and `round_end`. -/
inductive Reason where
  | WORD_GUESSED | INNOCENT_VOTED | NO_MAJORITY | STEAL_TIMEOUT | IMPOSTOR_FAILED
  deriving DecidableEq, Repr

inductive RoundResult where
  | INNOCENTS_WIN | IMPOSTOR_WIN
  deriving DecidableEq, Repr

/-- A field that may be missing (`undefined`), `null`, or hold a value. -/
inductive JsOpt (α : Type) where
  | undefined
  | null
  | val (a : α)
  deriving DecidableEq, Repr

/-- Player record.  `score`, `votesReceived` and `timesImpostor` are `none`
while the field is undefined (the host created by `create_room` has none of
them). -/
structure Player where
  id : SocketId
  name : String
  role : Option Role
  lives : Int
  hasBonusCard : Bool
  isGhost : Bool
  isHost : Bool
  score : Option Nat
  votesReceived : Option Nat
  timesImpostor : Option Nat
  deriving DecidableEq, Repr

structure Clue where
  playerId : SocketId
  playerName : String
  text : String
  deriving DecidableEq, Repr

/-- Callback of the interval held in `room.timerInterval`. -/
inductive IntervalKind where
  | clue (currentPlayerId : SocketId)
  | vote
  | steal
  deriving DecidableEq, Repr

/-- The handle in `room.timerInterval`; `clearInterval` makes it inactive and
leaves the handle in the field. -/
structure Interval where
  kind : IntervalKind
  active : Bool
  deriving DecidableEq, Repr

structure Room where
  id : String
  players : List Player
  phase : Phase
  category : Option String
  words : List String
  targetIndex : Option Nat
  imposterId : Option SocketId
  currentTurnIndex : Int
  clues : List Clue
  votes : List (SocketId × Target)
  timer : Int
  timerInterval : Option Interval
  lastImposterId : Option SocketId
  stealReason : JsOpt Reason
  h2hButtons : Option (List Nat)
  duelists : Option (List SocketId)
  deriving DecidableEq, Repr

def MAX_LIVES : Int := 3
def CLUE_TIME_LIMIT : Int := 20

/-! ## JavaScript objects as field lists (what `getSafeRoom` works on) -/

/-- Primitive JSON value of a player field. -/
inductive JVal where
  | null
  | bool (b : Bool)
  | num (n : Int)
  | str (s : String)
  | sid (i : SocketId)
  deriving DecidableEq, Repr

abbrev PlayerObj := List (String × JVal)

/-- Value of a room field. -/
inductive RVal where
  | prim (v : JVal)
  | strings (ws : List String)
  | numbers (ns : List Nat)
  | sids (is : List SocketId)
  | players (ps : List PlayerObj)
  | clues (cs : List Clue)
  | votes (vs : List (SocketId × Target))
  | interval (t : Interval)
  deriving DecidableEq, Repr

abbrev RoomObj := List (String × RVal)

/-- Property read `o[k]`; `none` is `undefined` (no such key). -/
def getField {β : Type} (o : List (String × β)) (k : String) : Option β :=
  match o with
  | [] => none
  | (k', v) :: rest => if k' = k then some v else getField rest k

/-- Assignment `o[k] = v`: overwrite in place, or append a new key. -/
def setField {β : Type} (o : List (String × β)) (k : String) (v : β) : List (String × β) :=
  match o with
  | [] => [(k, v)]
  | (k', v') :: rest => if k' = k then (k', v) :: rest else (k', v') :: setField rest k v

/-- Rest pattern `const { k1, k2, ...rest } = o`: the fields other than `ks`. -/
def omitFields {β : Type} (o : List (String × β)) (ks : List String) : List (String × β) :=
  o.filter (fun kv => !(ks.contains kv.1))

def Role.toString : Role → String
  | .IMPOSTOR => "IMPOSTOR"
  | .INNOCENT => "INNOCENT"
  | .SPECTATOR => "SPECTATOR"

def Phase.toString : Phase → String
  | .LOBBY => "LOBBY" | .COUNTDOWN => "COUNTDOWN" | .SETUP => "SETUP" | .CLUE => "CLUE"
  | .VOTE => "VOTE" | .RESOLUTION => "RESOLUTION" | .STEAL_LIFE => "STEAL_LIFE"
  | .ROUND_END => "ROUND_END" | .GAME_OVER => "GAME_OVER" | .HEAD_TO_HEAD => "HEAD_TO_HEAD"

def Reason.toString : Reason → String
  | .WORD_GUESSED => "WORD_GUESSED" | .INNOCENT_VOTED => "INNOCENT_VOTED"
  | .NO_MAJORITY => "NO_MAJORITY" | .STEAL_TIMEOUT => "STEAL_TIMEOUT"
  | .IMPOSTOR_FAILED => "IMPOSTOR_FAILED"

def optField {β : Type} (k : String) (f : α → β) : Option α → List (String × β)
  | none => []
  | some a => [(k, f a)]

def nullable (f : α → JVal) : Option α → JVal
  | none => .null
  | some a => f a

/-- The own fields of a player object. -/
def Player.toObj (p : Player) : PlayerObj :=
  [ ("id", .sid p.id),
    ("name", .str p.name),
    ("role", nullable (fun r => .str r.toString) p.role),
    ("lives", .num p.lives),
    ("hasBonusCard", .bool p.hasBonusCard),
    ("isGhost", .bool p.isGhost),
    ("isHost", .bool p.isHost) ]
  ++ optField "score" (fun n => .num n) p.score
  ++ optField "votesReceived" (fun n => .num n) p.votesReceived
  ++ optField "timesImpostor" (fun n => .num n) p.timesImpostor

def stealReasonField : JsOpt Reason → List (String × RVal)
  | .undefined => []
  | .null => [("stealReason", .prim .null)]
  | .val r => [("stealReason", .prim (.str r.toString))]

/-- The own fields of a room object. -/
def Room.toObj (room : Room) : RoomObj :=
  [ ("id", .prim (.str room.id)),
    ("players", .players (room.players.map Player.toObj)),
    ("phase", .prim (.str room.phase.toString)),
    ("category", .prim (nullable .str room.category)),
    ("words", .strings room.words),
    ("targetIndex", .prim (nullable (fun n => .num n) room.targetIndex)),
    ("imposterId", .prim (nullable .sid room.imposterId)),
    ("currentTurnIndex", .prim (.num room.currentTurnIndex)),
    ("clues", .clues room.clues),
    ("votes", .votes room.votes),
    ("timer", .prim (.num room.timer)),
    ("timerInterval", match room.timerInterval with
                      | none => .prim .null
                      | some t => .interval t) ]
  ++ optField "lastImposterId" (fun i => .prim (.sid i)) room.lastImposterId
  ++ stealReasonField room.stealReason
  ++ optField "h2hButtons" .numbers room.h2hButtons
  ++ optField "duelists" .sids room.duelists

def revealPhases : List Phase :=
  [.RESOLUTION, .STEAL_LIFE, .ROUND_END, .GAME_OVER, .HEAD_TO_HEAD]

def revealPhasesPlayers : List Phase :=
  [.ROUND_END, .GAME_OVER, .RESOLUTION, .STEAL_LIFE, .HEAD_TO_HEAD]

/-- The function `getSafeRoom(room)` for an existing room. -/
def getSafeRoom (room : Room) : RoomObj :=
  -- const { timerInterval, imposterId, targetIndex, ...safeRoom } = room;
  let safeRoom := omitFields room.toObj ["timerInterval", "imposterId", "targetIndex"]
  let safeRoom :=
    if revealPhases.contains room.phase then
      setField safeRoom "imposterId" (.prim (nullable .sid room.imposterId))
    else safeRoom
  let safeRoom :=
    if room.phase = .COUNTDOWN then
      setField (setField safeRoom "category" (.prim .null)) "words" (.strings [])
    else safeRoom
  setField safeRoom "players" (.players (room.players.map (fun p =>
    -- const { role, ...safePlayer } = p;
    let safePlayer := omitFields p.toObj ["role"]
    if revealPhasesPlayers.contains room.phase then p.toObj else safePlayer)))

/-! ## Messages, scheduled continuations, effects -/

/-- Payload of `your_role` sent by `proceedToSetup`. -/
structure SecretData where
  role : Option Role
  targetIndex : Option Nat
  deriving DecidableEq, Repr

/-- Payload of `impostor_guess_result`; a `none` field is not in the payload. -/
structure GuessResult where
  success : Bool
  word : Option String
  isBonus : Option Bool
  deriving DecidableEq, Repr

/-- Payload of `round_end`; `victimId` and `bonusAwarded` are only present in
the payload of a steal. -/
structure RoundEnd where
  result : RoundResult
  reason : Reason
  victimId : Option SocketId
  imposterId : Option SocketId
  targetWord : Option String
  players : List Player
  bonusAwarded : Option Bool
  deriving DecidableEq, Repr

inductive Msg where
  | room_joined (roomId : String) (gameState : RoomObj)
  | room_update (gameState : RoomObj)
  | error (message : String)
  | your_role (d : Option SecretData)
  | spectator_update (targetIndex : Option Nat) (imposterId : Option SocketId)
      (words : List String)
  | timer_tick (t : Int)
  | game_started (category : Option String) (words : List String)
  | clue_submitted (c : Clue)
  | phase_change_vote (clues : List Clue)
  | phase_change_steal (reason : Reason) (votedName : Option String)
  | impostor_caught (imposterId : Option SocketId)
  | impostor_guess_result (r : GuessResult)
  | bonus_card_used (imposterId : Option SocketId)
  | life_stolen (victimId : SocketId) (victimName : String)
  | round_end (r : RoundEnd)
  | game_over (players : List Player) (winner : String) (winnerId : Option SocketId)
  | head_to_head_start (players : List Player) (turnPlayerId : Option SocketId)
  | head_to_head_result (playerId : SocketId) (buttonIndex : Nat) (isSafe : Bool) (lives : Int)
  | head_to_head_turn (turnPlayerId : SocketId)
  deriving DecidableEq, Repr

/-- Destination of an emit: `io.to(roomId)` or one socket. -/
inductive Dest where
  | room
  | socket (id : SocketId)
  deriving DecidableEq, Repr

/-- Continuations that are not held in `room.timerInterval`: the callbacks of
`setTimeout` and the local countdown interval of `startGame`. -/
inductive Pending where
  | countdown (n : Int)
  | startCluePhase
  | stealTimerStart
  | roundEndFailed
  | startNextRound
  | h2hTurn (nextDuelistId : Option SocketId)
  | h2hGameOver (winner : Option Player)
  | resetToLobby
  deriving DecidableEq, Repr

inductive Eff where
  | emit (dest : Dest) (msg : Msg)
  | schedule (k : Pending)
  deriving DecidableEq, Repr

/-! ## Helpers -/

/-- The filter `p => !p.isGhost && p.lives > 0`. -/
def isLiving (p : Player) : Bool := !p.isGhost && decide (p.lives > 0)

def livingPlayers (room : Room) : List Player := room.players.filter isLiving

/-- The idiom `const x = xs.find(pred); if (x) { x.field = ... }`: the first
element that satisfies `pred` is updated in place. -/
def modifyFirst {α : Type} (pred : α → Bool) (f : α → α) : List α → List α
  | [] => []
  | a :: rest => if pred a then f a :: rest else a :: modifyFirst pred f rest

/-- The call `xs.findIndex(pred)`; `none` is the result -1. -/
def findIndex {α : Type} (pred : α → Bool) : List α → Option Nat
  | [] => none
  | a :: rest => if pred a then some 0 else (findIndex pred rest).map (fun i => i + 1)

/-- Update of the object at position `i` of an array. -/
def modifyAt {α : Type} (i : Nat) (f : α → α) : List α → List α
  | [] => []
  | a :: rest =>
    match i with
    | 0 => f a :: rest
    | k + 1 => a :: modifyAt k f rest

/-- The statement `if (room.timerInterval) clearInterval(room.timerInterval)`. -/
def clearInterval (t : Option Interval) : Option Interval :=
  t.map (fun i => { i with active := false })

/-- The read `room.words[room.targetIndex]`; `none` is `undefined`. -/
def targetWord (room : Room) : Option String :=
  match room.targetIndex with
  | none => none
  | some i => room.words[i]?

/-- The test `p => p.id === room.imposterId`. -/
def isImposter (imposterId : Option SocketId) (p : Player) : Bool := some p.id == imposterId

/-! ## handleStealLife -/

def handleStealLife (room : Room) (imposterId : Option SocketId) (targetId : Option SocketId) :
    Room × List Eff :=
  if room.phase ≠ .STEAL_LIFE then (room, []) else
  if imposterId ≠ room.imposterId then (room, []) else
  let room := { room with timerInterval := clearInterval room.timerInterval }
  match targetId with
  | none =>
    -- timeout: the impostor loses a life, the round ends
    let room := { room with
      players := modifyFirst (isImposter room.imposterId)
        (fun p => { p with lives := max 0 (p.lives - 1) }) room.players }
    (room,
      [ .emit .room (.round_end
          { result := .INNOCENTS_WIN, reason := .STEAL_TIMEOUT, victimId := none,
            imposterId := room.imposterId, targetWord := targetWord room,
            players := room.players, bonusAwarded := none }),
        .schedule .startNextRound ])
  | some victimId =>
    match room.players.find? (fun p => p.id == victimId) with
    | none => (room, [])
    | some targetPlayer =>
      if targetPlayer.isGhost || targetPlayer.role == some .IMPOSTOR then (room, []) else
      -- deduct life
      let victimLives := max 0 (targetPlayer.lives - 1)
      let room := { room with
        players := modifyFirst (fun p => p.id == victimId)
          (fun p => { p with lives := max 0 (p.lives - 1) }) room.players }
      let effs1 : List Eff :=
        [ .emit .room (.life_stolen targetPlayer.id targetPlayer.name) ] ++
        (if victimLives ≤ 0 && !targetPlayer.isGhost then
          [ .emit (.socket targetPlayer.id)
              (.spectator_update room.targetIndex room.imposterId room.words) ]
         else [])
      -- add life to the impostor
      let bonusAwarded : Bool :=
        match room.players.find? (isImposter room.imposterId) with
        | none => false
        | some imposter => imposter.lives == MAX_LIVES
      let room := { room with
        players := modifyFirst (isImposter room.imposterId)
          (fun p => { p with
            hasBonusCard := if p.lives = MAX_LIVES then true else p.hasBonusCard,
            lives := min MAX_LIVES (p.lives + 1) }) room.players }
      let reason : Reason :=
        if room.stealReason = .val .WORD_GUESSED then .WORD_GUESSED else .NO_MAJORITY
      let word := targetWord room
      let room := { room with stealReason := .null }
      (room,
        effs1 ++
        [ .emit .room (.round_end
            { result := .IMPOSTOR_WIN, reason := reason, victimId := some victimId,
              imposterId := room.imposterId, targetWord := word,
              players := room.players, bonusAwarded := some bonusAwarded }),
          .schedule .startNextRound ])

/-! ## resolveVotes -/

/-- The update `voteCounts[targetId] = (voteCounts[targetId] || 0) + 1`. -/
def tallyAdd (voteCounts : List (SocketId × Nat)) (targetId : SocketId) :
    List (SocketId × Nat) :=
  match voteCounts with
  | [] => [(targetId, 1)]
  | (k, c) :: rest =>
    if k = targetId then (k, c + 1) :: rest else (k, c) :: tallyAdd rest targetId

/-- The tally loop over `Object.values(room.votes)`. -/
def tally (votes : List (SocketId × Target)) : List (SocketId × Nat) :=
  votes.foldl (fun voteCounts v =>
    match v.2 with
    | .SKIP => voteCounts
    | .player targetId => tallyAdd voteCounts targetId) []

/-- The loop that finds `electedId`: the first entry of the tally whose count
exceeds `livingPlayers.length / 2` (a real-number division, so the test is
`livingPlayers.length < 2 * count`). -/
def electedId (room : Room) : Option SocketId :=
  ((tally room.votes).find? (fun e => decide ((livingPlayers room).length < 2 * e.2))).map
    (fun e => e.1)

def resolveVotes (room : Room) : Room × List Eff :=
  let elected := electedId room
  if elected.isSome ∧ elected = room.imposterId then
    -- impostor caught -> last chance
    let room := { room with phase := .RESOLUTION }
    (room, [ .emit .room (.impostor_caught room.imposterId),
             .emit .room (.room_update (getSafeRoom room)) ])
  else
    -- impostor not caught (no majority or innocent voted)
    let room := { room with phase := .STEAL_LIFE }
    let reason : Reason := if elected.isSome then .INNOCENT_VOTED else .NO_MAJORITY
    let votedName : Option String :=
      match elected with
      | none => none
      | some e =>
        match room.players.find? (fun p => p.id == e) with
        | some votedPlayer => some votedPlayer.name
        | none => some "Unknown"
    let room := { room with stealReason := .val reason }
    let effs : List Eff :=
      [ .emit .room (.phase_change_steal reason votedName),
        .emit .room (.room_update (getSafeRoom room)) ]
    -- timer for the steal-life phase (10 seconds)
    let room := { room with timer := 10 }
    (({ room with timerInterval := some { kind := .steal, active := true } } : Room),
      effs ++ [ .emit .room (.timer_tick 10) ])

/-! ## startGame -/

/-- An entry of `wordsData.categories` (the word table is not part of the
server file; the entry drawn is a parameter). -/
structure Category where
  name : String
  words : List String
  deriving DecidableEq, Repr

/-- The random draws of one call of `startGame`, in the order the code makes
them: the category entry, the target index, the impostor pick, the streak
re-pick, and one draw for each iteration of the shuffle loop. -/
structure Draws where
  category : Category
  target : Nat
  pick : Nat
  repick : Nat
  shuffle : List Nat
  deriving DecidableEq, Repr

/-- The expression `p.timesImpostor || 0`. -/
def timesOf (p : Player) : Nat := p.timesImpostor.getD 0

/-- The value `Math.min(...livingPlayers.map(p => p.timesImpostor || 0))` for a non-empty
list (`startGame` returns before this line when nobody is living). -/
def minTimes (living : List (Nat × Player)) : Nat :=
  match living.map (fun ip => timesOf ip.2) with
  | [] => 0
  | a :: rest => rest.foldl min a

/-- Steps 3 and "avoid streak" of the impostor draw.  Players are paired with
their position in `room.players`, which identifies the object. -/
def selectImposter (lastImposterId : Option SocketId) (d : Draws)
    (candidates : List (Nat × Player)) : Option (Nat × Player) :=
  match candidates[d.pick % candidates.length]? with
  | none => none
  | some selectedPlayer =>
    if lastImposterId.isSome && decide (candidates.length > 1)
        && (some selectedPlayer.2.id == lastImposterId) then
      let otherCandidates := candidates.filter (fun c => some c.2.id != lastImposterId)
      if otherCandidates.length > 0 then
        otherCandidates[d.repick % otherCandidates.length]?
      else some selectedPlayer
    else some selectedPlayer

/-- The swap `[xs[i], xs[j]] = [xs[j], xs[i]]`. -/
def swapAt {α : Type} (xs : List α) (i j : Nat) : List α :=
  match xs[i]?, xs[j]? with
  | some a, some b => (xs.set i b).set j a
  | _, _ => xs

/-- The Fisher-Yates loop `for (let i = n - 1; i > 0; i--)`, entered with the
loop variable equal to the first argument. -/
def shuffleLoop : Nat → List Nat → List Player → List Player
  | 0, _, players => players
  | i + 1, draws, players =>
    let j := draws.headD 0 % (i + 2)
    shuffleLoop i draws.tail (swapAt players (i + 1) j)

def shuffle (draws : List Nat) (players : List Player) : List Player :=
  shuffleLoop (players.length - 1) draws players

def startGame (room : Room) (d : Draws) : Room × List Eff :=
  -- 1. category and words
  let room := { room with category := some d.category.name, words := d.category.words }
  -- 2. target and impostor
  let room := { room with targetIndex := some (d.target % 12) }
  let living := room.players.enum.filter (fun ip => isLiving ip.2)
  if living.length < 1 then (room, []) else
  let minT := minTimes living
  let candidates := living.filter (fun ip => timesOf ip.2 == minT)
  let candidates := if candidates.length = 0 then living else candidates
  match selectImposter room.lastImposterId d candidates with
  | none => (room, [])
  | some selectedPlayer =>
    let room := { room with imposterId := some selectedPlayer.2.id }
    let room := { room with lastImposterId := room.imposterId }
    let room := { room with
      players := modifyAt selectedPlayer.1
        (fun (p : Player) => { p with timesImpostor := some (timesOf p + 1) }) room.players }
    -- 3. assign roles
    let room := { room with
      players := room.players.map (fun (p : Player) =>
        { p with
          role := if decide (p.lives > 0) && !p.isGhost then
                    (if some p.id == room.imposterId then some .IMPOSTOR else some .INNOCENT)
                  else some .SPECTATOR,
          votesReceived := some 0 }) }
    -- 4. randomize turn order
    let room := { room with players := shuffle d.shuffle room.players }
    -- notify spectators of the new secrets
    let deadPlayers := room.players.filter (fun p => decide (p.lives ≤ 0) || p.isGhost)
    let effs1 : List Eff := deadPlayers.map (fun p =>
      .emit (.socket p.id) (.spectator_update room.targetIndex room.imposterId room.words))
    -- 0. start countdown
    let room := { room with phase := .COUNTDOWN }
    (room,
      effs1 ++ [ .emit .room (.room_update (getSafeRoom room)) ]
        ++ room.players.map (fun p => .emit (.socket p.id) (.your_role none))
        ++ [ .emit .room (.timer_tick 3), .schedule (.countdown 3) ])

/-! ## proceedToSetup, clue phase, voting phase -/

/-- The `secretData` object built for player `p`. -/
def secretData (room : Room) (p : Player) : SecretData :=
  { role := p.role,
    targetIndex := if p.role = some .INNOCENT then room.targetIndex else none }

def proceedToSetup (room : Room) : Room × List Eff :=
  let room := { room with phase := .SETUP, currentTurnIndex := -1, clues := [], votes := [] }
  (room,
    [ .emit .room (.game_started room.category room.words) ]
      ++ room.players.map (fun p => .emit (.socket p.id) (.your_role (some (secretData room p))))
      ++ [ .schedule .startCluePhase ])

def startVotingPhase (room : Room) : Room × List Eff :=
  let room := { room with phase := .VOTE, votes := [] }
  let room := { room with
    players := room.players.map (fun (p : Player) => { p with votesReceived := some 0 }) }
  let effs1 : List Eff := [ .emit .room (.phase_change_vote room.clues) ]
  let room := { room with timer := 30 }
  (({ room with timerInterval := some { kind := .vote, active := true } } : Room),
    effs1 ++ [ .emit .room (.timer_tick 30) ])

/-- Body of `nextTurn`; the first argument bounds the number of nested calls
(`nextTurn` calls itself once for each dead player it skips). -/
def nextTurnLoop : Nat → Room → Room × List Eff
  | 0, room => (room, [])
  | fuel + 1, room =>
    let room := { room with currentTurnIndex := room.currentTurnIndex + 1 }
    if room.currentTurnIndex ≥ room.players.length then startVotingPhase room
    else if room.currentTurnIndex < 0 then (room, [])
    else
      match room.players[room.currentTurnIndex.toNat]? with
      | none => (room, [])
      | some currentPlayer =>
        if decide (currentPlayer.lives ≤ 0) || currentPlayer.isGhost then nextTurnLoop fuel room
        else
          let room := { room with timer := CLUE_TIME_LIMIT }
          (({ room with
              timerInterval := some { kind := .clue currentPlayer.id, active := true } } : Room),
            [ .emit .room (.room_update (getSafeRoom room)) ])

def nextTurn (room : Room) : Room × List Eff :=
  nextTurnLoop (room.players.length + 1) room

def startCluePhase (room : Room) : Room × List Eff :=
  let room := { room with phase := .CLUE, currentTurnIndex := -1 }
  let r := nextTurn room
  (r.1, [ .emit .room (.room_update (getSafeRoom room)) ] ++ r.2)

def handleClueSubmission (room : Room) (playerId : SocketId) (clueText : String) :
    Room × List Eff :=
  let room := { room with timerInterval := clearInterval room.timerInterval }
  match room.players.find? (fun p => p.id == playerId) with
  | some player =>
    let clue : Clue := { playerId := player.id, playerName := player.name, text := clueText }
    let room := { room with clues := room.clues ++ [clue] }
    let r := nextTurn room
    (r.1, [ .emit .room (.clue_submitted clue) ] ++ r.2)
  | none => nextTurn room

/-- The assignment `room.votes[voterId] = target`. -/
def setVote (votes : List (SocketId × Target)) (voterId : SocketId) (target : Target) :
    List (SocketId × Target) :=
  match votes with
  | [] => [(voterId, target)]
  | (k, v) :: rest =>
    if k = voterId then (k, target) :: rest else (k, v) :: setVote rest voterId target

/-- The read `room.votes[voterId]`; `none` is `undefined`. -/
def getVote (votes : List (SocketId × Target)) (voterId : SocketId) : Option Target :=
  (votes.find? (fun kv => kv.1 == voterId)).map (fun kv => kv.2)

def checkVotingResult (room : Room) : Room × List Eff :=
  let totalVotesCast := room.votes.length
  if totalVotesCast ≥ (livingPlayers room).length then
    if room.timer > 5 then
      (({ room with timer := 5 } : Room), [ .emit .room (.timer_tick 5) ])
    else (room, [])
  else (room, [])

/-! ## Head-to-head -/

/-- The array `[0, 1, 1].sort(() => Math.random() - 0.5)`: one of the three arrangements
of one safe (0) and two unsafe (1) buttons. -/
def h2hShuffle (d : Nat) : List Nat :=
  match d % 3 with
  | 0 => [0, 1, 1]
  | 1 => [1, 0, 1]
  | _ => [1, 1, 0]

def startHeadToHead (room : Room) (d : Nat) : Room × List Eff :=
  let room := { room with timerInterval := clearInterval room.timerInterval }
  let room := { room with phase := .HEAD_TO_HEAD, currentTurnIndex := 0 }
  -- convert bonus cards to lives
  let room := { room with
    players := room.players.map (fun (p : Player) =>
      if decide (p.lives > 0) && !p.isGhost then
        if p.hasBonusCard then { p with lives := p.lives + 1, hasBonusCard := false } else p
      else p) }
  let room := { room with h2hButtons := some (h2hShuffle d) }
  let duelists := livingPlayers room
  let room := { room with duelists := some (duelists.map (fun p => p.id)) }
  (room,
    [ .emit .room (.head_to_head_start room.players (duelists.head?.map (fun p => p.id))),
      .emit .room (.room_update (getSafeRoom room)) ])

/-- The read `duelists[room.currentTurnIndex % 2]`; the remainder has the sign of the
dividend and a negative index reads `undefined`. -/
def duelistAt {α : Type} (duelists : List α) (currentTurnIndex : Int) : Option α :=
  let i := Int.tmod currentTurnIndex 2
  if i < 0 then none else duelists[i.toNat]?

def handleHeadToHeadAction (room : Room) (playerId : SocketId) (buttonIndex : Nat) (d : Nat) :
    Room × List Eff :=
  if room.phase ≠ .HEAD_TO_HEAD then (room, []) else
  let duelists := room.players.enum.filter (fun ip => isLiving ip.2)
  match duelistAt duelists room.currentTurnIndex with
  | none => (room, [])
  | some currentDuelist =>
    if currentDuelist.2.id ≠ playerId then (room, []) else
    if buttonIndex > 2 then (room, []) else
    match room.h2hButtons with
    | none => (room, [])
    | some buttons =>
      let isSafe : Bool := buttons[buttonIndex]? == some 0
      let lives : Int := if isSafe then currentDuelist.2.lives else currentDuelist.2.lives - 1
      let room := { room with
        players := if isSafe then room.players
          else modifyAt currentDuelist.1
            (fun (p : Player) => { p with lives := p.lives - 1 }) room.players }
      let effs1 : List Eff :=
        [ .emit .room (.head_to_head_result playerId buttonIndex isSafe lives) ]
      if lives ≤ 0 then
        let winner := (duelists.find? (fun ip => ip.2.id != currentDuelist.2.id)).map
          (fun ip => ip.2)
        (room, effs1 ++ [ .schedule (.h2hGameOver winner) ])
      else
        let room := { room with currentTurnIndex := room.currentTurnIndex + 1 }
        let room := { room with h2hButtons := some (h2hShuffle d) }
        let nextDuelist := duelistAt duelists room.currentTurnIndex
        (room, effs1 ++ [ .schedule (.h2hTurn (nextDuelist.map (fun ip => ip.2.id))) ])

/-! ## startNextRound -/

/-- All random draws a handler may need: those of `startGame` and the button
shuffle of the head-to-head. -/
structure Rand where
  game : Draws
  buttons : Nat
  deriving DecidableEq, Repr

def startNextRound (room : Room) (rnd : Rand) : Room × List Eff :=
  let living := livingPlayers room
  if living.length < 2 then
    let winner := if living.length = 1 then living.head? else none
    let room := { room with phase := .GAME_OVER }
    (room,
      [ .emit .room (.game_over room.players
          (match winner with
           | some w => w.name
           | none => "Nessuno") none) ])
  else if living.length = 2 then startHeadToHead room rnd.buttons
  else startGame room rnd.game

/-! ## Socket handlers -/

/-- The room object built by `create_room`. -/
def createRoom (socketId : SocketId) (playerName : String) (roomId : String) : Room :=
  { id := roomId,
    players := [ { id := socketId, name := playerName, role := none, lives := MAX_LIVES,
                   hasBonusCard := false, isGhost := false, isHost := true,
                   score := none, votesReceived := none, timesImpostor := none } ],
    phase := .LOBBY, category := none, words := [], targetIndex := none, imposterId := none,
    currentTurnIndex := 0, clues := [], votes := [], timer := 0, timerInterval := none,
    lastImposterId := none, stealReason := .undefined, h2hButtons := none, duelists := none }

def joinRoom (room : Room) (socketId : SocketId) (playerName : String) : Room × List Eff :=
  if room.phase ≠ .LOBBY then
    (room, [ .emit (.socket socketId) (.error "Game already started") ])
  else if room.players.any (fun p => p.name == playerName) then
    (room, [ .emit (.socket socketId) (.error "Name already taken in this room") ])
  else
    let room := { room with
      players := room.players ++
        [ { id := socketId, name := playerName, isHost := room.players.length == 0,
            lives := MAX_LIVES, isGhost := false, score := some 0, role := none,
            votesReceived := some 0, hasBonusCard := false, timesImpostor := some 0 } ] }
    (room, [ .emit .room (.room_update (getSafeRoom room)) ])

def onStartGame (room : Room) (socketId : SocketId) (d : Draws) : Room × List Eff :=
  if room.players.length < 3 then
    (room, [ .emit (.socket socketId) (.error "Need at least 3 players") ])
  else startGame room d

def onRestartRound (room : Room) (d : Draws) : Room × List Eff :=
  startGame room d

/-- The `disconnect` handler on the room; `none` when the room is deleted. -/
def onDisconnect (room : Room) (socketId : SocketId) : Option Room × List Eff :=
  match findIndex (fun p => p.id == socketId) room.players with
  | none => (some room, [])
  | some playerIndex =>
    if room.phase = .LOBBY then
      let room := { room with players := room.players.eraseIdx playerIndex }
      if room.players.length = 0 then (none, [])
      else (some room, [ .emit .room (.room_update (getSafeRoom room)) ])
    else (some room, [])

def onVotePlayer (room : Room) (socketId : SocketId) (targetId : Target) : Room × List Eff :=
  if room.phase ≠ .VOTE then (room, []) else
  match room.players.find? (fun p => p.id == socketId) with
  | none => (room, [])
  | some voter =>
    if voter.lives ≤ 0 then (room, []) else
    let room := { room with votes := setVote room.votes socketId targetId }
    checkVotingResult room

def onImpostorGuess (room : Room) (socketId : SocketId) (wordIndex : Nat) : Room × List Eff :=
  if room.phase ≠ .RESOLUTION then (room, []) else
  if some socketId ≠ room.imposterId then (room, []) else
  let word := targetWord room
  if some wordIndex = room.targetIndex then
    -- correct guess: the impostor goes on to choose a victim
    let room := { room with phase := .STEAL_LIFE, stealReason := .val .WORD_GUESSED }
    (room,
      [ .emit .room (.impostor_guess_result { success := true, word := word, isBonus := none }),
        .schedule .stealTimerStart ])
  else
    match room.players.find? (isImposter room.imposterId) with
    | none =>
      (room,
        [ .emit .room (.impostor_guess_result { success := false, word := word, isBonus := none }),
          .schedule .roundEndFailed ])
    | some imposter =>
      if imposter.hasBonusCard then
        let room := { room with
          players := modifyFirst (isImposter room.imposterId)
            (fun (p : Player) => { p with hasBonusCard := false }) room.players }
        (room,
          [ .emit .room (.impostor_guess_result
              { success := false, word := none, isBonus := some true }),
            .emit .room (.bonus_card_used room.imposterId),
            .emit .room (.room_update (getSafeRoom room)) ])
      else
        let room := { room with
          players := modifyFirst (isImposter room.imposterId)
            (fun (p : Player) => { p with lives := max 0 (p.lives - 1) }) room.players }
        (room,
          [ .emit .room (.impostor_guess_result
              { success := false, word := word, isBonus := none }),
            .schedule .roundEndFailed ])

def onDebugForceH2H (room : Room) (d : Nat) : Room × List Eff :=
  if room.players.length ≥ 2 then
    let room := { room with
      players :=
        (room.players.take 2).map (fun (p : Player) => { p with lives := 1, isGhost := false })
        ++ (room.players.drop 2).map (fun (p : Player) => { p with lives := 0, isGhost := true }) }
    startHeadToHead room d
  else (room, [])

/-! ## Timer callbacks -/

/-- The auto-SKIP loop of the vote timer:
`livingPlayers.forEach(p => { if (!room.votes[p.id]) room.votes[p.id] = 'SKIP' })`. -/
def autoSkip (room : Room) : List (SocketId × Target) :=
  (livingPlayers room).foldl (fun votes p =>
    if (getVote votes p.id).isNone then setVote votes p.id .SKIP else votes) room.votes

/-- One firing of the interval held in `room.timerInterval`. -/
def intervalTick (room : Room) : Room × List Eff :=
  match room.timerInterval with
  | none => (room, [])
  | some t =>
    if !t.active then (room, []) else
    let room := { room with timer := room.timer - 1 }
    match t.kind with
    | .clue currentPlayerId =>
      -- grace period: wait until the timer has passed 0 by two seconds
      if room.timer ≤ -2 then
        let room := { room with timerInterval := clearInterval room.timerInterval }
        handleClueSubmission room currentPlayerId "nessun indizio"
      else (room, [ .emit .room (.timer_tick (max 0 room.timer)) ])
    | .vote =>
      if room.timer ≤ 0 then
        let room := { room with timerInterval := clearInterval room.timerInterval }
        let room := { room with votes := autoSkip room }
        resolveVotes room
      else (room, [ .emit .room (.timer_tick (max 0 room.timer)) ])
    | .steal =>
      if room.timer ≤ 0 then
        let room := { room with timerInterval := clearInterval room.timerInterval }
        handleStealLife room room.imposterId none
      else (room, [ .emit .room (.timer_tick room.timer) ])

/-- The automatic reset to the lobby, ten seconds after the duel has ended. -/
def resetToLobby (room : Room) : Room × List Eff :=
  let room := { room with
    phase := .LOBBY, category := none, words := [], targetIndex := none, imposterId := none,
    currentTurnIndex := 0, clues := [], votes := [], timer := 0, h2hButtons := some [] }
  let room := { room with timerInterval := none }
  let room := { room with
    players := room.players.map (fun (p : Player) =>
      { p with lives := MAX_LIVES, role := none, isGhost := false, votesReceived := some 0,
               hasBonusCard := false, score := some 0, timesImpostor := some 0 }) }
  (room, [ .emit .room (.room_update (getSafeRoom room)) ])

/-- One firing of a continuation that is not held in `room.timerInterval`. -/
def firePending (room : Room) (k : Pending) (rnd : Rand) : Room × List Eff :=
  match k with
  | .countdown n =>
    let countdown := n - 1
    if countdown > 0 then
      (room, [ .emit .room (.timer_tick countdown), .schedule (.countdown countdown) ])
    else proceedToSetup room
  | .startCluePhase => startCluePhase room
  | .stealTimerStart =>
    let effs : List Eff :=
      [ .emit .room (.phase_change_steal .WORD_GUESSED none),
        .emit .room (.room_update (getSafeRoom room)) ]
    let room := { room with timer := 10 }
    (({ room with timerInterval := some { kind := .steal, active := true } } : Room),
      effs ++ [ .emit .room (.timer_tick 10) ])
  | .roundEndFailed =>
    (room,
      [ .emit .room (.round_end
          { result := .INNOCENTS_WIN, reason := .IMPOSTOR_FAILED, victimId := none,
            imposterId := room.imposterId, targetWord := targetWord room,
            players := room.players, bonusAwarded := none }),
        .schedule .startNextRound ])
  | .startNextRound => startNextRound room rnd
  | .h2hTurn nextDuelistId =>
    match nextDuelistId with
    | none => (room, [])
    | some turnPlayerId =>
      (room, [ .emit .room (.head_to_head_turn turnPlayerId),
               .emit .room (.room_update (getSafeRoom room)) ])
  | .h2hGameOver winner =>
    let room := { room with phase := .GAME_OVER }
    match winner with
    | none => (room, [])
    | some w =>
      (room, [ .emit .room (.game_over room.players w.name (some w.id)),
               .schedule .resetToLobby ])
  | .resetToLobby => resetToLobby room

/-! ## The room as a transition system -/

/-- What a socket or a timer can make happen to the room. -/
inductive Event where
  | join_room (socketId : SocketId) (playerName : String)
  | start_game (socketId : SocketId) (d : Draws)
  | disconnect (socketId : SocketId)
  | submit_clue (socketId : SocketId) (clue : String)
  | vote_player (socketId : SocketId) (targetId : Target)
  | impostor_guess (socketId : SocketId) (wordIndex : Nat)
  | restart_round (socketId : SocketId) (d : Draws)
  | steal_life (socketId : SocketId) (targetId : Option SocketId)
  | head_to_head_action (socketId : SocketId) (buttonIndex : Nat) (d : Nat)
  | debug_force_h2h (socketId : SocketId) (d : Nat)
  | interval_tick
  | timeout (i : Nat) (rnd : Rand)
  deriving DecidableEq, Repr

/-- The registry entry of the room (`none` once deleted) and the continuations
that are scheduled. -/
structure State where
  room : Option Room
  pending : List Pending
  deriving DecidableEq, Repr

/-- The continuations scheduled by a handler. -/
def scheduled (effs : List Eff) : List Pending :=
  effs.filterMap (fun e =>
    match e with
    | .schedule k => some k
    | .emit _ _ => none)

/-- The socket handlers on an existing room. -/
def onEvent (room : Room) (e : Event) : Option Room × List Eff :=
  let keep (r : Room × List Eff) : Option Room × List Eff := (some r.1, r.2)
  match e with
  | .join_room socketId playerName => keep (joinRoom room socketId playerName)
  | .start_game socketId d => keep (onStartGame room socketId d)
  | .disconnect socketId => onDisconnect room socketId
  | .submit_clue socketId clue => keep (handleClueSubmission room socketId clue)
  | .vote_player socketId targetId => keep (onVotePlayer room socketId targetId)
  | .impostor_guess socketId wordIndex => keep (onImpostorGuess room socketId wordIndex)
  | .restart_round _ d => keep (onRestartRound room d)
  | .steal_life socketId targetId => keep (handleStealLife room (some socketId) targetId)
  | .head_to_head_action socketId buttonIndex d =>
    keep (handleHeadToHeadAction room socketId buttonIndex d)
  | .debug_force_h2h _ d => keep (onDebugForceH2H room d)
  | .interval_tick => keep (intervalTick room)
  | .timeout _ _ => (some room, [])

/-- One handler or timer callback run to completion. -/
def step (s : State) (e : Event) : State × List Eff :=
  match e with
  | .timeout i rnd =>
    match s.pending[i]? with
    | none => (s, [])
    | some k =>
      match s.room with
      | none => ({ s with pending := s.pending.eraseIdx i }, [])
      | some room =>
        let r := firePending room k rnd
        ({ room := some r.1, pending := s.pending.eraseIdx i ++ scheduled r.2 }, r.2)
  | e =>
    match s.room with
    | none =>
      match e with
      | .join_room socketId _ => (s, [ .emit (.socket socketId) (.error "Room not found") ])
      | _ => (s, [])
    | some room =>
      let r := onEvent room e
      ({ room := r.1, pending := s.pending ++ scheduled r.2 }, r.2)

/-- State after a sequence of events. -/
def run (s : State) (es : List Event) : State :=
  es.foldl (fun s e => (step s e).1) s

/-- State right after `create_room`. -/
def initState (socketId : SocketId) (playerName : String) (roomId : String) : State :=
  { room := some (createRoom socketId playerName roomId), pending := [] }

/-- The states the room goes through, from `create_room` on. -/
inductive Reachable : State → Prop where
  | create (socketId : SocketId) (playerName : String) (roomId : String) :
      Reachable (initState socketId playerName roomId)
  | step (s : State) (e : Event) : Reachable s → Reachable (step s e).1

/-! ## Vocabulary of the properties -/

/-- Number of votes in `room.votes` that name `c` (none of them is `SKIP`). -/
def votesFor (room : Room) (c : SocketId) : Nat :=
  room.votes.countP (fun v => v.2 == Target.player c)

/-- Number of votes in `room.votes` other than `SKIP`. -/
def nonSkipVotes (room : Room) : Nat :=
  room.votes.countP (fun v => v.2 != Target.SKIP)

/-- The read `voteCounts[k] || 0`. -/
def countOf (voteCounts : List (SocketId × Nat)) (k : SocketId) : Nat :=
  match voteCounts with
  | [] => 0
  | (k', c) :: rest => if k' = k then c else countOf rest k

/-- The `round_end` payloads among the effects of a handler. -/
def roundEnds (effs : List Eff) : List RoundEnd :=
  effs.filterMap (fun e =>
    match e with
    | .emit .room (.round_end r) => some r
    | _ => none)

/-- The `your_role` payloads among the effects of a handler, with the socket
each one is sent to. -/
def yourRoles (effs : List Eff) : List (SocketId × Option SecretData) :=
  effs.filterMap (fun e =>
    match e with
    | .emit (.socket i) (.your_role d) => some (i, d)
    | _ => none)

/-- The `impostor_guess_result` payloads among the effects of a handler. -/
def guessResults (effs : List Eff) : List GuessResult :=
  effs.filterMap (fun e =>
    match e with
    | .emit .room (.impostor_guess_result r) => some r
    | _ => none)

/-- What the role invariant reads of a room: the impostor id and the id and
role of each player, in order. -/
def roleView (room : Room) : Option SocketId × List (SocketId × Option Role) :=
  (room.imposterId, room.players.map (fun p => (p.id, p.role)))

/-- Every player holding IMPOSTOR has the id `imposterId`, and no player
holding INNOCENT has it. -/
def RoleInv (room : Room) : Prop :=
  ∀ p ∈ room.players,
    (p.role = some .IMPOSTOR → room.imposterId = some p.id)
    ∧ (p.role = some .INNOCENT → room.imposterId ≠ some p.id)

/-- What "a living player holds the role" reads of a room: the impostor id and
the id, role, lives and ghost flag of each player, in order. -/
def lifeView (room : Room) :
    Option SocketId × List (SocketId × Option Role × Int × Bool) :=
  (room.imposterId, room.players.map (fun p => (p.id, p.role, p.lives, p.isGhost)))

/-- Number of living players (lives > 0 and not ghost) whose role is IMPOSTOR. -/
def livingImpostors (room : Room) : Nat :=
  room.players.countP (fun p => isLiving p && p.role == some .IMPOSTOR)

/-- The list `candidates` of `startGame`: the living players, paired with their
position in `room.players`, whose `timesImpostor || 0` equals `minTimes`. -/
def candidatesOf (room : Room) : List (Nat × Player) :=
  (room.players.enum.filter (fun ip => isLiving ip.2)).filter (fun ip =>
    timesOf ip.2 == minTimes (room.players.enum.filter (fun ip => isLiving ip.2)))

/-- The living players whose `timesImpostor || 0` is least among the living
players. -/
def leastPlayed (room : Room) : List Player :=
  (livingPlayers room).filter (fun p =>
    (livingPlayers room).all (fun q => decide (timesOf p ≤ timesOf q)))

/-- The bounds on a player's lives: between 0 and 4, and at most 3 while the
player holds a bonus card. -/
def LivesOk (p : Player) : Prop :=
  0 ≤ p.lives ∧ p.lives ≤ 4 ∧ (p.hasBonusCard = true → p.lives ≤ 3)

/-- What every handler other than `startGame`, the lobby reset, `join_room`,
`disconnect` and `debug_force_h2h` does to a player, `imp` being the room's
`imposterId`: id, `timesImpostor` and ghost flag stay; the bounds on lives
are kept; a player without lives gets none unless the player is `imp`. -/
def Upd (imp : Option SocketId) (p p' : Player) : Prop :=
  p'.id = p.id ∧ p'.timesImpostor = p.timesImpostor ∧ p'.isGhost = p.isGhost
  ∧ (LivesOk p → LivesOk p')
  ∧ (p.lives = 0 → p'.lives = 0 ∨ imp = some p.id)
  ∧ (p.lives ≤ 0 → p'.lives ≤ 0 ∨ imp = some p.id)

/-- The same for a room: `imposterId` stays, the players are updated one by
one, and the phase LOBBY is not entered (a room that is in LOBBY afterwards
was in LOBBY before, with the same players). -/
def RoomUpd (r r' : Room) : Prop :=
  r'.imposterId = r.imposterId
  ∧ (r'.phase = .LOBBY → r.phase = .LOBBY ∧ r'.players = r.players)
  ∧ List.Forall₂ (Upd r.imposterId) r.players r'.players

/-- The event fires the continuation that resets the room to the lobby. -/
def firesReset (s : State) (e : Event) : Bool :=
  match e with
  | .timeout i _ => s.pending[i]? == some .resetToLobby
  | _ => false

/-- The event is `debug_force_h2h`. -/
def isDebugForce (e : Event) : Bool :=
  match e with
  | .debug_force_h2h _ _ => true
  | _ => false

/-- The sequence of events, run from state `s`, neither fires the reset to the
lobby nor contains `debug_force_h2h`. -/
def withoutReset : State → List Event → Bool
  | _, [] => true
  | s, e :: es => !firesReset s e && !isDebugForce e && withoutReset (step s e).1 es

/-- The socket `id` is in the room, each of its players has no lives left, it
is not the room's impostor, and the room is not in the lobby. -/
def Eliminated (id : SocketId) (r : Room) : Prop :=
  r.phase ≠ .LOBBY ∧ r.imposterId ≠ some id ∧ (∃ p ∈ r.players, p.id = id)
  ∧ ∀ p ∈ r.players, p.id = id → p.lives = 0

/-- The player is living or is the room's impostor. -/
def InPlay (r : Room) (p : Player) : Prop := isLiving p = true ∨ r.imposterId = some p.id

/-- The invariant behind the fairness of the draw: player ids are pairwise
distinct, every `timesImpostor || 0` is 0 in the lobby, and the values of any
two players who are living or the impostor differ by at most 1. -/
def Fair (r : Room) : Prop :=
  (r.players.map (fun p => p.id)).Nodup
  ∧ (r.phase = .LOBBY → ∀ p ∈ r.players, timesOf p = 0)
  ∧ ∀ p ∈ r.players, ∀ q ∈ r.players, InPlay r p → InPlay r q → timesOf p ≤ timesOf q + 1

/-- The event is a `join_room` by a socket that is already in the room. -/
def joinsAgain (s : State) (e : Event) : Bool :=
  match e, s.room with
  | .join_room socketId _, some r => r.players.any (fun p => p.id == socketId)
  | _, _ => false

/-- The sequence of events, run from state `s`, contains neither
`debug_force_h2h` nor a `join_room` by a socket that is already in the room. -/
def normalPlay : State → List Event → Bool
  | _, [] => true
  | s, e :: es => !isDebugForce e && !joinsAgain s e && normalPlay (step s e).1 es

/-- The lives of the players of the room, with their ids, in order. -/
def livesOf (s : State) : Option (List (SocketId × Int)) :=
  s.room.map (fun r => r.players.map (fun p => (p.id, p.lives)))

/-- The array `room.h2hButtons` has three entries, one of them safe (0) and two
unsafe (1). -/
def ButtonsOk (r : Room) : Prop :=
  ∃ b, r.h2hButtons = some b ∧ b.length = 3 ∧ b.count 0 = 1 ∧ b.count 1 = 2

/-- The room after `startHeadToHead` and a sequence of `head_to_head_action`
calls, each with its socket, its button and the draw of its reshuffle. -/
def duel (room : Room) (d : Nat) (actions : List (SocketId × Nat × Nat)) : Room :=
  actions.foldl (fun r a => (handleHeadToHeadAction r a.1 a.2.1 a.2.2).1)
    (startHeadToHead room d).1

/-- A room in HEAD_TO_HEAD has its three buttons, one of them safe, and a turn
index that is not negative. -/
def ButtonsInv (r : Room) : Prop :=
  r.phase = .HEAD_TO_HEAD → ButtonsOk r ∧ 0 ≤ r.currentTurnIndex

/-- What every handler other than `join_room` and `disconnect` keeps: the
names of the players (up to the turn-order shuffle), the lower bound -1 of
`currentTurnIndex`, and the buttons and turn index of a room in HEAD_TO_HEAD. -/
def Keeps (r r' : Room) : Prop :=
  (r'.players.map (fun p => p.name)).Perm (r.players.map (fun p => p.name))
  ∧ (-1 ≤ r.currentTurnIndex → -1 ≤ r'.currentTurnIndex)
  ∧ (ButtonsInv r → ButtonsInv r')

/-- The names of the players are pairwise distinct, there is a player, the turn
index is at least -1, and a room in HEAD_TO_HEAD has its three buttons and a
turn index that is not negative. -/
def Roster (r : Room) : Prop :=
  (r.players.map (fun p => p.name)).Nodup ∧ r.players ≠ []
  ∧ -1 ≤ r.currentTurnIndex ∧ ButtonsInv r

/-- The player object `join_room` pushes on a room that has a player already. -/
def joined (socketId : SocketId) (playerName : String) : Player :=
  { id := socketId, name := playerName, isHost := false, lives := 3, isGhost := false,
    score := some 0, role := none, votesReceived := some 0, hasBonusCard := false,
    timesImpostor := some 0 }

/-- The phase of the room. -/
def phaseOf (s : State) : Option Phase := s.room.map (fun r => r.phase)

/-- The clue log of the room: socket and text of each clue. -/
def cluesOf (s : State) : Option (List (SocketId × String)) :=
  s.room.map (fun r => r.clues.map (fun c => (c.playerId, c.text)))

/-- The turn index, the votes and the timer of the room. -/
def turnOf (s : State) : Option (Int × List (SocketId × Target) × Int) :=
  s.room.map (fun r => (r.currentTurnIndex, r.votes, r.timer))

/-- The duelist whose turn it is: `duelists[room.currentTurnIndex % 2]`. -/
def currentDuelist (room : Room) : Option (Nat × Player) :=
  duelistAt (room.players.enum.filter (fun ip => isLiving ip.2)) room.currentTurnIndex

/-! ## Concrete rooms used in the examples -/

/-- A player with three lives as `join_room` creates it, with the given role. -/
def mkPlayer (id : SocketId) (name : String) (role : Option Role) (lives : Int) : Player :=
  { id := id, name := name, role := role, lives := lives, hasBonusCard := false,
    isGhost := false, isHost := false, score := some 0, votesReceived := some 0,
    timesImpostor := some 0 }

def words12 : List String :=
  ["w0", "w1", "w2", "w3", "w4", "w5", "w6", "w7", "w8", "w9", "w10", "w11"]

/-- A room in the middle of a round with the given players, phase, impostor and
votes. -/
def mkRoom (players : List Player) (phase : Phase) (imposterId : Option SocketId)
    (votes : List (SocketId × Target)) : Room :=
  { id := "ROOM", players := players, phase := phase, category := some "cat",
    words := words12, targetIndex := some 0, imposterId := imposterId,
    currentTurnIndex := 0, clues := [], votes := votes, timer := 0, timerInterval := none,
    lastImposterId := imposterId, stealReason := .undefined, h2hButtons := none,
    duelists := none }

/-- Four living players A, B, C, D (ids 1 to 4) in VOTE; B is the impostor. -/
def room4 (votes : List (SocketId × Target)) : Room :=
  mkRoom [ mkPlayer 1 "A" (some .INNOCENT) 3, mkPlayer 2 "B" (some .IMPOSTOR) 3,
           mkPlayer 3 "C" (some .INNOCENT) 3, mkPlayer 4 "D" (some .INNOCENT) 3 ]
    .VOTE (some 2) votes

/-- The votes {A->B, B->B, C->SKIP, D->SKIP}. -/
def votesTwoForB : List (SocketId × Target) :=
  [(1, .player 2), (2, .player 2), (3, .SKIP), (4, .SKIP)]

/-- The votes {A->SKIP, B->SKIP, C->SKIP, D->SKIP}. -/
def votesAllSkip : List (SocketId × Target) :=
  [(1, .SKIP), (2, .SKIP), (3, .SKIP), (4, .SKIP)]

/-- The votes {A->B, B->B, C->B, D->SKIP}. -/
def votesThreeForB : List (SocketId × Target) :=
  [(1, .player 2), (2, .player 2), (3, .player 2), (4, .SKIP)]

/-- The votes {A->C, B->C, C->SKIP, D->C}. -/
def votesThreeForC : List (SocketId × Target) :=
  [(1, .player 3), (2, .player 3), (3, .SKIP), (4, .player 3)]

/-- The four-player room in STEAL_LIFE (B, id 2, is the impostor) with the
given lives of C and the given steal reason. -/
def stealRoom (livesC : Int) (reason : Reason) : Room :=
  { mkRoom [ mkPlayer 1 "A" (some .INNOCENT) 3, mkPlayer 2 "B" (some .IMPOSTOR) 3,
             mkPlayer 3 "C" (some .INNOCENT) livesC, mkPlayer 4 "D" (some .INNOCENT) 3 ]
      .STEAL_LIFE (some 2) [] with stealReason := .val reason }

/-- The lobby after `create_room` by A (socket 1) and `join_room` by B (2) and
C (3). -/
def lobby3 : Room :=
  (joinRoom (joinRoom (createRoom 1 "A" "ROOM") 2 "B").1 3 "C").1

/-- Draws of `startGame` that differ only in the impostor pick; the shuffle
draws leave the order of three players as it is. -/
def drawsWithPick (pick : Nat) : Draws :=
  { category := { name := "cat", words := words12 }, target := 0, pick := pick, repick := 0,
    shuffle := [2, 1] }

/-- Draws for the three-player game: every call of `startGame` takes the first
candidate as impostor and leaves the turn order as it is. -/
def firstPick : Rand := { game := drawsWithPick 0, buttons := 0 }

/-- From COUNTDOWN to the end of the clue phase: the three countdown ticks, the
setup delay, and one clue from each of A, B, C. -/
def playToVote : List Event :=
  [ .timeout 0 firstPick, .timeout 0 firstPick, .timeout 0 firstPick, .timeout 0 firstPick,
    .submit_clue 1 "a", .submit_clue 2 "b", .submit_clue 3 "c" ]

/-- The five ticks of the vote timer once everybody has voted. -/
def fiveTicks : List Event :=
  [ .interval_tick, .interval_tick, .interval_tick, .interval_tick, .interval_tick ]

/-- Everybody votes SKIP and the vote timer runs out. -/
def allSkip : List Event :=
  [ .vote_player 1 .SKIP, .vote_player 2 .SKIP, .vote_player 3 .SKIP ] ++ fiveTicks

/-- Three rounds of a three-player game after `create_room` by A.  Round 1: A is
the impostor, nobody is elected, A steals a life from C.  Round 2: B is the
impostor, nobody is elected, B steals a life from C.  Round 3: C, with one
life left, is the impostor, is voted out by all three and guesses word 5
(the target is word 0). -/
def threeRounds : List Event :=
  [ .join_room 2 "B", .join_room 3 "C", .start_game 1 (drawsWithPick 0) ]
    ++ playToVote ++ allSkip ++ [ .steal_life 1 (some 3), .timeout 0 firstPick ]
    ++ playToVote ++ allSkip ++ [ .steal_life 2 (some 3), .timeout 0 firstPick ]
    ++ playToVote
    ++ [ .vote_player 1 (.player 3), .vote_player 2 (.player 3), .vote_player 3 (.player 3) ]
    ++ fiveTicks ++ [ .impostor_guess 3 5 ]

/-- The four-player room in RESOLUTION (B, id 2, is the impostor and has been
voted out) with the given lives and bonus card of B. -/
def guessRoom (livesB : Int) (bonusB : Bool) : Room :=
  mkRoom [ mkPlayer 1 "A" (some .INNOCENT) 3,
           { mkPlayer 2 "B" (some .IMPOSTOR) livesB with hasBonusCard := bonusB },
           mkPlayer 3 "C" (some .INNOCENT) 3, mkPlayer 4 "D" (some .INNOCENT) 3 ]
    .RESOLUTION (some 2) votesThreeForB

/-- Three players A, B, C with the given lives at the end of a round (B was the
impostor). -/
def roundEndRoom (livesA livesB livesC : Int) : Room :=
  mkRoom [ mkPlayer 1 "A" (some .INNOCENT) livesA, mkPlayer 2 "B" (some .IMPOSTOR) livesB,
           mkPlayer 3 "C" (some .INNOCENT) livesC ]
    .STEAL_LIFE (some 2) []

/-- The three-player lobby in which A (socket 1) was the impostor of the last
round played (the state after a match and the reset to the lobby). -/
def lobbyAfterA : Room := { lobby3 with lastImposterId := some 1 }

/-- The three rounds of `threeRounds`, the 3-second delay after the wrong guess
and the 5-second delay of the next round: two players are living, so
`startNextRound` starts the head-to-head. -/
def toHeadToHead : List Event :=
  threeRounds ++ [ .timeout 0 firstPick, .timeout 0 firstPick ]

/-- Three rounds of a three-player game after `create_room` by A.  Round 1: A is
the impostor, nobody is elected, A steals a life from B.  Round 2: B is the
impostor, is voted out by all three and guesses word 5 (the target is word
0).  Round 3: C is the impostor, nobody is elected, C steals B's last
life. -/
def bLosesAll : List Event :=
  [ .join_room 2 "B", .join_room 3 "C", .start_game 1 (drawsWithPick 0) ]
    ++ playToVote ++ allSkip ++ [ .steal_life 1 (some 2), .timeout 0 firstPick ]
    ++ playToVote
    ++ [ .vote_player 1 (.player 2), .vote_player 2 (.player 2), .vote_player 3 (.player 2) ]
    ++ fiveTicks ++ [ .impostor_guess 2 5, .timeout 0 firstPick, .timeout 0 firstPick ]
    ++ playToVote ++ allSkip ++ [ .steal_life 3 (some 2) ]

/-- Round 1 of the three-player game up to the steal: A is the impostor, nobody
is elected, A steals a life from C; `startNextRound` is scheduled. -/
def roundOneSteal : List Event :=
  [ .join_room 2 "B", .join_room 3 "C", .start_game 1 (drawsWithPick 0) ]
    ++ playToVote ++ allSkip ++ [ .steal_life 1 (some 3) ]

/-- From `create_room` to the first turn of the clue phase: A, B, C in the
room, A the impostor, the countdown and the setup delay have run; it is the
turn of A (index 0). -/
def toClue : List Event :=
  [ .join_room 2 "B", .join_room 3 "C", .start_game 1 (drawsWithPick 0),
    .timeout 0 firstPick, .timeout 0 firstPick, .timeout 0 firstPick, .timeout 0 firstPick ]

/-- The clue phase played to its end and one vote cast: the room is in VOTE. -/
def toVote : List Event :=
  toClue ++ [ .submit_clue 1 "a", .submit_clue 2 "b", .submit_clue 3 "c",
              .vote_player 1 (.player 2) ]

/-- The four-player room in STEAL_LIFE (B the impostor) with the 10-second steal
timer running, as `resolveVotes` leaves it. -/
def stealTimed (livesC : Int) : Room :=
  { stealRoom livesC .NO_MAJORITY with
    timer := 10, timerInterval := some { kind := .steal, active := true } }

/-- Three players in CLUE, B without lives, the turn of A (index 0) just
played. -/
def clueRoom : Room :=
  { roundEndRoom 3 0 3 with phase := .CLUE, currentTurnIndex := 0 }

/-- The head-to-head of A and B (3 lives each, C is out), the buttons being
[0, 1, 1]; it is the turn of A. -/
def h2hRoom : Room := (startHeadToHead (roundEndRoom 3 3 0) 0).1

/-! # Properties -/

/-! ## The tally of `resolveVotes` -/

theorem countOf_tallyAdd (acc : List (SocketId × Nat)) (t k : SocketId) :
    countOf (tallyAdd acc t) k = countOf acc k + (if k = t then 1 else 0) := by
  induction acc with
  | nil =>
    by_cases h : k = t
    · simp [tallyAdd, countOf, h]
    · have h' : ¬ t = k := fun e => h e.symm
      simp [tallyAdd, countOf, h, h']
  | cons e rest ih =>
    obtain ⟨k', c⟩ := e
    by_cases h1 : k' = t
    · by_cases h2 : k' = k
      · have h3 : k = t := h2 ▸ h1
        simp [tallyAdd, countOf, h1, h2, h3]
      · have h3 : ¬ k = t := fun e => h2 (h1.trans e.symm)
        simp [tallyAdd, countOf, h1, h2, h3]
        subst h1
        simp [h2]
    · by_cases h2 : k' = k
      · have h3 : ¬ k = t := fun e => h1 (h2.trans e)
        simp [tallyAdd, countOf, h1, h2, h3]
      · simp [tallyAdd, countOf, h1, h2, ih]

theorem keys_tallyAdd (acc : List (SocketId × Nat)) (t : SocketId) :
    (tallyAdd acc t).map Prod.fst =
      if t ∈ acc.map Prod.fst then acc.map Prod.fst else acc.map Prod.fst ++ [t] := by
  induction acc with
  | nil => simp [tallyAdd]
  | cons e rest ih =>
    obtain ⟨k', c⟩ := e
    by_cases h1 : k' = t
    · simp [tallyAdd, h1]
    · have h2 : ¬ t = k' := fun e => h1 e.symm
      simp only [tallyAdd, h1, if_false, List.map_cons, ih, List.mem_cons, h2, false_or]
      split <;> simp

theorem nodup_tallyAdd (acc : List (SocketId × Nat)) (t : SocketId)
    (h : (acc.map Prod.fst).Nodup) : ((tallyAdd acc t).map Prod.fst).Nodup := by
  rw [keys_tallyAdd]
  split
  · exact h
  · rename_i hn
    rw [List.nodup_append]
    refine ⟨h, by simp, ?_⟩
    intro a ha hb
    simp at hb
    subst hb
    exact hn ha

theorem countOf_of_mem (acc : List (SocketId × Nat)) (k n : SocketId)
    (h : (acc.map Prod.fst).Nodup) (hm : (k, n) ∈ acc) : countOf acc k = n := by
  induction acc with
  | nil => simp at hm
  | cons e rest ih =>
    obtain ⟨k', c⟩ := e
    simp only [List.map_cons, List.nodup_cons] at h
    simp only [List.mem_cons, Prod.mk.injEq] at hm
    rcases hm with ⟨h1, h2⟩ | hm
    · simp [countOf, h1, h2]
    · have hk : k ∈ rest.map Prod.fst := List.mem_map_of_mem Prod.fst hm
      have hne : ¬ k' = k := fun e => h.1 (e ▸ hk)
      simp [countOf, hne, ih h.2 hm]

theorem mem_of_countOf_pos (acc : List (SocketId × Nat)) (k : SocketId)
    (h : 0 < countOf acc k) : (k, countOf acc k) ∈ acc := by
  induction acc with
  | nil => simp [countOf] at h
  | cons e rest ih =>
    obtain ⟨k', c⟩ := e
    by_cases h1 : k' = k
    · simp [countOf, h1]
    · simp only [countOf, h1, if_false] at h ⊢
      exact List.mem_cons_of_mem _ (ih h)

theorem tally_fold (votes : List (SocketId × Target)) :
    ∀ acc : List (SocketId × Nat), (acc.map Prod.fst).Nodup →
      let res := votes.foldl (fun voteCounts v =>
        match v.2 with
        | .SKIP => voteCounts
        | .player targetId => tallyAdd voteCounts targetId) acc
      (res.map Prod.fst).Nodup ∧
        ∀ k, countOf res k = countOf acc k + votes.countP (fun v => v.2 == Target.player k) := by
  induction votes with
  | nil => intro acc h; simp [h]
  | cons v rest ih =>
    intro acc h
    obtain ⟨voter, tgt⟩ := v
    cases tgt with
    | SKIP =>
      have := ih acc h
      simp only [List.foldl_cons] at this ⊢
      refine ⟨this.1, fun k => ?_⟩
      rw [this.2 k, List.countP_cons]
      simp
    | player t =>
      have := ih (tallyAdd acc t) (nodup_tallyAdd acc t h)
      simp only [List.foldl_cons] at this ⊢
      refine ⟨this.1, fun k => ?_⟩
      rw [this.2 k, countOf_tallyAdd, List.countP_cons]
      by_cases hk : k = t
      · subst hk; simp; omega
      · have hk' : ¬ t = k := fun e => hk e.symm
        simp [hk, hk']

theorem tally_nodup (votes : List (SocketId × Target)) : ((tally votes).map Prod.fst).Nodup :=
  (tally_fold votes [] (by simp)).1

theorem countOf_tally (votes : List (SocketId × Target)) (k : SocketId) :
    countOf (tally votes) k = votes.countP (fun v => v.2 == Target.player k) := by
  have := (tally_fold votes [] (by simp)).2 k
  simpa [countOf, tally] using this

theorem votesFor_add_le (votes : List (SocketId × Target)) (c c' : SocketId) (h : c ≠ c') :
    votes.countP (fun v => v.2 == Target.player c) + votes.countP (fun v => v.2 == Target.player c')
      ≤ votes.countP (fun v => v.2 != Target.SKIP) := by
  induction votes with
  | nil => simp
  | cons v rest ih =>
    obtain ⟨voter, tgt⟩ := v
    simp only [List.countP_cons]
    cases tgt with
    | SKIP => simpa using ih
    | player t =>
      by_cases h1 : t = c
      · have h2 : ¬ t = c' := fun e => h (h1.symm.trans e)
        simp [h1, h2] at ih ⊢
        subst h1
        simp [h2]
        omega
      · by_cases h2 : t = c'
        · simp [h1, h2] at ih ⊢; subst h2; simp [h1]; omega
        · simp [h1, h2]; omega

theorem electedId_majority (room : Room) (c : SocketId) (h : electedId room = some c) :
    (livingPlayers room).length < 2 * votesFor room c := by
  unfold electedId at h
  rw [Option.map_eq_some'] at h
  obtain ⟨e, he, hc⟩ := h
  have hp := List.find?_some he
  have hm := List.mem_of_find?_eq_some he
  obtain ⟨k, n⟩ := e
  simp only at hc
  subst hc
  have := countOf_of_mem _ _ _ (tally_nodup room.votes) hm
  rw [countOf_tally] at this
  simp only [decide_eq_true_eq] at hp
  unfold votesFor
  omega

theorem electedId_of_majority (room : Room) (c : SocketId)
    (hvotes : nonSkipVotes room ≤ (livingPlayers room).length)
    (h : (livingPlayers room).length < 2 * votesFor room c) : electedId room = some c := by
  have hpos : 0 < countOf (tally room.votes) c := by
    rw [countOf_tally]; unfold votesFor at h; omega
  have hmem := mem_of_countOf_pos _ _ hpos
  rw [countOf_tally] at hmem
  cases hfind : (tally room.votes).find?
      (fun e => decide ((livingPlayers room).length < 2 * e.2)) with
  | none =>
    rw [List.find?_eq_none] at hfind
    have := hfind _ hmem
    simp only [decide_eq_true_eq] at this
    unfold votesFor at h
    exact absurd h this
  | some e =>
    have hc' : electedId room = some e.1 := by simp [electedId, hfind]
    have h' := electedId_majority room e.1 hc'
    by_cases hne : c = e.1
    · rw [hc', hne]
    · have := votesFor_add_le room.votes c e.1 hne
      unfold votesFor at h h'
      unfold nonSkipVotes at hvotes
      omega

theorem electedId_isSome_of_majority (room : Room) (c : SocketId)
    (h : (livingPlayers room).length < 2 * votesFor room c) :
    ∃ e, electedId room = some e ∧ (livingPlayers room).length < 2 * votesFor room e := by
  have hpos : 0 < countOf (tally room.votes) c := by
    rw [countOf_tally]; unfold votesFor at h; omega
  have hmem := mem_of_countOf_pos _ _ hpos
  rw [countOf_tally] at hmem
  cases hfind : (tally room.votes).find?
      (fun e => decide ((livingPlayers room).length < 2 * e.2)) with
  | none =>
    rw [List.find?_eq_none] at hfind
    have := hfind _ hmem
    simp only [decide_eq_true_eq] at this
    unfold votesFor at h
    exact absurd h this
  | some e =>
    have hc : electedId room = some e.1 := by simp [electedId, hfind]
    exact ⟨e.1, hc, electedId_majority room e.1 hc⟩

/-- C1: in `resolveVotes`, a candidate id is elected only if the number of
non-SKIP votes naming it is strictly greater than half the number of living
players, and whenever some candidate has such a majority a candidate with such
a majority is elected.  With at most one non-SKIP vote per living player (each
vote is cast by a living player and a player holds one entry of the vote map)
the candidate is elected if and only if it has the strict majority.  With 4
living players a candidate with exactly 2 votes is not elected and, the four
players holding at most 4 votes, a candidate with 3 votes is. -/
theorem resolveVotes_elects_strict_majority (room : Room) (c : SocketId) :
    (electedId room = some c → (livingPlayers room).length < 2 * votesFor room c)
    ∧ ((livingPlayers room).length < 2 * votesFor room c →
        ∃ e, electedId room = some e ∧ (livingPlayers room).length < 2 * votesFor room e)
    ∧ (nonSkipVotes room ≤ (livingPlayers room).length →
        (electedId room = some c ↔ (livingPlayers room).length < 2 * votesFor room c))
    ∧ ((livingPlayers room).length = 4 → votesFor room c = 2 → electedId room ≠ some c)
    ∧ ((livingPlayers room).length = 4 → nonSkipVotes room ≤ 4 → votesFor room c = 3 →
        electedId room = some c) := by
  refine ⟨electedId_majority room c, electedId_isSome_of_majority room c,
    fun hvotes => ⟨electedId_majority room c, electedId_of_majority room c hvotes⟩, ?_, ?_⟩
  · intro h4 h2 he
    have := electedId_majority room c he
    omega
  · intro h4 hvotes h3
    exact electedId_of_majority room c (by omega) (by omega)

/-- Witness of C1 on the four-player room: three votes for B elect B, two votes
for B do not. -/
theorem resolveVotes_elects_strict_majority_witness :
    electedId (room4 votesThreeForB) = some 2
    ∧ electedId (room4 votesTwoForB) ≠ some 2 :=
  ⟨(resolveVotes_elects_strict_majority (room4 votesThreeForB) 2).2.2.2.2
      (by decide) (by decide) (by decide),
   (resolveVotes_elects_strict_majority (room4 votesTwoForB) 2).2.2.2.1
      (by decide) (by decide)⟩

theorem resolveVotes_caught (room : Room) (e : SocketId) (h : electedId room = some e)
    (hi : room.imposterId = some e) : (resolveVotes room).1.phase = .RESOLUTION := by
  simp [resolveVotes, h, hi]

theorem resolveVotes_innocent (room : Room) (e : SocketId) (h : electedId room = some e)
    (hi : room.imposterId ≠ some e) :
    (resolveVotes room).1.phase = .STEAL_LIFE
      ∧ (resolveVotes room).1.stealReason = .val .INNOCENT_VOTED := by
  have hi' : ¬ some e = room.imposterId := fun x => hi x.symm
  simp [resolveVotes, h, hi']

theorem resolveVotes_nobody (room : Room) (h : electedId room = none) :
    (resolveVotes room).1.phase = .STEAL_LIFE
      ∧ (resolveVotes room).1.stealReason = .val .NO_MAJORITY := by
  simp [resolveVotes, h]

/-- C2: `resolveVotes` sets the phase to RESOLUTION exactly when the elected
candidate is the impostor; otherwise it sets the phase to STEAL_LIFE, with
stealReason INNOCENT_VOTED when some other candidate was elected and
NO_MAJORITY when nobody was elected.  With 4 living players, B the impostor,
the votes {A->B, B->B, C->SKIP, D->SKIP} and the votes all SKIP both give
STEAL_LIFE with NO_MAJORITY. -/
theorem resolveVotes_phase_and_reason (room : Room) :
    ((resolveVotes room).1.phase = .RESOLUTION ↔
        ∃ e, electedId room = some e ∧ room.imposterId = some e)
    ∧ ((∃ e, electedId room = some e ∧ room.imposterId ≠ some e) →
        (resolveVotes room).1.phase = .STEAL_LIFE
          ∧ (resolveVotes room).1.stealReason = .val .INNOCENT_VOTED)
    ∧ (electedId room = none →
        (resolveVotes room).1.phase = .STEAL_LIFE
          ∧ (resolveVotes room).1.stealReason = .val .NO_MAJORITY)
    ∧ ((resolveVotes (room4 votesTwoForB)).1.phase
          = .STEAL_LIFE
        ∧ (resolveVotes (room4 votesTwoForB)).1.stealReason
          = .val .NO_MAJORITY)
    ∧ ((resolveVotes (room4 votesAllSkip)).1.phase
          = .STEAL_LIFE
        ∧ (resolveVotes (room4 votesAllSkip)).1.stealReason
          = .val .NO_MAJORITY) := by
  refine ⟨⟨?_, ?_⟩, ?_, resolveVotes_nobody room, ?_, ?_⟩
  · intro hph
    cases he : electedId room with
    | none => rw [(resolveVotes_nobody room he).1] at hph; cases hph
    | some e =>
      by_cases hi : room.imposterId = some e
      · exact ⟨e, rfl, hi⟩
      · rw [(resolveVotes_innocent room e he hi).1] at hph; cases hph
  · rintro ⟨e, he, hi⟩
    exact resolveVotes_caught room e he hi
  · rintro ⟨e, he, hi⟩
    exact resolveVotes_innocent room e he hi
  · exact resolveVotes_nobody _ (by decide)
  · exact resolveVotes_nobody _ (by decide)

/-- Witness of C2: three votes for an innocent give STEAL_LIFE with
INNOCENT_VOTED, three votes for the impostor give RESOLUTION. -/
theorem resolveVotes_phase_and_reason_witness :
    ((resolveVotes (room4 votesThreeForC)).1.phase
        = .STEAL_LIFE
      ∧ (resolveVotes (room4 votesThreeForC)).1.stealReason
        = .val .INNOCENT_VOTED)
    ∧ (resolveVotes (room4 votesThreeForB)).1.phase
        = .RESOLUTION :=
  ⟨(resolveVotes_phase_and_reason
      (room4 votesThreeForC)).2.1
      ⟨3, by decide, by decide⟩,
   (resolveVotes_phase_and_reason
      (room4 votesThreeForB)).1.2
      ⟨2, by decide, by decide⟩⟩

/-! ## The broadcast view `getSafeRoom` -/

theorem getField_setField_same {β : Type} (o : List (String × β)) (k : String) (v : β) :
    getField (setField o k v) k = some v := by
  induction o with
  | nil => simp [setField, getField]
  | cons e rest ih =>
    obtain ⟨k', v'⟩ := e
    by_cases h : k' = k
    · simp [setField, getField, h]
    · simp [setField, getField, h, ih]

theorem getField_setField_ne {β : Type} (o : List (String × β)) (k k' : String) (v : β)
    (hne : k' ≠ k) : getField (setField o k v) k' = getField o k' := by
  induction o with
  | nil =>
    have : ¬ k = k' := fun e => hne e.symm
    simp [setField, getField, this]
  | cons e rest ih =>
    obtain ⟨k'', v'⟩ := e
    by_cases h : k'' = k
    · subst h
      have : ¬ k'' = k' := fun e => hne e.symm
      simp [setField, getField, this]
    · by_cases h2 : k'' = k'
      · subst h2
        simp [setField, getField, h]
      · simp [setField, getField, h, h2, ih]

theorem getField_omitFields_mem {β : Type} (o : List (String × β)) (ks : List String)
    (k : String) (hk : k ∈ ks) : getField (omitFields o ks) k = none := by
  induction o with
  | nil => simp [omitFields, getField]
  | cons e rest ih =>
    obtain ⟨k', v'⟩ := e
    simp only [omitFields, List.filter_cons] at ih ⊢
    by_cases h : k' ∈ ks
    · simpa [h] using ih
    · have hne : ¬ k' = k := fun e => h (e ▸ hk)
      simpa [h, getField, hne] using ih

theorem getField_omitFields_not_mem {β : Type} (o : List (String × β)) (ks : List String)
    (k : String) (hk : k ∉ ks) : getField (omitFields o ks) k = getField o k := by
  induction o with
  | nil => simp [omitFields, getField]
  | cons e rest ih =>
    obtain ⟨k', v'⟩ := e
    simp only [omitFields, List.filter_cons] at ih ⊢
    by_cases h : k' ∈ ks
    · have hne : ¬ k' = k := fun e => hk (e ▸ h)
      simpa [h, getField, hne] using ih
    · by_cases h2 : k' = k
      · subst h2
        simp [h, getField]
      · simpa [h, getField, h2] using ih

theorem getField_toObj_role (p : Player) :
    getField p.toObj "role" = some (nullable (fun r => .str r.toString) p.role) := by
  simp [Player.toObj, getField]

theorem getSafeRoom_reveal (room : Room) (h : room.phase ∈ revealPhases) :
    getSafeRoom room =
      setField (setField (omitFields room.toObj ["timerInterval", "imposterId", "targetIndex"])
        "imposterId" (.prim (nullable .sid room.imposterId)))
        "players" (.players (room.players.map Player.toObj)) := by
  cases hph : room.phase <;>
    simp [getSafeRoom, revealPhases, revealPhasesPlayers, hph] at h ⊢

theorem getSafeRoom_hidden (room : Room) (h : room.phase ∉ revealPhases) :
    getSafeRoom room =
      setField
        (if room.phase = .COUNTDOWN then
          setField (setField
            (omitFields room.toObj ["timerInterval", "imposterId", "targetIndex"])
            "category" (.prim .null)) "words" (.strings [])
         else omitFields room.toObj ["timerInterval", "imposterId", "targetIndex"])
        "players" (.players (room.players.map (fun p => omitFields p.toObj ["role"]))) := by
  cases hph : room.phase <;>
    simp [getSafeRoom, revealPhases, revealPhasesPlayers, hph] at h ⊢

theorem getField_getSafeRoom_omitted (room : Room) (k : String)
    (hk : k ∈ ["timerInterval", "targetIndex"]) : getField (getSafeRoom room) k = none := by
  have h1 : k ≠ "players" := by rintro rfl; simp at hk
  have h2 : k ≠ "imposterId" := by rintro rfl; simp at hk
  have h3 : k ≠ "category" := by rintro rfl; simp at hk
  have h4 : k ≠ "words" := by rintro rfl; simp at hk
  have h5 : k ∈ ["timerInterval", "imposterId", "targetIndex"] := by
    simp at hk ⊢; tauto
  by_cases hr : room.phase ∈ revealPhases
  · rw [getSafeRoom_reveal room hr, getField_setField_ne _ _ _ _ h1,
      getField_setField_ne _ _ _ _ h2]
    exact getField_omitFields_mem _ _ _ h5
  · rw [getSafeRoom_hidden room hr, getField_setField_ne _ _ _ _ h1]
    split
    · rw [getField_setField_ne _ _ _ _ h4, getField_setField_ne _ _ _ _ h3]
      exact getField_omitFields_mem _ _ _ h5
    · exact getField_omitFields_mem _ _ _ h5

/-- C4: `getSafeRoom(room)` has no `timerInterval` field and no `targetIndex`
field; outside the five reveal phases it has no `imposterId` field and no player
entry has a `role` field, every other field of each player being copied
unchanged; in the five reveal phases `imposterId` and every player's `role`
are included. -/
theorem getSafeRoom_projection (room : Room) :
    getField (getSafeRoom room) "timerInterval" = none
    ∧ getField (getSafeRoom room) "targetIndex" = none
    ∧ (room.phase ∉ revealPhases →
        getField (getSafeRoom room) "imposterId" = none
        ∧ ∃ safePlayers : List PlayerObj,
            getField (getSafeRoom room) "players" = some (.players safePlayers)
            ∧ safePlayers.length = room.players.length
            ∧ ∀ (i : Nat) (sp : PlayerObj) (p : Player),
                safePlayers[i]? = some sp → room.players[i]? = some p →
                getField sp "role" = none
                ∧ ∀ k, k ≠ "role" → getField sp k = getField p.toObj k)
    ∧ (room.phase ∈ revealPhases →
        getField (getSafeRoom room) "imposterId" = some (.prim (nullable .sid room.imposterId))
        ∧ getField (getSafeRoom room) "players"
            = some (.players (room.players.map Player.toObj))
        ∧ ∀ p ∈ room.players,
            getField p.toObj "role" = some (nullable (fun r => .str r.toString) p.role)) := by
  refine ⟨getField_getSafeRoom_omitted room _ (by simp),
    getField_getSafeRoom_omitted room _ (by simp), ?_, ?_⟩
  · intro hr
    rw [getSafeRoom_hidden room hr]
    refine ⟨?_, _, getField_setField_same _ _ _, by simp, ?_⟩
    · rw [getField_setField_ne _ _ _ _ (by decide)]
      split
      · rw [getField_setField_ne _ _ _ _ (by decide), getField_setField_ne _ _ _ _ (by decide)]
        exact getField_omitFields_mem _ _ _ (by simp)
      · exact getField_omitFields_mem _ _ _ (by simp)
    · intro i sp p hsp hp
      rw [List.getElem?_map, hp] at hsp
      simp only [Option.map_some', Option.some.injEq] at hsp
      subst hsp
      refine ⟨getField_omitFields_mem _ _ _ (by simp), fun k hk => ?_⟩
      exact getField_omitFields_not_mem _ _ _ (by simpa using hk)
  · intro hr
    rw [getSafeRoom_reveal room hr]
    refine ⟨?_, getField_setField_same _ _ _, fun p _ => getField_toObj_role p⟩
    rw [getField_setField_ne _ _ _ _ (by decide)]
    exact getField_setField_same _ _ _

/-- Witness of C4: the four-player room in VOTE hides the impostor id, the same
room in STEAL_LIFE shows it. -/
theorem getSafeRoom_projection_witness :
    getField (getSafeRoom (room4 [])) "imposterId" = none
    ∧ getField (getSafeRoom { room4 [] with phase := .STEAL_LIFE }) "imposterId"
        = some (.prim (.sid 2)) :=
  ⟨((getSafeRoom_projection (room4 [])).2.2.1 (by decide)).1,
   ((getSafeRoom_projection { room4 [] with phase := .STEAL_LIFE }).2.2.2 (by decide)).1⟩

/-! ## `startGame` and the broadcast view -/

/-- C5, the code at the failing input: two runs of `startGame` on the same
lobby with the same category, target and shuffle draws and a different impostor
pick give COUNTDOWN rooms whose `getSafeRoom` views differ: the view holds
`lastImposterId`, the id of the impostor just drawn.  The target index does
not show: the view is the same for every value of `targetIndex`. -/
theorem startGame_safe_view_shows_impostor :
    (startGame lobby3 (drawsWithPick 0)).1.phase = .COUNTDOWN
    ∧ (startGame lobby3 (drawsWithPick 1)).1.phase = .COUNTDOWN
    ∧ (startGame lobby3 (drawsWithPick 0)).1.imposterId = some 1
    ∧ (startGame lobby3 (drawsWithPick 1)).1.imposterId = some 2
    ∧ getField (getSafeRoom (startGame lobby3 (drawsWithPick 0)).1) "lastImposterId"
        = some (.prim (.sid 1))
    ∧ getField (getSafeRoom (startGame lobby3 (drawsWithPick 1)).1) "lastImposterId"
        = some (.prim (.sid 2))
    ∧ getSafeRoom (startGame lobby3 (drawsWithPick 0)).1
        ≠ getSafeRoom (startGame lobby3 (drawsWithPick 1)).1
    ∧ ∀ (room : Room) (t : Option Nat),
        getSafeRoom { room with targetIndex := t } = getSafeRoom room := by
  refine ⟨by decide, by decide, by decide, by decide, by decide, by decide, by decide, ?_⟩
  intro room t
  simp [getSafeRoom, Room.toObj, omitFields, List.filter_cons]

/-! ## `proceedToSetup` -/

/-- C6: the `your_role` payloads of `proceedToSetup` are one per player,
`{role, targetIndex}` with `targetIndex` the room's target index if and only if
the player's role is INNOCENT; the payload built for the impostor has
`targetIndex` null and is the same for every value of the room's target
index. -/
theorem proceedToSetup_your_role (room : Room) :
    yourRoles (proceedToSetup room).2 =
      room.players.map (fun p => (p.id, some (secretData room p)))
    ∧ (∀ (p : Player) (t : Nat), room.targetIndex = some t →
        ((secretData room p).targetIndex = some t ↔ p.role = some .INNOCENT))
    ∧ (∀ (p : Player), p.role = some .IMPOSTOR →
        (secretData room p).targetIndex = none
        ∧ ∀ t : Option Nat,
            secretData { room with targetIndex := t } p = secretData room p) := by
  refine ⟨?_, ?_, ?_⟩
  · simp only [proceedToSetup, yourRoles, List.filterMap_append, List.filterMap_map,
      List.filterMap_cons, List.filterMap_nil, List.nil_append, List.append_nil, secretData]
    generalize room.players = ps
    induction ps with
    | nil => rfl
    | cons a l ih => simp [List.filterMap_cons, ih, secretData]
  · intro p t ht
    simp [secretData, ht]
  · intro p hp
    simp [secretData, hp]

/-- Witness of C6: the payload of the impostor B in the four-player room. -/
theorem proceedToSetup_your_role_witness :
    (secretData (room4 []) (mkPlayer 2 "B" (some .IMPOSTOR) 3)).targetIndex = none :=
  ((proceedToSetup_your_role (room4 [])).2.2 (mkPlayer 2 "B" (some .IMPOSTOR) 3) rfl).1

/-! ## `handleStealLife` -/

theorem getElem?_modifyFirst {α : Type} (pred : α → Bool) (f : α → α) (l : List α)
    (i : Nat) :
    (modifyFirst pred f l)[i]? = if findIndex pred l = some i then l[i]?.map f else l[i]? := by
  induction l generalizing i with
  | nil => simp [modifyFirst, findIndex]
  | cons a rest ih =>
    by_cases h : pred a = true
    · cases i with
      | zero => simp [modifyFirst, findIndex, h]
      | succ j => simp [modifyFirst, findIndex, h]
    · cases i with
      | zero =>
        simp [modifyFirst, findIndex, h]
      | succ j =>
        simp [modifyFirst, findIndex, h, ih j]

theorem length_modifyFirst {α : Type} (pred : α → Bool) (f : α → α) (l : List α) :
    (modifyFirst pred f l).length = l.length := by
  induction l with
  | nil => rfl
  | cons a rest ih =>
    by_cases h : pred a = true <;> simp [modifyFirst, h, ih]

theorem findIndex_modifyFirst {α : Type} (pred q : α → Bool) (f : α → α) (l : List α)
    (hf : ∀ a, pred (f a) = pred a) :
    findIndex pred (modifyFirst q f l) = findIndex pred l := by
  induction l with
  | nil => rfl
  | cons a rest ih =>
    by_cases h : q a = true
    · simp [modifyFirst, findIndex, h, hf]
    · simp [modifyFirst, findIndex, h, ih]

theorem find?_of_findIndex {α : Type} (pred : α → Bool) (l : List α) (i : Nat) (a : α)
    (h : findIndex pred l = some i) (ha : l[i]? = some a) : l.find? pred = some a := by
  induction l generalizing i with
  | nil => simp [findIndex] at h
  | cons b rest ih =>
    by_cases hb : pred b = true
    · simp [findIndex, hb] at h
      subst h
      simp at ha
      subst ha
      simp [List.find?_cons, hb]
    · simp only [findIndex, hb, Bool.false_eq_true, if_false, Option.map_eq_some'] at h
      obtain ⟨j, hj, rfl⟩ := h
      simp only [List.getElem?_cons_succ] at ha
      simp [List.find?_cons, hb, ih j hj ha]


theorem pred_of_findIndex {α : Type} (pred : α → Bool) (l : List α) (i : Nat) (a : α)
    (h : findIndex pred l = some i) (ha : l[i]? = some a) : pred a = true := by
  have := List.find?_some (find?_of_findIndex pred l i a h ha)
  exact this

/-- C7: for a room in STEAL_LIFE and a valid target chosen by the impostor (a
player of the room other than the impostor, not a ghost and not holding the
role IMPOSTOR), `handleStealLife` sets the victim's lives to max(0, lives - 1)
and the impostor's lives to min(3, lives + 1); the impostor's hasBonusCard
becomes true exactly when the impostor had 3 lives before the steal and is
otherwise unchanged, `bonusAwarded` in `round_end` says the same, and all other
players are unchanged.  In particular an impostor at 3 lives stays at 3 and
gains the bonus card. -/
theorem handleStealLife_valid_steal (room : Room) (impId victimId : SocketId) (vi ii : Nat)
    (victim imp : Player)
    (hphase : room.phase = .STEAL_LIFE) (himp : room.imposterId = some impId)
    (hvi : findIndex (fun p => p.id == victimId) room.players = some vi)
    (hv : room.players[vi]? = some victim)
    (hghost : victim.isGhost = false) (hrole : victim.role ≠ some .IMPOSTOR)
    (hne : victimId ≠ impId)
    (hii : findIndex (isImposter room.imposterId) room.players = some ii)
    (hi : room.players[ii]? = some imp) :
    (∀ (i : Nat) (p : Player), room.players[i]? = some p →
        (handleStealLife room (some impId) (some victimId)).1.players[i]? = some (
          if i = vi then { p with lives := max 0 (p.lives - 1) }
          else if i = ii then
            { p with lives := min 3 (p.lives + 1),
                     hasBonusCard := if p.lives = 3 then true else p.hasBonusCard }
          else p))
    ∧ (handleStealLife room (some impId) (some victimId)).1.players.length
        = room.players.length
    ∧ (roundEnds (handleStealLife room (some impId) (some victimId)).2).map
        (fun r => r.bonusAwarded) = [some (decide (imp.lives = 3))]
    ∧ (imp.lives = 3 →
        (handleStealLife room (some impId) (some victimId)).1.players[ii]? =
          some { imp with lives := 3, hasBonusCard := true }) := by
  have hfind := find?_of_findIndex _ _ _ _ hvi hv
  have hvid : victim.id = victimId := by
    simpa using pred_of_findIndex _ _ _ _ hvi hv
  have hiid : imp.id = impId := by
    have := pred_of_findIndex _ _ _ _ hii hi
    simpa [isImposter, himp] using this
  have hvii : vi ≠ ii := by
    intro e
    subst e
    rw [hv] at hi
    cases hi
    exact hne (hvid.symm.trans hiid)
  have hidx1 : findIndex (isImposter (some impId))
      (modifyFirst (fun p => p.id == victimId)
        (fun p => { p with lives := max 0 (p.lives - 1) }) room.players) = some ii := by
    rw [findIndex_modifyFirst _ _ _ _ (by intro a; rfl), ← himp]
    exact hii
  have h1ii : (modifyFirst (fun p => p.id == victimId)
        (fun p => { p with lives := max 0 (p.lives - 1) }) room.players)[ii]? = some imp := by
    rw [getElem?_modifyFirst, hvi]
    simp [hvii, hi]
  have hfind1 := find?_of_findIndex _ _ _ _ hidx1 h1ii
  have hplayers : (handleStealLife room (some impId) (some victimId)).1.players =
      modifyFirst (isImposter (some impId))
        (fun p => { p with
          hasBonusCard := if p.lives = MAX_LIVES then true else p.hasBonusCard,
          lives := min MAX_LIVES (p.lives + 1) })
        (modifyFirst (fun p => p.id == victimId)
          (fun p => { p with lives := max 0 (p.lives - 1) }) room.players) := by
    simp [handleStealLife, hphase, himp, hfind, hghost, hrole]
  have hpoint : ∀ (i : Nat) (p : Player), room.players[i]? = some p →
        (handleStealLife room (some impId) (some victimId)).1.players[i]? = some (
          if i = vi then { p with lives := max 0 (p.lives - 1) }
          else if i = ii then
            { p with lives := min 3 (p.lives + 1),
                     hasBonusCard := if p.lives = 3 then true else p.hasBonusCard }
          else p) := by
    intro i p hp
    rw [hplayers, getElem?_modifyFirst, hidx1, getElem?_modifyFirst, hvi, hp]
    by_cases h1 : i = vi
    · have h2 : ¬ ii = i := fun e => hvii (h1.symm.trans e.symm)
      simp [h1, h2, hvii]
      intro e; exact absurd e.symm hvii
    · have h1' : ¬ vi = i := fun e => h1 e.symm
      by_cases h2 : i = ii
      · have h3 : ¬ ii = vi := fun e => hvii e.symm
        simp [h1, h1', h2, hvii, h3, MAX_LIVES]
      · have h2' : ¬ ii = i := fun e => h2 e.symm
        simp [h1, h1', h2, h2']
  refine ⟨hpoint, ?_, ?_, ?_⟩
  · rw [hplayers, length_modifyFirst, length_modifyFirst]
  · simp [handleStealLife, hphase, himp, hfind, hghost, hrole, roundEnds, hfind1, MAX_LIVES]
    split <;> simp [List.filterMap_cons] <;>
      (by_cases h : imp.lives = 3 <;> simp [h])
  · intro h3
    have := hpoint ii imp hi
    rw [this]
    have hvii' : ¬ ii = vi := fun e => hvii e.symm
    simp [hvii', h3]
/-- Witness of C7: B (the impostor, 3 lives) steals from C; B stays at 3 lives
and gains the bonus card. -/
theorem handleStealLife_valid_steal_witness :
    (handleStealLife (stealRoom 3 .NO_MAJORITY) (some 2) (some 3)).1.players[1]?
      = some { mkPlayer 2 "B" (some .IMPOSTOR) 3 with lives := 3, hasBonusCard := true } :=
  (handleStealLife_valid_steal (stealRoom 3 .NO_MAJORITY) 2 3 2 1
    (mkPlayer 3 "C" (some .INNOCENT) 3) (mkPlayer 2 "B" (some .IMPOSTOR) 3)
    (by decide) (by decide) (by decide) (by decide) (by decide) (by decide) (by decide)
    (by decide) (by decide)).2.2.2 (by decide)

/-- C8: for a room in STEAL_LIFE, `handleStealLife` called for the impostor with a
null target (timer expiry) lowers the impostor's lives by one, not below 0,
leaves every other player and every player's hasBonusCard unchanged, and
reports `round_end` with result INNOCENTS_WIN and reason STEAL_TIMEOUT. -/
theorem handleStealLife_timeout (room : Room) (caller : Option SocketId)
    (hphase : room.phase = .STEAL_LIFE) (hcaller : caller = room.imposterId) :
    (∀ (i : Nat) (p : Player), room.players[i]? = some p →
        (handleStealLife room caller none).1.players[i]? = some (
          if findIndex (isImposter room.imposterId) room.players = some i then
            { p with lives := max 0 (p.lives - 1) }
          else p))
    ∧ (handleStealLife room caller none).1.players.length = room.players.length
    ∧ (roundEnds (handleStealLife room caller none).2).map (fun r => (r.result, r.reason))
        = [(.INNOCENTS_WIN, .STEAL_TIMEOUT)] := by
  subst hcaller
  have hplayers : (handleStealLife room room.imposterId none).1.players =
      modifyFirst (isImposter room.imposterId)
        (fun p => { p with lives := max 0 (p.lives - 1) }) room.players := by
    simp [handleStealLife, hphase]
  refine ⟨?_, ?_, ?_⟩
  · intro i p hp
    rw [hplayers, getElem?_modifyFirst, hp]
    split <;> simp
  · rw [hplayers, length_modifyFirst]
  · simp [handleStealLife, hphase, roundEnds]

/-- Witness of C8: the timeout takes B (the impostor) from 3 lives to 2. -/
theorem handleStealLife_timeout_witness :
    (handleStealLife (stealRoom 3 .NO_MAJORITY) (some 2) none).1.players[1]?
      = some (mkPlayer 2 "B" (some .IMPOSTOR) 2) :=
  (handleStealLife_timeout (stealRoom 3 .NO_MAJORITY) (some 2) (by decide) (by decide)).1
    1 (mkPlayer 2 "B" (some .IMPOSTOR) 3) (by decide)

/-- C9, the code at the failing input: B steals the last life of C; C is left
with 0 lives and `isGhost` false, and is sent `spectator_update`. -/
theorem handleStealLife_victim_not_flagged :
    (stealRoom 1 .NO_MAJORITY).phase = .STEAL_LIFE
    ∧ (handleStealLife (stealRoom 1 .NO_MAJORITY) (some 2) (some 3)).1.players[2]?
        = some { mkPlayer 3 "C" (some .INNOCENT) 0 with isGhost := false }
    ∧ Eff.emit (.socket 3) (.spectator_update (some 0) (some 2) words12)
        ∈ (handleStealLife (stealRoom 1 .NO_MAJORITY) (some 2) (some 3)).2 := by
  decide

/-- C10, counterexample: STEAL_LIFE entered by `resolveVotes` with stealReason
INNOCENT_VOTED (three votes for C); the valid steal that follows reports
`round_end` with reason NO_MAJORITY. -/
theorem handleStealLife_reason_innocent_voted :
    (resolveVotes (room4 votesThreeForC)).1.phase
      = .STEAL_LIFE
    ∧ (resolveVotes (room4 votesThreeForC)).1.stealReason
      = .val .INNOCENT_VOTED
    ∧ (roundEnds (handleStealLife
        (resolveVotes (room4 votesThreeForC)).1
        (some 2) (some 1)).2).map (fun r => (r.result, r.reason))
      = [(.IMPOSTOR_WIN, .NO_MAJORITY)] := by
  decide

/-- C10, amended: for a room in STEAL_LIFE and a valid steal, `round_end` has
result IMPOSTOR_WIN and its reason is WORD_GUESSED when STEAL_LIFE was entered
with stealReason WORD_GUESSED and NO_MAJORITY otherwise (stealReason
INNOCENT_VOTED or NO_MAJORITY). -/
theorem handleStealLife_round_end_reason (room : Room) (impId victimId : SocketId)
    (victim : Player)
    (hphase : room.phase = .STEAL_LIFE) (himp : room.imposterId = some impId)
    (hfind : room.players.find? (fun p => p.id == victimId) = some victim)
    (hghost : victim.isGhost = false) (hrole : victim.role ≠ some .IMPOSTOR) :
    (roundEnds (handleStealLife room (some impId) (some victimId)).2).map
        (fun r => (r.result, r.reason))
      = [(.IMPOSTOR_WIN,
          if room.stealReason = .val .WORD_GUESSED then .WORD_GUESSED else .NO_MAJORITY)] := by
  simp [handleStealLife, hphase, himp, hfind, hghost, hrole, roundEnds]

/-- Witness of C10 (amended): a steal after a guessed word reports
WORD_GUESSED. -/
theorem handleStealLife_round_end_reason_witness :
    (roundEnds (handleStealLife (stealRoom 3 .WORD_GUESSED) (some 2) (some 3)).2).map
        (fun r => (r.result, r.reason))
      = [(.IMPOSTOR_WIN, .WORD_GUESSED)] :=
  handleStealLife_round_end_reason (stealRoom 3 .WORD_GUESSED) 2 3
    (mkPlayer 3 "C" (some .INNOCENT) 3) (by decide) (by decide) (by decide) (by decide)
    (by decide)

/-! ## The role invariant of the state machine -/

theorem roleInv_iff_view (room : Room) :
    RoleInv room ↔ ∀ x ∈ (roleView room).2,
      (x.2 = some .IMPOSTOR → (roleView room).1 = some x.1)
      ∧ (x.2 = some .INNOCENT → (roleView room).1 ≠ some x.1) := by
  simp [RoleInv, roleView]

theorem roleInv_of_view_eq (r r' : Room) (h : roleView r' = roleView r) (hr : RoleInv r) :
    RoleInv r' := by
  rw [roleInv_iff_view] at hr ⊢
  rw [h]
  exact hr

theorem map_modifyFirst {α β : Type} (pred : α → Bool) (f : α → α) (g : α → β)
    (l : List α) (h : ∀ a, g (f a) = g a) : (modifyFirst pred f l).map g = l.map g := by
  induction l with
  | nil => rfl
  | cons a rest ih =>
    by_cases hp : pred a = true <;> simp [modifyFirst, hp, h, ih]

theorem map_modifyAt {α β : Type} (i : Nat) (f : α → α) (g : α → β) (l : List α)
    (h : ∀ a, g (f a) = g a) : (modifyAt i f l).map g = l.map g := by
  induction l generalizing i with
  | nil => simp [modifyAt]
  | cons a rest ih =>
    cases i with
    | zero => simp [modifyAt, h]
    | succ k => simp [modifyAt, ih]

theorem roleView_handleStealLife (room : Room) (a b : Option SocketId) :
    roleView (handleStealLife room a b).1 = roleView room := by
  simp only [handleStealLife]
  repeat' split
  all_goals first | rfl | simp [roleView, map_modifyFirst]

theorem roleView_resolveVotes (room : Room) : roleView (resolveVotes room).1 = roleView room := by
  simp only [resolveVotes]
  repeat' split
  all_goals rfl

theorem roleView_startVotingPhase (room : Room) :
    roleView (startVotingPhase room).1 = roleView room := by
  simp [startVotingPhase, roleView]

theorem roleView_nextTurnLoop (fuel : Nat) (room : Room) :
    roleView (nextTurnLoop fuel room).1 = roleView room := by
  induction fuel generalizing room with
  | zero => rfl
  | succ n ih =>
    simp only [nextTurnLoop]
    repeat' split
    all_goals first | rfl | (rw [roleView_startVotingPhase]; rfl) | (rw [ih]; rfl)

theorem roleView_nextTurn (room : Room) : roleView (nextTurn room).1 = roleView room :=
  roleView_nextTurnLoop _ room

theorem roleView_startCluePhase (room : Room) :
    roleView (startCluePhase room).1 = roleView room := by
  simp only [startCluePhase]
  rw [roleView_nextTurn]; rfl

theorem roleView_handleClueSubmission (room : Room) (i : SocketId) (t : String) :
    roleView (handleClueSubmission room i t).1 = roleView room := by
  simp only [handleClueSubmission]
  repeat' split
  all_goals (rw [roleView_nextTurn]; rfl)

theorem roleView_proceedToSetup (room : Room) :
    roleView (proceedToSetup room).1 = roleView room := rfl

theorem roleView_checkVotingResult (room : Room) :
    roleView (checkVotingResult room).1 = roleView room := by
  simp only [checkVotingResult]
  repeat' split
  all_goals rfl

theorem roleView_onVotePlayer (room : Room) (i : SocketId) (t : Target) :
    roleView (onVotePlayer room i t).1 = roleView room := by
  simp only [onVotePlayer]
  repeat' split
  all_goals first | rfl | (rw [roleView_checkVotingResult]; rfl)

theorem roleView_onImpostorGuess (room : Room) (i : SocketId) (w : Nat) :
    roleView (onImpostorGuess room i w).1 = roleView room := by
  simp only [onImpostorGuess]
  repeat' split
  all_goals first | rfl | simp [roleView, map_modifyFirst]

theorem roleView_startHeadToHead (room : Room) (d : Nat) :
    roleView (startHeadToHead room d).1 = roleView room := by
  simp only [startHeadToHead, roleView, List.map_map]
  congr 1
  apply List.map_congr_left
  intro p _
  simp only [Function.comp]
  repeat' split
  all_goals rfl

theorem roleView_handleHeadToHeadAction (room : Room) (i : SocketId) (b d : Nat) :
    roleView (handleHeadToHeadAction room i b d).1 = roleView room := by
  simp only [handleHeadToHeadAction]
  repeat' split
  all_goals first | rfl | simp [roleView, map_modifyAt]

theorem roleView_onDebugForceH2H (room : Room) (d : Nat) :
    roleView (onDebugForceH2H room d).1 = roleView room := by
  simp only [onDebugForceH2H]
  split
  · rw [roleView_startHeadToHead]
    simp only [roleView, List.map_append, List.map_map]
    congr 1
    conv => rhs; rw [← List.take_append_drop 2 room.players]
    rw [List.map_append]
    rfl
  · rfl

theorem roleView_intervalTick (room : Room) : roleView (intervalTick room).1 = roleView room := by
  simp only [intervalTick]
  repeat' split
  all_goals first
    | rfl
    | (rw [roleView_handleClueSubmission]; rfl)
    | (rw [roleView_resolveVotes]; rfl)
    | (rw [roleView_handleStealLife]; rfl)

/-! ### The shuffle is a permutation -/

theorem countP_swapAt {α : Type} (p : α → Bool) (l : List α) (i j : Nat) :
    (swapAt l i j).countP p = l.countP p := by
  unfold swapAt
  split
  · rename_i a b ha hb
    obtain ⟨hi, rfl⟩ := List.getElem?_eq_some_iff.1 ha
    obtain ⟨hj, rfl⟩ := List.getElem?_eq_some_iff.1 hb
    have hj' : j < (l.set i l[j]).length := by simpa using hj
    rw [List.countP_set p _ j _ hj', List.countP_set p _ i _ hi]
    have h1 := List.boole_getElem_le_countP p l i hi
    have hget : (l.set i l[j])[j] = l[j] := by
      by_cases hij : i = j
      · subst hij; simp
      · simp [List.getElem_set_ne hij]
    rw [hget]
    split <;> split <;> simp_all
  · rfl

theorem swapAt_perm {α : Type} [DecidableEq α] (l : List α) (i j : Nat) :
    (swapAt l i j).Perm l := by
  rw [List.perm_iff_count]
  intro a
  simp only [List.count_eq_countP]
  exact countP_swapAt _ l i j

theorem shuffleLoop_perm (n : Nat) (ds : List Nat) (l : List Player) :
    (shuffleLoop n ds l).Perm l := by
  induction n generalizing ds l with
  | zero => exact List.Perm.refl _
  | succ k ih =>
    simp only [shuffleLoop]
    exact (ih _ _).trans (swapAt_perm _ _ _)

theorem shuffle_perm (ds : List Nat) (l : List Player) : (shuffle ds l).Perm l :=
  shuffleLoop_perm _ ds l


/-! ### Handlers that assign roles -/

theorem roleInv_startGame (room : Room) (d : Draws) (h : RoleInv room) :
    RoleInv (startGame room d).1 := by
  simp only [startGame]
  split
  · exact h
  · split
    · exact h
    · rename_i sel _
      intro p hp
      simp only at hp
      have hp' := (shuffle_perm _ _).mem_iff.1 hp
      simp only [List.mem_map] at hp'
      obtain ⟨q, _, rfl⟩ := hp'
      simp only
      by_cases hl : (decide (q.lives > 0) && !q.isGhost) = true
      · by_cases hq : q.id = sel.2.id
        · simp [hl, hq]
        · have hq' : ¬ sel.2.id = q.id := fun e => hq e.symm
          simp [hl, hq, hq']
      · simp [hl]

theorem roleInv_resetToLobby (room : Room) : RoleInv (resetToLobby room).1 := by
  intro p hp
  simp only [resetToLobby, List.mem_map] at hp
  obtain ⟨q, _, rfl⟩ := hp
  simp

theorem roleInv_joinRoom (room : Room) (i : SocketId) (n : String) (h : RoleInv room) :
    RoleInv (joinRoom room i n).1 := by
  simp only [joinRoom]
  repeat' split
  · exact h
  · exact h
  · intro p hp
    simp only [List.mem_append, List.mem_singleton] at hp
    rcases hp with hp | rfl
    · exact h p hp
    · simp

theorem roleInv_onDisconnect (room : Room) (i : SocketId) (h : RoleInv room) (r' : Room)
    (hr : (onDisconnect room i).1 = some r') : RoleInv r' := by
  simp only [onDisconnect] at hr
  split at hr
  · cases hr; exact h
  · split at hr
    · split at hr
      · cases hr
      · cases hr
        intro p hp
        exact h p (List.mem_of_mem_eraseIdx hp)
    · cases hr; exact h

theorem roleInv_startNextRound (room : Room) (rnd : Rand) (h : RoleInv room) :
    RoleInv (startNextRound room rnd).1 := by
  simp only [startNextRound]
  repeat' split
  all_goals first
    | exact h
    | exact roleInv_of_view_eq _ _ (roleView_startHeadToHead _ _) h
    | exact roleInv_startGame _ _ h

theorem roleInv_firePending (room : Room) (k : Pending) (rnd : Rand) (h : RoleInv room) :
    RoleInv (firePending room k rnd).1 := by
  cases k with
  | countdown n =>
    simp only [firePending]
    split
    · exact h
    · exact roleInv_of_view_eq _ _ (roleView_proceedToSetup _) h
  | startCluePhase => exact roleInv_of_view_eq _ _ (roleView_startCluePhase _) h
  | stealTimerStart => exact h
  | roundEndFailed => exact h
  | startNextRound => exact roleInv_startNextRound _ _ h
  | h2hTurn n =>
    simp only [firePending]
    split <;> exact h
  | h2hGameOver w =>
    simp only [firePending]
    split <;> exact h
  | resetToLobby => exact roleInv_resetToLobby _

theorem roleInv_onEvent (room : Room) (e : Event) (h : RoleInv room) (r' : Room)
    (hr : (onEvent room e).1 = some r') : RoleInv r' := by
  cases e with
  | join_room i n =>
    simp only [onEvent, Option.some.injEq] at hr; subst hr
    exact roleInv_joinRoom _ _ _ h
  | start_game i d =>
    simp only [onEvent, Option.some.injEq] at hr; subst hr
    simp only [onStartGame]
    split
    · exact h
    · exact roleInv_startGame _ _ h
  | disconnect i => exact roleInv_onDisconnect room i h r' hr
  | submit_clue i c =>
    simp only [onEvent, Option.some.injEq] at hr; subst hr
    exact roleInv_of_view_eq _ _ (roleView_handleClueSubmission _ _ _) h
  | vote_player i t =>
    simp only [onEvent, Option.some.injEq] at hr; subst hr
    exact roleInv_of_view_eq _ _ (roleView_onVotePlayer _ _ _) h
  | impostor_guess i w =>
    simp only [onEvent, Option.some.injEq] at hr; subst hr
    exact roleInv_of_view_eq _ _ (roleView_onImpostorGuess _ _ _) h
  | restart_round i d =>
    simp only [onEvent, Option.some.injEq] at hr; subst hr
    exact roleInv_startGame _ _ h
  | steal_life i t =>
    simp only [onEvent, Option.some.injEq] at hr; subst hr
    exact roleInv_of_view_eq _ _ (roleView_handleStealLife _ _ _) h
  | head_to_head_action i b d =>
    simp only [onEvent, Option.some.injEq] at hr; subst hr
    exact roleInv_of_view_eq _ _ (roleView_handleHeadToHeadAction _ _ _ _) h
  | debug_force_h2h i d =>
    simp only [onEvent, Option.some.injEq] at hr; subst hr
    exact roleInv_of_view_eq _ _ (roleView_onDebugForceH2H _ _) h
  | interval_tick =>
    simp only [onEvent, Option.some.injEq] at hr; subst hr
    exact roleInv_of_view_eq _ _ (roleView_intervalTick _) h
  | timeout i rnd =>
    simp only [onEvent, Option.some.injEq] at hr; subst hr
    exact h

theorem roleInv_step (s : State) (e : Event) (h : ∀ r, s.room = some r → RoleInv r)
    (r' : Room) (hr : (step s e).1.room = some r') : RoleInv r' := by
  cases hroom : s.room with
  | none =>
    have : (step s e).1.room = none := by
      cases e
      case timeout i rnd => simp only [step, hroom]; split <;> simp [hroom]
      all_goals simp only [step, hroom]
    rw [this] at hr; cases hr
  | some room =>
    have hinv := h room hroom
    cases e with
    | timeout i rnd =>
      simp only [step, hroom] at hr
      split at hr
      · rw [hroom] at hr; cases hr; exact hinv
      · simp only [Option.some.injEq] at hr; subst hr
        exact roleInv_firePending _ _ _ hinv
    | join_room i n => exact roleInv_onEvent room _ hinv r' (by simpa [step, hroom] using hr)
    | start_game i d => exact roleInv_onEvent room _ hinv r' (by simpa [step, hroom] using hr)
    | disconnect i => exact roleInv_onEvent room _ hinv r' (by simpa [step, hroom] using hr)
    | submit_clue i c => exact roleInv_onEvent room _ hinv r' (by simpa [step, hroom] using hr)
    | vote_player i t => exact roleInv_onEvent room _ hinv r' (by simpa [step, hroom] using hr)
    | impostor_guess i w => exact roleInv_onEvent room _ hinv r' (by simpa [step, hroom] using hr)
    | restart_round i d => exact roleInv_onEvent room _ hinv r' (by simpa [step, hroom] using hr)
    | steal_life i t => exact roleInv_onEvent room _ hinv r' (by simpa [step, hroom] using hr)
    | head_to_head_action i b d =>
      exact roleInv_onEvent room _ hinv r' (by simpa [step, hroom] using hr)
    | debug_force_h2h i d => exact roleInv_onEvent room _ hinv r' (by simpa [step, hroom] using hr)
    | interval_tick => exact roleInv_onEvent room _ hinv r' (by simpa [step, hroom] using hr)

theorem roleInv_reachable (s : State) (h : Reachable s) : ∀ r, s.room = some r → RoleInv r := by
  induction h with
  | create i n c =>
    intro r hr
    simp only [initState, Option.some.injEq] at hr
    subst hr
    intro p hp
    simp only [createRoom, List.mem_singleton] at hp
    subst hp
    simp
  | step s e _ ih => exact roleInv_step s e ih

theorem reachable_run (s : State) (es : List Event) (h : Reachable s) : Reachable (run s es) := by
  induction es generalizing s with
  | nil => exact h
  | cons e rest ih => exact ih _ (Reachable.step s e h)

theorem getElem?_mod_length {α : Type} (l : List α) (n : Nat) (h : l ≠ []) :
    ∃ a, l[n % l.length]? = some a := by
  have hlt : n % l.length < l.length := Nat.mod_lt _ (List.length_pos.2 h)
  exact ⟨l[n % l.length], List.getElem?_eq_getElem hlt⟩

theorem selectImposter_mem (last : Option SocketId) (d : Draws) (cands : List (Nat × Player))
    (sel : Nat × Player) (h : selectImposter last d cands = some sel) : sel ∈ cands := by
  simp only [selectImposter] at h
  split at h
  · cases h
  · rename_i s hs
    split at h
    · split at h
      · exact (List.mem_filter.1 (List.getElem?_mem h)).1
      · cases h; exact List.getElem?_mem hs
    · cases h; exact List.getElem?_mem hs

theorem selectImposter_isSome (last : Option SocketId) (d : Draws) (cands : List (Nat × Player))
    (h : cands ≠ []) : ∃ sel, selectImposter last d cands = some sel := by
  obtain ⟨s, hs⟩ := getElem?_mod_length cands d.pick h
  simp only [selectImposter, hs]
  split
  · split
    · rename_i hlen
      exact getElem?_mod_length _ d.repick (by
        intro e; rw [e] at hlen; simp at hlen)
    · exact ⟨_, rfl⟩
  · exact ⟨_, rfl⟩

theorem countP_modifyAt {α : Type} (p : α → Bool) (i : Nat) (f : α → α) (l : List α)
    (h : ∀ a, p (f a) = p a) : (modifyAt i f l).countP p = l.countP p := by
  induction l generalizing i with
  | nil => simp [modifyAt]
  | cons a rest ih =>
    cases i with
    | zero => simp [modifyAt, List.countP_cons, h]
    | succ k => simp [modifyAt, List.countP_cons, ih]

theorem countP_living_id (l : List Player) (a : Player)
    (hnd : (l.map (fun p => p.id)).Nodup) (ha : a ∈ l) (hal : isLiving a = true) :
    l.countP (fun q => isLiving q && q.id == a.id) = 1 := by
  induction l with
  | nil => simp at ha
  | cons b rest ih =>
    simp only [List.map_cons, List.nodup_cons] at hnd
    simp only [List.mem_cons] at ha
    rcases ha with rfl | ha
    · have : rest.countP (fun q => isLiving q && q.id == a.id) = 0 := by
        rw [List.countP_eq_zero]
        intro q hq
        have : q.id ≠ a.id := fun e => hnd.1 (e ▸ List.mem_map_of_mem (fun p => p.id) hq)
        simp [this]
      simp [List.countP_cons, this, hal]
    · have hne : b.id ≠ a.id := fun e => hnd.1 (e ▸ List.mem_map_of_mem (fun p => p.id) ha)
      simp [List.countP_cons, ih hnd.2 ha, hne]

theorem living_enum_ne_nil (l : List Player) (h : 0 < (l.filter isLiving).length) :
    l.enum.filter (fun ip => isLiving ip.2) ≠ [] := by
  obtain ⟨q, hq⟩ := List.exists_mem_of_length_pos h
  obtain ⟨hq1, hq2⟩ := List.mem_filter.1 hq
  obtain ⟨i, hi⟩ := List.mem_iff_getElem?.1 hq1
  have hm : (i, q) ∈ l.enum.filter (fun ip => isLiving ip.2) :=
    List.mem_filter.2 ⟨List.mk_mem_enum_iff_getElem?.2 hi, hq2⟩
  exact List.ne_nil_of_mem hm

/-- The room `startGame` builds once `selectedPlayer` is drawn. -/
theorem startGame_selected (room : Room) (d : Draws)
    (hliving : 0 < (livingPlayers room).length) :
    ∃ (i : Nat) (p0 : Player), room.players[i]? = some p0 ∧ isLiving p0 = true
      ∧ (startGame room d).1.phase = .COUNTDOWN
      ∧ (startGame room d).1.imposterId = some p0.id
      ∧ (startGame room d).1.players =
          shuffle d.shuffle
            ((modifyAt i (fun (p : Player) => { p with timesImpostor := some (timesOf p + 1) })
                room.players).map (fun (p : Player) =>
              { p with
                role := if decide (p.lives > 0) && !p.isGhost then
                          (if some p.id == some p0.id then some .IMPOSTOR else some .INNOCENT)
                        else some .SPECTATOR,
                votesReceived := some 0 })) := by
  have hne := living_enum_ne_nil room.players hliving
  have hlen : ¬ (room.players.enum.filter (fun ip => isLiving ip.2)).length < 1 := by
    have := List.length_pos.2 hne
    omega
  have hcne : (if (List.filter (fun ip => timesOf ip.2 ==
        minTimes (room.players.enum.filter (fun ip => isLiving ip.2)))
        (room.players.enum.filter (fun ip => isLiving ip.2))).length = 0
      then room.players.enum.filter (fun ip => isLiving ip.2)
      else List.filter (fun ip => timesOf ip.2 ==
        minTimes (room.players.enum.filter (fun ip => isLiving ip.2)))
        (room.players.enum.filter (fun ip => isLiving ip.2))) ≠ [] := by
    split
    · exact hne
    · rename_i h
      intro e
      rw [e] at h
      exact h rfl
  obtain ⟨sel, hsel⟩ := selectImposter_isSome room.lastImposterId d _ hcne
  have hmem := selectImposter_mem _ _ _ _ hsel
  have hmem' : sel ∈ room.players.enum.filter (fun ip => isLiving ip.2) := by
    split at hmem
    · exact hmem
    · exact (List.mem_filter.1 hmem).1
  obtain ⟨h1, h2⟩ := List.mem_filter.1 hmem'
  refine ⟨sel.1, sel.2, List.mk_mem_enum_iff_getElem?.1 h1, h2, ?_, ?_, ?_⟩
  all_goals simp only [startGame, hlen, if_false, hsel]


theorem startGame_one_impostor (room : Room) (d : Draws)
    (hids : (room.players.map (fun p => p.id)).Nodup)
    (hliving : 0 < (livingPlayers room).length) :
    (startGame room d).1.phase = .COUNTDOWN
    ∧ livingImpostors (startGame room d).1 = 1
    ∧ ∀ p ∈ (startGame room d).1.players, isLiving p = true →
        (p.role = some .IMPOSTOR ∧ (startGame room d).1.imposterId = some p.id)
        ∨ (p.role = some .INNOCENT ∧ (startGame room d).1.imposterId ≠ some p.id) := by
  obtain ⟨i, p0, hi, hl0, hph, himp, hpl⟩ := startGame_selected room d hliving
  refine ⟨hph, ?_, ?_⟩
  · unfold livingImpostors
    rw [hpl, (shuffle_perm _ _).countP_eq, List.countP_map]
    have hfun : ((fun (p : Player) => isLiving p && p.role == some .IMPOSTOR) ∘
        (fun (p : Player) =>
          { p with
            role := if decide (p.lives > 0) && !p.isGhost then
                      (if some p.id == some p0.id then some .IMPOSTOR else some .INNOCENT)
                    else some .SPECTATOR,
            votesReceived := some 0 })) = (fun q => isLiving q && q.id == p0.id) := by
      funext q
      simp only [Function.comp, isLiving]
      by_cases h1 : q.isGhost = true <;> by_cases h2 : q.lives > 0 <;>
        by_cases h3 : q.id = p0.id <;> simp [h1, h2, h3]
    rw [hfun, countP_modifyAt _ _ _ _ (by intro a; rfl)]
    exact countP_living_id _ _ hids (List.getElem?_mem hi) hl0
  · intro p hp hlp
    rw [hpl] at hp
    have hp' := (shuffle_perm _ _).mem_iff.1 hp
    simp only [List.mem_map] at hp'
    obtain ⟨q, _, rfl⟩ := hp'
    rw [himp]
    simp only [isLiving] at hlp
    by_cases h1 : q.isGhost = true <;> by_cases h2 : q.lives > 0 <;>
      by_cases h3 : q.id = p0.id <;> simp_all
    · exact fun e => h3 e.symm


/-! ### Handlers that leave roles and lives alone -/

theorem livingImpostors_of_lifeView (r r' : Room) (h : lifeView r' = lifeView r) :
    livingImpostors r' = livingImpostors r := by
  have h2 : r'.players.map (fun p => (p.id, p.role, p.lives, p.isGhost))
      = r.players.map (fun p => (p.id, p.role, p.lives, p.isGhost)) := congrArg Prod.snd h
  have key : ∀ l : List Player,
      l.countP (fun p => isLiving p && p.role == some .IMPOSTOR)
        = (l.map (fun p => (p.id, p.role, p.lives, p.isGhost))).countP
            (fun x => (!x.2.2.2 && decide (x.2.2.1 > 0)) && x.2.1 == some .IMPOSTOR) := by
    intro l
    rw [List.countP_map]
    rfl
  unfold livingImpostors
  rw [key, key, h2]

theorem lifeView_resolveVotes (room : Room) : lifeView (resolveVotes room).1 = lifeView room := by
  simp only [resolveVotes]
  repeat' split
  all_goals rfl

theorem lifeView_startVotingPhase (room : Room) :
    lifeView (startVotingPhase room).1 = lifeView room := by
  simp [startVotingPhase, lifeView]

theorem lifeView_nextTurnLoop (fuel : Nat) (room : Room) :
    lifeView (nextTurnLoop fuel room).1 = lifeView room := by
  induction fuel generalizing room with
  | zero => rfl
  | succ n ih =>
    simp only [nextTurnLoop]
    repeat' split
    all_goals first | rfl | (rw [lifeView_startVotingPhase]; rfl) | (rw [ih]; rfl)

theorem lifeView_startCluePhase (room : Room) :
    lifeView (startCluePhase room).1 = lifeView room := by
  simp only [startCluePhase, nextTurn]
  rw [lifeView_nextTurnLoop]; rfl

theorem lifeView_handleClueSubmission (room : Room) (i : SocketId) (t : String) :
    lifeView (handleClueSubmission room i t).1 = lifeView room := by
  simp only [handleClueSubmission, nextTurn]
  repeat' split
  all_goals (rw [lifeView_nextTurnLoop]; rfl)

theorem lifeView_onVotePlayer (room : Room) (i : SocketId) (t : Target) :
    lifeView (onVotePlayer room i t).1 = lifeView room := by
  simp only [onVotePlayer, checkVotingResult]
  repeat' split
  all_goals rfl

theorem lifeView_intervalTick (room : Room) (t : Interval)
    (ht : room.timerInterval = some t) (hk : t.kind ≠ .steal) :
    lifeView (intervalTick room).1 = lifeView room := by
  simp only [intervalTick, ht]
  repeat' split
  all_goals first
    | rfl
    | (rw [lifeView_handleClueSubmission]; rfl)
    | (rw [lifeView_resolveVotes]; rfl)
    | (exfalso; apply hk; assumption)

set_option maxRecDepth 100000 in
/-- C3, counterexample: after `threeRounds` the room is in RESOLUTION and no
living player has the role IMPOSTOR (the impostor C has lost the last life to
the wrong guess and the phase has not changed). -/
theorem no_living_impostor_in_resolution :
    Reachable (run (initState 1 "A" "ROOM") threeRounds)
    ∧ (run (initState 1 "A" "ROOM") threeRounds).room.map (fun r => r.phase)
        = some .RESOLUTION
    ∧ (run (initState 1 "A" "ROOM") threeRounds).room.map livingImpostors = some 0 :=
  ⟨reachable_run _ _ (Reachable.create 1 "A" "ROOM"), by decide, by decide⟩

/-- C3, amended: in every room state reachable from `create_room` by player
actions and timer events, in every phase, each player whose role is IMPOSTOR
has the id `imposterId` and no player whose role is INNOCENT has it.
`startGame`, on a room with pairwise distinct player ids and a living player,
gives a COUNTDOWN room in which exactly one living player has the role
IMPOSTOR, that player's id is `imposterId`, and every other living player has
the role INNOCENT.  The handlers that carry the round on to RESOLUTION or
STEAL_LIFE (`proceedToSetup`, `startCluePhase`, `handleClueSubmission` and the
clue timer, `vote_player`, the vote timer and `resolveVotes`) change no
player's id, role, lives or ghost flag and not `imposterId`, hence not the
number of living impostors. -/
theorem impostor_role_invariant :
    (∀ (s : State) (room : Room), Reachable s → s.room = some room → RoleInv room)
    ∧ (∀ (room : Room) (d : Draws),
        (room.players.map (fun p => p.id)).Nodup → 0 < (livingPlayers room).length →
        (startGame room d).1.phase = .COUNTDOWN
        ∧ livingImpostors (startGame room d).1 = 1
        ∧ ∀ p ∈ (startGame room d).1.players, isLiving p = true →
            (p.role = some .IMPOSTOR ∧ (startGame room d).1.imposterId = some p.id)
            ∨ (p.role = some .INNOCENT ∧ (startGame room d).1.imposterId ≠ some p.id))
    ∧ (∀ (room : Room),
        lifeView (proceedToSetup room).1 = lifeView room
        ∧ lifeView (startCluePhase room).1 = lifeView room
        ∧ (∀ (i : SocketId) (t : String),
            lifeView (handleClueSubmission room i t).1 = lifeView room)
        ∧ (∀ (i : SocketId) (t : Target), lifeView (onVotePlayer room i t).1 = lifeView room)
        ∧ lifeView (resolveVotes room).1 = lifeView room
        ∧ (∀ (t : Interval), room.timerInterval = some t → t.kind ≠ .steal →
            lifeView (intervalTick room).1 = lifeView room))
    ∧ (∀ (r r' : Room), lifeView r' = lifeView r → livingImpostors r' = livingImpostors r) :=
  ⟨fun s room h hr => roleInv_reachable s h room hr, startGame_one_impostor,
   fun room => ⟨rfl, lifeView_startCluePhase room, lifeView_handleClueSubmission room,
     lifeView_onVotePlayer room, lifeView_resolveVotes room, lifeView_intervalTick room⟩,
   livingImpostors_of_lifeView⟩

/-- Witness of C3 (amended): the invariant in the state reached by
`threeRounds`, and `startGame` on the three-player lobby. -/
theorem impostor_role_invariant_witness :
    RoleInv (startGame lobby3 (drawsWithPick 0)).1
    ∧ livingImpostors (startGame lobby3 (drawsWithPick 0)).1 = 1 :=
  ⟨impostor_role_invariant.1
      (step { room := some lobby3, pending := [] } (.restart_round 1 (drawsWithPick 0))).1
      (startGame lobby3 (drawsWithPick 0)).1
      (Reachable.step _ _
        (Reachable.step _ (.join_room 3 "C")
          (Reachable.step _ (.join_room 2 "B") (Reachable.create 1 "A" "ROOM"))))
      rfl,
   (impostor_role_invariant.2.1 lobby3 (drawsWithPick 0) (by decide) (by decide)).2.1⟩

/-! ## The `impostor_guess` handler and repeated steals -/

/-- C11, the code at the failing input: B steals a life from C and, before the
next round starts, sends `steal_life` again.  After the first steal the room is
still in STEAL_LIFE; the second steal takes a second life from C and schedules
a second `startNextRound`. -/
theorem second_steal_takes_effect :
    (handleStealLife (stealRoom 3 .NO_MAJORITY) (some 2) (some 3)).1.phase = .STEAL_LIFE
    ∧ (handleStealLife (stealRoom 3 .NO_MAJORITY) (some 2) (some 3)).1.players[2]?
        = some (mkPlayer 3 "C" (some .INNOCENT) 2)
    ∧ (handleStealLife (handleStealLife (stealRoom 3 .NO_MAJORITY) (some 2) (some 3)).1
          (some 2) (some 3)).1.players[2]?
        = some (mkPlayer 3 "C" (some .INNOCENT) 1)
    ∧ ((run { room := some (stealRoom 3 .NO_MAJORITY), pending := [] }
          [ .steal_life 2 (some 3), .steal_life 2 (some 3) ]).room.map
        (fun r => (r.phase, r.players.map (fun p => p.lives))))
        = some (.STEAL_LIFE, [3, 3, 1, 3])
    ∧ (run { room := some (stealRoom 3 .NO_MAJORITY), pending := [] }
          [ .steal_life 2 (some 3), .steal_life 2 (some 3) ]).pending
        = [.startNextRound, .startNextRound] := by
  decide

/-- C12: for a room in RESOLUTION where the impostor holds no bonus card, a
guess by the impostor with `wordIndex` different from `targetIndex` (in range
or not) lowers the impostor's lives by one, not below 0, and leaves every other
player unchanged; the result payload is `{success: false, word}` and the round
end is scheduled. -/
theorem impostor_guess_wrong (room : Room) (socketId : SocketId) (wordIndex : Nat)
    (imp : Player)
    (hphase : room.phase = .RESOLUTION) (himp : room.imposterId = some socketId)
    (hwrong : room.targetIndex ≠ some wordIndex)
    (hfind : room.players.find? (isImposter room.imposterId) = some imp)
    (hbonus : imp.hasBonusCard = false) :
    (∀ (i : Nat) (p : Player), room.players[i]? = some p →
        (onImpostorGuess room socketId wordIndex).1.players[i]? = some (
          if findIndex (isImposter room.imposterId) room.players = some i then
            { p with lives := max 0 (p.lives - 1) }
          else p))
    ∧ (onImpostorGuess room socketId wordIndex).1.players.length = room.players.length
    ∧ guessResults (onImpostorGuess room socketId wordIndex).2
        = [ { success := false, word := targetWord room, isBonus := none } ]
    ∧ scheduled (onImpostorGuess room socketId wordIndex).2 = [ .roundEndFailed ] := by
  have hw : ¬ some wordIndex = room.targetIndex := fun e => hwrong e.symm
  have hfind' := hfind
  rw [himp] at hfind'
  have hplayers : (onImpostorGuess room socketId wordIndex).1.players =
      modifyFirst (isImposter room.imposterId)
        (fun p => { p with lives := max 0 (p.lives - 1) }) room.players := by
    simp [onImpostorGuess, hphase, himp, hw, hfind', hbonus]
  refine ⟨?_, ?_, ?_, ?_⟩
  · intro i p hp
    rw [hplayers, getElem?_modifyFirst, hp]
    split <;> simp
  · rw [hplayers, length_modifyFirst]
  · simp [onImpostorGuess, hphase, himp, hw, hfind', hbonus, guessResults]
  · simp [onImpostorGuess, hphase, himp, hw, hfind', hbonus, scheduled]


/-- Witness of C12: B guesses word 100 with 3 lives and no bonus card and is
left with 2 lives. -/
theorem impostor_guess_wrong_witness :
    (onImpostorGuess (guessRoom 3 false) 2 100).1.players[1]?
      = some (mkPlayer 2 "B" (some .IMPOSTOR) 2) :=
  (impostor_guess_wrong (guessRoom 3 false) 2 100 (mkPlayer 2 "B" (some .IMPOSTOR) 3)
    (by decide) (by decide) (by decide) (by decide) (by decide)).1
    1 (mkPlayer 2 "B" (some .IMPOSTOR) 3) (by decide)

/-- C13: for a room in RESOLUTION where the impostor holds a bonus card, an
incorrect guess by the impostor sets the impostor's hasBonusCard to false and
changes nothing else of any player, lives included; the phase stays RESOLUTION,
the result payload is `{success: false, isBonus: true}` with no word field,
and no round end is scheduled. -/
theorem impostor_guess_wrong_with_bonus (room : Room) (socketId : SocketId) (wordIndex : Nat)
    (imp : Player)
    (hphase : room.phase = .RESOLUTION) (himp : room.imposterId = some socketId)
    (hwrong : room.targetIndex ≠ some wordIndex)
    (hfind : room.players.find? (isImposter room.imposterId) = some imp)
    (hbonus : imp.hasBonusCard = true) :
    (∀ (i : Nat) (p : Player), room.players[i]? = some p →
        (onImpostorGuess room socketId wordIndex).1.players[i]? = some (
          if findIndex (isImposter room.imposterId) room.players = some i then
            { p with hasBonusCard := false }
          else p))
    ∧ (onImpostorGuess room socketId wordIndex).1.players.map (fun p => p.lives)
        = room.players.map (fun p => p.lives)
    ∧ (onImpostorGuess room socketId wordIndex).1.phase = .RESOLUTION
    ∧ guessResults (onImpostorGuess room socketId wordIndex).2
        = [ { success := false, word := none, isBonus := some true } ]
    ∧ scheduled (onImpostorGuess room socketId wordIndex).2 = [] := by
  have hw : ¬ some wordIndex = room.targetIndex := fun e => hwrong e.symm
  have hfind' := hfind
  rw [himp] at hfind'
  have hplayers : (onImpostorGuess room socketId wordIndex).1.players =
      modifyFirst (isImposter room.imposterId)
        (fun p => { p with hasBonusCard := false }) room.players := by
    simp [onImpostorGuess, hphase, himp, hw, hfind', hbonus]
  refine ⟨?_, ?_, ?_, ?_, ?_⟩
  · intro i p hp
    rw [hplayers, getElem?_modifyFirst, hp]
    split <;> simp
  · rw [hplayers, map_modifyFirst _ _ _ _ (by intro a; rfl)]
  · simp [onImpostorGuess, hphase, himp, hw, hfind', hbonus]
  · simp [onImpostorGuess, hphase, himp, hw, hfind', hbonus, guessResults]
  · simp [onImpostorGuess, hphase, himp, hw, hfind', hbonus, scheduled]

/-- Witness of C13: B guesses wrong holding the bonus card and keeps 3 lives
without the card. -/
theorem impostor_guess_wrong_with_bonus_witness :
    (onImpostorGuess (guessRoom 3 true) 2 7).1.players[1]?
      = some (mkPlayer 2 "B" (some .IMPOSTOR) 3) :=
  (impostor_guess_wrong_with_bonus (guessRoom 3 true) 2 7
    { mkPlayer 2 "B" (some .IMPOSTOR) 3 with hasBonusCard := true }
    (by decide) (by decide) (by decide) (by decide) (by decide)).1
    1 { mkPlayer 2 "B" (some .IMPOSTOR) 3 with hasBonusCard := true } (by decide)

/-- C14: for a room in RESOLUTION, a guess by the impostor with `wordIndex`
equal to `targetIndex` yields the result payload `{success: true, word}` and
changes the room only in phase (STEAL_LIFE) and stealReason (WORD_GUESSED), so
no player's lives or bonus card change; the delayed `phase_change` carries
WORD_GUESSED, and a valid steal that follows reports `round_end` with result
IMPOSTOR_WIN, reason WORD_GUESSED and the chosen victim. -/
theorem impostor_guess_right (room : Room) (socketId : SocketId) (wordIndex : Nat)
    (hphase : room.phase = .RESOLUTION) (himp : room.imposterId = some socketId)
    (hright : room.targetIndex = some wordIndex) :
    (onImpostorGuess room socketId wordIndex).1
        = { room with phase := .STEAL_LIFE, stealReason := .val .WORD_GUESSED }
    ∧ guessResults (onImpostorGuess room socketId wordIndex).2
        = [ { success := true, word := targetWord room, isBonus := none } ]
    ∧ scheduled (onImpostorGuess room socketId wordIndex).2 = [ .stealTimerStart ]
    ∧ (∀ rnd : Rand,
        Eff.emit .room (.phase_change_steal .WORD_GUESSED none)
          ∈ (firePending (onImpostorGuess room socketId wordIndex).1 .stealTimerStart rnd).2)
    ∧ (∀ (victimId : SocketId) (victim : Player),
        room.players.find? (fun p => p.id == victimId) = some victim →
        victim.isGhost = false → victim.role ≠ some .IMPOSTOR →
        (roundEnds (handleStealLife (onImpostorGuess room socketId wordIndex).1
            (some socketId) (some victimId)).2).map
          (fun r => (r.result, r.reason, r.victimId))
          = [(.IMPOSTOR_WIN, .WORD_GUESSED, some victimId)]) := by
  have hroom : (onImpostorGuess room socketId wordIndex).1
        = { room with phase := .STEAL_LIFE, stealReason := .val .WORD_GUESSED } := by
    simp [onImpostorGuess, hphase, himp, hright]
  refine ⟨hroom, ?_, ?_, ?_, ?_⟩
  · simp [onImpostorGuess, hphase, himp, hright, guessResults]
  · simp [onImpostorGuess, hphase, himp, hright, scheduled]
  · intro rnd
    simp [firePending]
  · intro victimId victim hfind hghost hrole
    rw [hroom]
    simp [handleStealLife, himp, hfind, hghost, hrole, roundEnds]

/-- Witness of C14: B guesses word 0 (the target) and then steals from C. -/
theorem impostor_guess_right_witness :
    (roundEnds (handleStealLife (onImpostorGuess (guessRoom 3 false) 2 0).1
        (some 2) (some 3)).2).map (fun r => (r.result, r.reason, r.victimId))
      = [(.IMPOSTOR_WIN, .WORD_GUESSED, some 3)] :=
  (impostor_guess_right (guessRoom 3 false) 2 0 (by decide) (by decide) (by decide)).2.2.2.2
    3 (mkPlayer 3 "C" (some .INNOCENT) 3) (by decide) (by decide) (by decide)

/-! ## `startNextRound` -/

/-- C15: `startNextRound` decides by the number n of living players: n = 0
gives GAME_OVER with winner "Nessuno" (nobody); n = 1 gives GAME_OVER with the
living player's name as winner; n = 2 gives HEAD_TO_HEAD; n >= 3 runs
`startGame` and the phase becomes COUNTDOWN. -/
theorem startNextRound_by_living_count (room : Room) (rnd : Rand) :
    ((livingPlayers room).length = 0 →
        (startNextRound room rnd).1.phase = .GAME_OVER
        ∧ (startNextRound room rnd).2
            = [ .emit .room (.game_over room.players "Nessuno" none) ])
    ∧ (∀ w : Player, livingPlayers room = [w] →
        (startNextRound room rnd).1.phase = .GAME_OVER
        ∧ (startNextRound room rnd).2
            = [ .emit .room (.game_over room.players w.name none) ])
    ∧ ((livingPlayers room).length = 2 →
        (startNextRound room rnd).1.phase = .HEAD_TO_HEAD)
    ∧ (3 ≤ (livingPlayers room).length →
        (startNextRound room rnd).1 = (startGame room rnd.game).1
        ∧ (startNextRound room rnd).1.phase = .COUNTDOWN) := by
  refine ⟨?_, ?_, ?_, ?_⟩
  · intro h0
    simp [startNextRound, h0]
  · intro w hw
    simp [startNextRound, hw]
  · intro h2
    simp [startNextRound, h2, startHeadToHead]
  · intro h3
    have h1 : ¬ (livingPlayers room).length < 2 := by omega
    have h2 : ¬ (livingPlayers room).length = 2 := by omega
    have heq : (startNextRound room rnd).1 = (startGame room rnd.game).1 := by
      simp [startNextRound, h1, h2]
    refine ⟨heq, ?_⟩
    rw [heq]
    obtain ⟨i, p0, _, _, hph, _⟩ := startGame_selected room rnd.game (by omega)
    exact hph

/-- Witness of C15 on rooms with 0, 1, 2 and 3 living players. -/
theorem startNextRound_by_living_count_witness :
    (startNextRound (roundEndRoom 0 0 0) firstPick).1.phase = .GAME_OVER
    ∧ (startNextRound (roundEndRoom 0 2 0) firstPick).2
        = [ .emit .room (.game_over (roundEndRoom 0 2 0).players "B" none) ]
    ∧ (startNextRound (roundEndRoom 1 2 0) firstPick).1.phase = .HEAD_TO_HEAD
    ∧ (startNextRound (roundEndRoom 1 2 3) firstPick).1.phase = .COUNTDOWN :=
  ⟨((startNextRound_by_living_count (roundEndRoom 0 0 0) firstPick).1 (by decide)).1,
   ((startNextRound_by_living_count (roundEndRoom 0 2 0) firstPick).2.1
      (mkPlayer 2 "B" (some .IMPOSTOR) 2) (by decide)).2,
   (startNextRound_by_living_count (roundEndRoom 1 2 0) firstPick).2.2.1 (by decide),
   ((startNextRound_by_living_count (roundEndRoom 1 2 3) firstPick).2.2.2 (by decide)).2⟩

/-! ## The impostor draw of `startGame` -/

theorem foldl_min_le (l : List Nat) (a : Nat) :
    l.foldl min a ≤ a ∧ ∀ x ∈ l, l.foldl min a ≤ x := by
  induction l generalizing a with
  | nil => simp
  | cons b rest ih =>
    simp only [List.foldl_cons, List.mem_cons, forall_eq_or_imp]
    obtain ⟨h1, h2⟩ := ih (min a b)
    exact ⟨le_trans h1 (min_le_left a b), le_trans h1 (min_le_right a b), h2⟩

theorem foldl_min_mem (l : List Nat) (a : Nat) : l.foldl min a ∈ a :: l := by
  induction l generalizing a with
  | nil => simp
  | cons b rest ih =>
    simp only [List.foldl_cons]
    have := ih (min a b)
    simp only [List.mem_cons] at this ⊢
    rcases this with h | h
    · rcases min_choice a b with hc | hc
      · left; rw [h, hc]
      · right; left; rw [h, hc]
    · right; right; exact h

theorem minTimes_le (living : List (Nat × Player)) (x : Nat × Player) (hx : x ∈ living) :
    minTimes living ≤ timesOf x.2 := by
  unfold minTimes
  have hm : timesOf x.2 ∈ living.map (fun ip => timesOf ip.2) :=
    List.mem_map_of_mem (fun ip => timesOf ip.2) hx
  split
  · rename_i h; rw [h] at hm; simp at hm
  · rename_i a rest h
    rw [h] at hm
    simp only [List.mem_cons] at hm
    rcases hm with h1 | h1
    · rw [h1]; exact (foldl_min_le rest a).1
    · exact (foldl_min_le rest a).2 _ h1

theorem minTimes_mem (living : List (Nat × Player)) (h : living ≠ []) :
    ∃ x ∈ living, timesOf x.2 = minTimes living := by
  unfold minTimes
  split
  · rename_i he
    simp at he
    exact absurd he h
  · rename_i a rest he
    have := foldl_min_mem rest a
    rw [← he] at this
    simp only [List.mem_map] at this
    obtain ⟨x, hx, hxe⟩ := this
    exact ⟨x, hx, hxe⟩

theorem map_snd_filter_enumFrom {α : Type} (p : α → Bool) (l : List α) (n : Nat) :
    ((l.enumFrom n).filter (fun ip => p ip.2)).map Prod.snd = l.filter p := by
  induction l generalizing n with
  | nil => rfl
  | cons a rest ih =>
    simp only [List.enumFrom_cons, List.filter_cons]
    by_cases h : p a = true
    · simp [h, ih]
    · simp [h, ih]

theorem map_snd_living (l : List Player) :
    (l.enum.filter (fun ip => isLiving ip.2)).map Prod.snd = l.filter isLiving :=
  map_snd_filter_enumFrom isLiving l 0

theorem candidatesOf_ne_nil (room : Room) (h : 0 < (livingPlayers room).length) :
    candidatesOf room ≠ [] := by
  obtain ⟨x, hx, hxe⟩ := minTimes_mem _ (living_enum_ne_nil room.players h)
  have : x ∈ candidatesOf room := by
    unfold candidatesOf
    rw [List.mem_filter]
    exact ⟨hx, by simp [hxe]⟩
  exact List.ne_nil_of_mem this

theorem candidatesOf_snd (room : Room) :
    (candidatesOf room).map Prod.snd = leastPlayed room := by
  unfold candidatesOf leastPlayed livingPlayers
  have hmem : ∀ q : Player, q ∈ room.players.filter isLiving ↔
      ∃ j, (j, q) ∈ room.players.enum.filter (fun ip => isLiving ip.2) := by
    intro q
    rw [← map_snd_living]
    simp
  rw [← map_snd_living, List.filter_map]
  congr 1
  apply List.filter_congr
  intro x hx
  rw [Bool.eq_iff_iff]
  simp only [Function.comp, beq_iff_eq, List.all_eq_true, decide_eq_true_eq]
  constructor
  · intro he q hq
    rw [map_snd_living] at hq
    obtain ⟨j, hj⟩ := (hmem q).1 hq
    rw [he]
    exact minTimes_le _ _ hj
  · intro hall
    apply le_antisymm
    · obtain ⟨y, hy, hye⟩ := minTimes_mem _ (List.ne_nil_of_mem hx)
      rw [← hye]
      apply hall
      rw [map_snd_living]
      exact (hmem y.2).2 ⟨y.1, hy⟩
    · exact minTimes_le _ _ hx


theorem getElem?_modifyAt {α : Type} (i : Nat) (f : α → α) (l : List α) (j : Nat) :
    (modifyAt i f l)[j]? = (l[j]?).map (fun a => if j = i then f a else a) := by
  induction l generalizing i j with
  | nil => simp [modifyAt]
  | cons a rest ih =>
    cases i with
    | zero =>
      cases j with
      | zero => simp [modifyAt]
      | succ m => simp [modifyAt]
    | succ k =>
      cases j with
      | zero => simp [modifyAt]
      | succ m => simp [modifyAt, ih]

theorem length_modifyAt {α : Type} (i : Nat) (f : α → α) (l : List α) :
    (modifyAt i f l).length = l.length := by
  induction l generalizing i with
  | nil => simp [modifyAt]
  | cons a rest ih =>
    cases i with
    | zero => simp [modifyAt]
    | succ k => simp [modifyAt, ih]

/-- The room `startGame` builds, in terms of the entry `selectImposter` returns
on the candidates. -/
theorem startGame_of_candidates (room : Room) (d : Draws)
    (hliving : 0 < (livingPlayers room).length) :
    ∃ sel : Nat × Player, selectImposter room.lastImposterId d (candidatesOf room) = some sel
      ∧ sel ∈ candidatesOf room
      ∧ (startGame room d).1.imposterId = some sel.2.id
      ∧ (startGame room d).1.lastImposterId = some sel.2.id
      ∧ (startGame room d).1.phase = .COUNTDOWN
      ∧ (startGame room d).1.players =
          shuffle d.shuffle
            ((modifyAt sel.1 (fun (p : Player) => { p with timesImpostor := some (timesOf p + 1) })
                room.players).map (fun (p : Player) =>
              { p with
                role := if decide (p.lives > 0) && !p.isGhost then
                          (if some p.id == some sel.2.id then some .IMPOSTOR else some .INNOCENT)
                        else some .SPECTATOR,
                votesReceived := some 0 })) := by
  have hne := living_enum_ne_nil room.players hliving
  have hlen : ¬ (room.players.enum.filter (fun ip => isLiving ip.2)).length < 1 := by
    have := List.length_pos.2 hne
    omega
  have hcn := candidatesOf_ne_nil room hliving
  have hc : (if (List.filter (fun ip => timesOf ip.2 ==
        minTimes (room.players.enum.filter (fun ip => isLiving ip.2)))
        (room.players.enum.filter (fun ip => isLiving ip.2))).length = 0
      then room.players.enum.filter (fun ip => isLiving ip.2)
      else List.filter (fun ip => timesOf ip.2 ==
        minTimes (room.players.enum.filter (fun ip => isLiving ip.2)))
        (room.players.enum.filter (fun ip => isLiving ip.2))) = candidatesOf room := by
    rw [if_neg]
    · rfl
    · intro h
      exact hcn (List.length_eq_zero.1 h)
  obtain ⟨sel, hsel⟩ := selectImposter_isSome room.lastImposterId d _ hcn
  have hmem := selectImposter_mem _ _ _ _ hsel
  have hsel' := hsel
  rw [← hc] at hsel'
  refine ⟨sel, hsel, hmem, ?_, ?_, ?_, ?_⟩
  all_goals simp only [startGame, hlen, if_false, hsel']

theorem mem_candidatesOf (room : Room) (x : Nat × Player) (hx : x ∈ candidatesOf room) :
    room.players[x.1]? = some x.2 ∧ x.2 ∈ leastPlayed room := by
  constructor
  · have h1 := (List.mem_filter.1 (List.mem_filter.1 hx).1).1
    exact List.mk_mem_enum_iff_getElem?.1 h1
  · rw [← candidatesOf_snd]
    exact List.mem_map_of_mem Prod.snd hx

/-- C16: for every room with a living player and all draws, the player
`startGame` selects is a living player whose `timesImpostor || 0` is at most
that of every living player; `imposterId` and `lastImposterId` are set to the
selected id; and the players of the new room are, up to the turn-order
shuffle, the old players with the selected player's `timesImpostor` increased
by one and every other player's `timesImpostor` as it was. -/
theorem startGame_selects_least_played (room : Room) (d : Draws)
    (hliving : 0 < (livingPlayers room).length) :
    ∃ (i : Nat) (p0 : Player), room.players[i]? = some p0
      ∧ p0 ∈ livingPlayers room
      ∧ (∀ q ∈ livingPlayers room, timesOf p0 ≤ timesOf q)
      ∧ (startGame room d).1.imposterId = some p0.id
      ∧ (startGame room d).1.lastImposterId = some p0.id
      ∧ ∃ before : List Player, before.length = room.players.length
          ∧ (∀ (j : Nat) (p : Player), room.players[j]? = some p →
              before[j]? = some (if j = i then
                { p with timesImpostor := some (timesOf p + 1) } else p))
          ∧ ((startGame room d).1.players.map (fun p => (p.id, p.timesImpostor))).Perm
              (before.map (fun p => (p.id, p.timesImpostor))) := by
  obtain ⟨sel, _, hmem, himp, hlast, _, hpl⟩ := startGame_of_candidates room d hliving
  obtain ⟨hi, hleast⟩ := mem_candidatesOf room sel hmem
  simp only [leastPlayed, List.mem_filter, List.all_eq_true, decide_eq_true_eq] at hleast
  refine ⟨sel.1, sel.2, hi, hleast.1, hleast.2, himp, hlast,
    modifyAt sel.1 (fun (p : Player) => { p with timesImpostor := some (timesOf p + 1) })
      room.players, length_modifyAt _ _ _, ?_, ?_⟩
  · intro j p hj
    rw [getElem?_modifyAt, hj]
    by_cases h : j = sel.1 <;> simp [h]
  · rw [hpl]
    refine ((shuffle_perm _ _).map _).trans ?_
    rw [List.map_map]
    exact List.Perm.refl _


theorem exists_other_candidate (last : Option SocketId) (cands : List (Nat × Player))
    (hlen : 2 ≤ cands.length) (hnd : (cands.map (fun c => c.2.id)).Nodup) :
    0 < (cands.filter (fun c => some c.2.id != last)).length := by
  match cands, hlen, hnd with
  | a :: b :: rest, _, hnd =>
    simp only [List.map_cons, List.nodup_cons, List.mem_cons, not_or] at hnd
    have hab : a.2.id ≠ b.2.id := hnd.1.1
    by_cases ha : some a.2.id = last
    · have hb : some b.2.id ≠ last := by
        intro hb
        rw [← hb] at ha
        exact hab (Option.some.inj ha)
      simp [List.filter_cons, ha, hb]
    · simp [List.filter_cons, ha]

theorem selectImposter_ne_last (last : Option SocketId) (d : Draws)
    (cands : List (Nat × Player)) (sel : Nat × Player)
    (h : selectImposter last d cands = some sel) (hlen : 2 ≤ cands.length)
    (hnd : (cands.map (fun c => c.2.id)).Nodup) : some sel.2.id ≠ last := by
  have hother := exists_other_candidate last cands hlen hnd
  simp only [selectImposter] at h
  split at h
  · cases h
  · rename_i s hs
    by_cases hc : (last.isSome && decide (cands.length > 1) && (some s.2.id == last)) = true
    · simp only [hc, if_true, hother] at h
      have := (List.mem_filter.1 (List.getElem?_mem h)).2
      simpa using this
    · simp only [hc] at h
      cases h
      intro he
      apply hc
      have h1 : 1 < cands.length := hlen
      simp [← he, h1]

theorem leastPlayed_ids_nodup (room : Room)
    (hids : (room.players.map (fun p => p.id)).Nodup) :
    ((leastPlayed room).map (fun p => p.id)).Nodup := by
  have hsub : (leastPlayed room).Sublist room.players :=
    (List.filter_sublist _).trans (List.filter_sublist _)
  exact hids.sublist (hsub.map _)

/-- C17: in a room whose players have pairwise distinct ids, for all draws: if
at least two living players share the least `timesImpostor`, the impostor
`startGame` selects is one of them and is not the player whose id is
`lastImposterId`; if only one living player has the least `timesImpostor`
(the previous impostor or not), that player is selected. -/
theorem startGame_avoids_streak (room : Room) (d : Draws)
    (hids : (room.players.map (fun p => p.id)).Nodup) :
    (2 ≤ (leastPlayed room).length →
        (startGame room d).1.imposterId ≠ room.lastImposterId
        ∧ ∃ p ∈ leastPlayed room, (startGame room d).1.imposterId = some p.id)
    ∧ (∀ p, leastPlayed room = [p] → (startGame room d).1.imposterId = some p.id) := by
  have hliv : ∀ p, p ∈ leastPlayed room → 0 < (livingPlayers room).length := fun p hp =>
    List.length_pos_of_mem (List.mem_filter.1 hp).1
  constructor
  · intro h2
    obtain ⟨p, hp⟩ := List.exists_mem_of_length_pos (Nat.lt_of_lt_of_le (by decide) h2)
    obtain ⟨sel, hsel, hmem, himp, _⟩ := startGame_of_candidates room d (hliv p hp)
    have hmap := candidatesOf_snd room
    have hlen : 2 ≤ (candidatesOf room).length := by
      rw [← List.length_map (candidatesOf room) Prod.snd, hmap]; exact h2
    have hnd : ((candidatesOf room).map (fun c => c.2.id)).Nodup := by
      have : (candidatesOf room).map (fun c => c.2.id)
          = ((candidatesOf room).map Prod.snd).map (fun p => p.id) := by
        rw [List.map_map]; rfl
      rw [this, hmap]
      exact leastPlayed_ids_nodup room hids
    refine ⟨?_, sel.2, (mem_candidatesOf room sel hmem).2, himp⟩
    rw [himp]
    exact selectImposter_ne_last _ _ _ _ hsel hlen hnd
  · intro p hp
    have hp' : p ∈ leastPlayed room := by rw [hp]; exact List.mem_singleton_self p
    obtain ⟨sel, _, hmem, himp, _⟩ := startGame_of_candidates room d (hliv p hp')
    have := (mem_candidatesOf room sel hmem).2
    rw [hp, List.mem_singleton] at this
    rw [himp, this]

/-- Witness of C17: in the lobby after a match in which A was the last
impostor, the pick falls on A and the re-draw selects somebody else. -/
theorem startGame_avoids_streak_witness :
    (lobbyAfterA.players.map (fun p => p.id)).Nodup
    ∧ 2 ≤ (leastPlayed lobbyAfterA).length
    ∧ lobbyAfterA.lastImposterId = some 1
    ∧ (startGame lobbyAfterA (drawsWithPick 0)).1.imposterId ≠ some 1 :=
  ⟨by decide, by decide, rfl,
   ((startGame_avoids_streak lobbyAfterA (drawsWithPick 0) (by decide)).1 (by decide)).1⟩

/-- Witness of C16: `startGame` on the three-player lobby. -/
theorem startGame_selects_least_played_witness :
    0 < (livingPlayers lobby3).length
    ∧ ∃ (i : Nat) (p0 : Player), lobby3.players[i]? = some p0
      ∧ p0 ∈ livingPlayers lobby3
      ∧ (∀ q ∈ livingPlayers lobby3, timesOf p0 ≤ timesOf q)
      ∧ (startGame lobby3 (drawsWithPick 1)).1.imposterId = some p0.id
      ∧ (startGame lobby3 (drawsWithPick 1)).1.lastImposterId = some p0.id
      ∧ ∃ before : List Player, before.length = lobby3.players.length
          ∧ (∀ (j : Nat) (p : Player), lobby3.players[j]? = some p →
              before[j]? = some (if j = i then
                { p with timesImpostor := some (timesOf p + 1) } else p))
          ∧ ((startGame lobby3 (drawsWithPick 1)).1.players.map
                (fun p => (p.id, p.timesImpostor))).Perm
              (before.map (fun p => (p.id, p.timesImpostor))) :=
  ⟨by decide, startGame_selects_least_played lobby3 (drawsWithPick 1) (by decide)⟩

/-! ## What a step does to the players -/

theorem upd_refl (imp : Option SocketId) (p : Player) : Upd imp p p :=
  ⟨rfl, rfl, rfl, id, Or.inl, Or.inl⟩

theorem upd_trans {imp : Option SocketId} {p p' p'' : Player} (h1 : Upd imp p p')
    (h2 : Upd imp p' p'') : Upd imp p p'' := by
  obtain ⟨a1, a2, a3, a4, a5, a6⟩ := h1
  obtain ⟨b1, b2, b3, b4, b5, b6⟩ := h2
  refine ⟨b1.trans a1, b2.trans a2, b3.trans a3, fun h => b4 (a4 h), ?_, ?_⟩
  · intro h
    rcases a5 h with h' | h'
    · rcases b5 h' with h'' | h''
      · exact Or.inl h''
      · right; rw [h'', a1]
    · exact Or.inr h'
  · intro h
    rcases a6 h with h' | h'
    · rcases b6 h' with h'' | h''
      · exact Or.inl h''
      · right; rw [h'', a1]
    · exact Or.inr h'

theorem forall₂_upd_refl (imp : Option SocketId) (l : List Player) :
    List.Forall₂ (Upd imp) l l :=
  List.forall₂_same.2 (fun p _ => upd_refl imp p)

theorem forall₂_upd_trans {imp : Option SocketId} {l l' l'' : List Player}
    (h1 : List.Forall₂ (Upd imp) l l') (h2 : List.Forall₂ (Upd imp) l' l'') :
    List.Forall₂ (Upd imp) l l'' := by
  induction h1 generalizing l'' with
  | nil => cases h2; exact List.Forall₂.nil
  | cons hab _ ih =>
    cases h2 with
    | cons hbc hrest => exact List.Forall₂.cons (upd_trans hab hbc) (ih hrest)

theorem forall₂_upd_modifyFirst (imp : Option SocketId) (pred : Player → Bool)
    (f : Player → Player) (l : List Player)
    (h : ∀ p, pred p = true → Upd imp p (f p)) :
    List.Forall₂ (Upd imp) l (modifyFirst pred f l) := by
  induction l with
  | nil => exact List.Forall₂.nil
  | cons a rest ih =>
    by_cases hp : pred a = true
    · simp only [modifyFirst, hp, if_true]
      exact List.Forall₂.cons (h a hp) (forall₂_upd_refl imp rest)
    · simp only [modifyFirst, hp]
      exact List.Forall₂.cons (upd_refl imp a) ih

theorem forall₂_upd_modifyAt (imp : Option SocketId) (i : Nat)
    (f : Player → Player) (l : List Player)
    (h : ∀ p, l[i]? = some p → Upd imp p (f p)) :
    List.Forall₂ (Upd imp) l (modifyAt i f l) := by
  induction l generalizing i with
  | nil => simp [modifyAt]
  | cons a rest ih =>
    cases i with
    | zero =>
      simp only [modifyAt]
      exact List.Forall₂.cons (h a (by simp)) (forall₂_upd_refl imp rest)
    | succ k =>
      simp only [modifyAt]
      exact List.Forall₂.cons (upd_refl imp a) (ih k (fun p hp => h p (by simpa using hp)))

theorem forall₂_upd_map (imp : Option SocketId) (f : Player → Player) (l : List Player)
    (h : ∀ p, Upd imp p (f p)) : List.Forall₂ (Upd imp) l (l.map f) := by
  induction l with
  | nil => exact List.Forall₂.nil
  | cons a rest ih => exact List.Forall₂.cons (h a) ih

theorem upd_lose (imp : Option SocketId) (p : Player) :
    Upd imp p { p with lives := max 0 (p.lives - 1) } := by
  refine ⟨rfl, rfl, rfl, ?_, ?_, ?_⟩
  · rintro ⟨h1, h2, h3⟩
    refine ⟨?_, ?_, ?_⟩
    · simp
    · simp; omega
    · intro hb; have := h3 hb; simp; omega
  · intro h; left; simp [h]
  · intro h; left; simp; omega

theorem upd_gain (imp : Option SocketId) (p : Player) (h : isImposter imp p = true) :
    Upd imp p { p with
      hasBonusCard := if p.lives = MAX_LIVES then true else p.hasBonusCard,
      lives := min MAX_LIVES (p.lives + 1) } := by
  have himp : imp = some p.id := by
    simp only [isImposter, beq_iff_eq] at h
    exact h.symm
  refine ⟨rfl, rfl, rfl, ?_, fun _ => Or.inr himp, fun _ => Or.inr himp⟩
  rintro ⟨h1, h2, h3⟩
  simp only [MAX_LIVES]
  refine ⟨?_, ?_, ?_⟩
  · simp; omega
  · simp
  · intro _; simp

theorem upd_useBonus (imp : Option SocketId) (p : Player) :
    Upd imp p { p with hasBonusCard := false } := by
  refine ⟨rfl, rfl, rfl, ?_, Or.inl, Or.inl⟩
  rintro ⟨h1, h2, _⟩
  exact ⟨h1, h2, by simp⟩

theorem upd_votes (imp : Option SocketId) (p : Player) :
    Upd imp p { p with votesReceived := some 0 } :=
  ⟨rfl, rfl, rfl, id, Or.inl, Or.inl⟩

theorem upd_duel (imp : Option SocketId) (p : Player) (h : isLiving p = true) :
    Upd imp p { p with lives := p.lives - 1 } := by
  simp only [isLiving, Bool.and_eq_true, decide_eq_true_eq] at h
  refine ⟨rfl, rfl, rfl, ?_, ?_, ?_⟩
  · rintro ⟨h1, h2, h3⟩
    refine ⟨?_, ?_, ?_⟩
    · simp; omega
    · simp; omega
    · intro hb; have := h3 hb; simp; omega
  · intro h0; omega
  · intro h0; omega

theorem upd_bonusToLife (imp : Option SocketId) (p : Player) :
    Upd imp p
      (if decide (p.lives > 0) && !p.isGhost then
        if p.hasBonusCard then { p with lives := p.lives + 1, hasBonusCard := false } else p
      else p) := by
  split
  · rename_i hl
    simp only [Bool.and_eq_true, decide_eq_true_eq] at hl
    split
    · rename_i hb
      refine ⟨rfl, rfl, rfl, ?_, ?_, ?_⟩
      · rintro ⟨h1, h2, h3⟩
        have := h3 hb
        refine ⟨?_, ?_, ?_⟩
        · simp; omega
        · simp; omega
        · simp
      · intro h0; omega
      · intro h0; omega
    · exact upd_refl imp p
  · exact upd_refl imp p

theorem roomUpd_refl (r : Room) : RoomUpd r r :=
  ⟨rfl, fun h => ⟨h, rfl⟩, forall₂_upd_refl _ _⟩

theorem roomUpd_trans {r r' r'' : Room} (h1 : RoomUpd r r') (h2 : RoomUpd r' r'') :
    RoomUpd r r'' := by
  obtain ⟨a1, a2, a3⟩ := h1
  obtain ⟨b1, b2, b3⟩ := h2
  refine ⟨b1.trans a1, ?_, ?_⟩
  · intro h
    obtain ⟨c1, c2⟩ := b2 h
    obtain ⟨d1, d2⟩ := a2 c1
    exact ⟨d1, c2.trans d2⟩
  · rw [a1] at b3
    exact forall₂_upd_trans a3 b3

theorem roomUpd_of_eq {r r' : Room} (h1 : r'.imposterId = r.imposterId)
    (h2 : r'.players = r.players) (h3 : r'.phase = .LOBBY → r.phase = .LOBBY) :
    RoomUpd r r' :=
  ⟨h1, fun h => ⟨h3 h, h2⟩, by rw [h2]; exact forall₂_upd_refl _ _⟩

theorem roomUpd_handleStealLife (room : Room) (a b : Option SocketId) :
    RoomUpd room (handleStealLife room a b).1 := by
  simp only [handleStealLife]
  repeat' split
  all_goals first
    | exact roomUpd_refl _
    | exact roomUpd_of_eq rfl rfl id
    | (refine ⟨rfl, ?_, ?_⟩
       · intro h; simp_all
       · first
         | exact forall₂_upd_modifyFirst _ _ _ _ (fun p _ => upd_lose _ p)
         | exact forall₂_upd_trans
             (forall₂_upd_modifyFirst _ _ _ _ (fun p _ => upd_lose _ p))
             (forall₂_upd_modifyFirst _ _ _ _ (fun p hp => upd_gain _ p hp)))

theorem roomUpd_resolveVotes (room : Room) : RoomUpd room (resolveVotes room).1 := by
  simp only [resolveVotes]
  repeat' split
  all_goals exact roomUpd_of_eq rfl rfl (fun h => by simp at h)

theorem roomUpd_startVotingPhase (room : Room) : RoomUpd room (startVotingPhase room).1 := by
  simp only [startVotingPhase]
  exact ⟨rfl, fun h => by simp at h, forall₂_upd_map _ _ _ (fun p => upd_votes _ p)⟩

theorem roomUpd_nextTurnLoop (fuel : Nat) (room : Room) :
    RoomUpd room (nextTurnLoop fuel room).1 := by
  induction fuel generalizing room with
  | zero => exact roomUpd_refl _
  | succ n ih =>
    simp only [nextTurnLoop]
    repeat' split
    all_goals first
      | exact roomUpd_of_eq rfl rfl id
      | exact roomUpd_trans (roomUpd_of_eq rfl rfl id) (roomUpd_startVotingPhase _)
      | exact roomUpd_trans (roomUpd_of_eq rfl rfl id) (ih _)

theorem roomUpd_nextTurn (room : Room) : RoomUpd room (nextTurn room).1 :=
  roomUpd_nextTurnLoop _ room

theorem roomUpd_startCluePhase (room : Room) : RoomUpd room (startCluePhase room).1 := by
  simp only [startCluePhase]
  refine roomUpd_trans ?_ (roomUpd_nextTurn _)
  exact roomUpd_of_eq rfl rfl (fun h => by simp at h)

theorem roomUpd_handleClueSubmission (room : Room) (i : SocketId) (t : String) :
    RoomUpd room (handleClueSubmission room i t).1 := by
  simp only [handleClueSubmission]
  repeat' split
  all_goals exact roomUpd_trans (roomUpd_of_eq rfl rfl id) (roomUpd_nextTurn _)

theorem roomUpd_proceedToSetup (room : Room) : RoomUpd room (proceedToSetup room).1 :=
  roomUpd_of_eq rfl rfl (fun h => by simp [proceedToSetup] at h)

theorem roomUpd_checkVotingResult (room : Room) :
    RoomUpd room (checkVotingResult room).1 := by
  simp only [checkVotingResult]
  repeat' split
  all_goals exact roomUpd_refl _

theorem roomUpd_onVotePlayer (room : Room) (i : SocketId) (t : Target) :
    RoomUpd room (onVotePlayer room i t).1 := by
  simp only [onVotePlayer]
  repeat' split
  all_goals first
    | exact roomUpd_refl _
    | exact roomUpd_trans (roomUpd_of_eq rfl rfl id) (roomUpd_checkVotingResult _)

theorem roomUpd_onImpostorGuess (room : Room) (i : SocketId) (w : Nat) :
    RoomUpd room (onImpostorGuess room i w).1 := by
  simp only [onImpostorGuess]
  repeat' split
  all_goals first
    | exact roomUpd_refl _
    | exact roomUpd_of_eq rfl rfl (fun h => by simp at h)
    | (refine ⟨rfl, ?_, ?_⟩
       · intro h; simp_all
       · first
         | exact forall₂_upd_modifyFirst _ _ _ _ (fun p _ => upd_lose _ p)
         | exact forall₂_upd_modifyFirst _ _ _ _ (fun p _ => upd_useBonus _ p))

theorem roomUpd_startHeadToHead (room : Room) (d : Nat) :
    RoomUpd room (startHeadToHead room d).1 := by
  simp only [startHeadToHead]
  exact ⟨rfl, fun h => by simp at h, forall₂_upd_map _ _ _ (fun p => upd_bonusToLife _ p)⟩

theorem roomUpd_handleHeadToHeadAction (room : Room) (i : SocketId) (b d : Nat) :
    RoomUpd room (handleHeadToHeadAction room i b d).1 := by
  simp only [handleHeadToHeadAction]
  split
  · exact roomUpd_refl _
  · rename_i hphase
    split
    · exact roomUpd_refl _
    · rename_i cur hcur
      have hmem : cur ∈ room.players.enum.filter (fun ip => isLiving ip.2) := by
        simp only [duelistAt] at hcur
        split at hcur
        · cases hcur
        · exact List.getElem?_mem hcur
      obtain ⟨h1, h2⟩ := List.mem_filter.1 hmem
      have hget : room.players[cur.1]? = some cur.2 := List.mk_mem_enum_iff_getElem?.1 h1
      have hupd : List.Forall₂ (Upd room.imposterId) room.players
          (modifyAt cur.1 (fun (p : Player) => { p with lives := p.lives - 1 })
            room.players) := by
        apply forall₂_upd_modifyAt
        intro p hp
        rw [hget] at hp
        cases hp
        exact upd_duel _ _ h2
      have hphase' : room.phase = .HEAD_TO_HEAD := by simpa using hphase
      repeat' split
      all_goals first
        | exact roomUpd_refl _
        | exact roomUpd_of_eq rfl rfl id
        | (refine ⟨rfl, ?_, ?_⟩
           · intro h; simp [hphase'] at h
           · exact hupd)

theorem roomUpd_intervalTick (room : Room) : RoomUpd room (intervalTick room).1 := by
  simp only [intervalTick]
  split
  · exact roomUpd_refl _
  · split
    · exact roomUpd_refl _
    · split
      · split
        · refine roomUpd_trans ?_ (roomUpd_handleClueSubmission _ _ _)
          exact roomUpd_of_eq rfl rfl id
        · exact roomUpd_of_eq rfl rfl id
      · split
        · refine roomUpd_trans ?_ (roomUpd_resolveVotes _)
          exact roomUpd_of_eq rfl rfl id
        · exact roomUpd_of_eq rfl rfl id
      · split
        · refine roomUpd_trans ?_ (roomUpd_handleStealLife _ _ _)
          exact roomUpd_of_eq rfl rfl id
        · exact roomUpd_of_eq rfl rfl id

theorem startGame_nobody_living (room : Room) (d : Draws)
    (h : ¬ 0 < (livingPlayers room).length) : RoomUpd room (startGame room d).1 := by
  have hlen : (room.players.enum.filter (fun ip => isLiving ip.2)).length < 1 := by
    have h1 : (room.players.enum.filter (fun ip => isLiving ip.2)).length
        = (livingPlayers room).length := by
      rw [← List.length_map _ Prod.snd, map_snd_living]; rfl
    omega
  simp only [startGame, hlen, if_true]
  exact roomUpd_of_eq rfl rfl id

theorem startGame_shape (room : Room) (d : Draws) :
    RoomUpd room (startGame room d).1
    ∨ (∃ d', 0 < (livingPlayers room).length ∧ (startGame room d).1 = (startGame room d').1) := by
  by_cases h : 0 < (livingPlayers room).length
  · exact Or.inr ⟨d, h, rfl⟩
  · exact Or.inl (startGame_nobody_living room d h)

theorem startNextRound_shape (room : Room) (rnd : Rand) :
    RoomUpd room (startNextRound room rnd).1
    ∨ (∃ d', 0 < (livingPlayers room).length
        ∧ (startNextRound room rnd).1 = (startGame room d').1) := by
  simp only [startNextRound]
  split
  · exact Or.inl (roomUpd_of_eq rfl rfl (fun h => by simp at h))
  · split
    · exact Or.inl (roomUpd_startHeadToHead _ _)
    · exact startGame_shape _ _

theorem firePending_shape (room : Room) (k : Pending) (rnd : Rand)
    (hk : k ≠ .resetToLobby) :
    RoomUpd room (firePending room k rnd).1
    ∨ (∃ d', 0 < (livingPlayers room).length
        ∧ (firePending room k rnd).1 = (startGame room d').1) := by
  cases k with
  | countdown n =>
    simp only [firePending]
    split
    · exact Or.inl (roomUpd_refl _)
    · exact Or.inl (roomUpd_proceedToSetup _)
  | startCluePhase => exact Or.inl (roomUpd_startCluePhase _)
  | stealTimerStart => exact Or.inl (roomUpd_of_eq rfl rfl id)
  | roundEndFailed => exact Or.inl (roomUpd_refl _)
  | startNextRound => exact startNextRound_shape _ _
  | h2hTurn n =>
    simp only [firePending]
    split <;> exact Or.inl (roomUpd_refl _)
  | h2hGameOver w =>
    simp only [firePending]
    split <;> exact Or.inl (roomUpd_of_eq rfl rfl (fun h => by simp at h))
  | resetToLobby => exact absurd rfl hk

/-- What one step does to the room: a player-wise update that keeps
`imposterId`, or `startGame` on a room with a living player, or the reset to
the lobby, or `join_room`, or `disconnect`, or `debug_force_h2h`. -/
theorem step_shape (s : State) (e : Event) (r r' : Room) (hs : s.room = some r)
    (hr : (step s e).1.room = some r') :
    RoomUpd r r'
    ∨ (∃ d, 0 < (livingPlayers r).length ∧ r' = (startGame r d).1)
    ∨ (firesReset s e = true ∧ r' = (resetToLobby r).1)
    ∨ (∃ id name, e = .join_room id name ∧ r' = (joinRoom r id name).1)
    ∨ (∃ id, e = .disconnect id ∧ (onDisconnect r id).1 = some r')
    ∨ (∃ id d, e = .debug_force_h2h id d ∧ r' = (onDebugForceH2H r d).1) := by
  cases e with
  | timeout i rnd =>
    simp only [step, hs] at hr
    split at hr
    · rw [hs] at hr; cases hr; exact Or.inl (roomUpd_refl _)
    · rename_i k hk
      simp only [Option.some.injEq] at hr; subst hr
      by_cases hreset : k = .resetToLobby
      · subst hreset
        exact Or.inr (Or.inr (Or.inl ⟨by simp [firesReset, hk], rfl⟩))
      · rcases firePending_shape r k rnd hreset with h | ⟨d, h1, h2⟩
        · exact Or.inl h
        · exact Or.inr (Or.inl ⟨d, h1, h2⟩)
  | join_room i n =>
    have : r' = (joinRoom r i n).1 := by simpa [step, hs, onEvent] using hr.symm
    exact Or.inr (Or.inr (Or.inr (Or.inl ⟨i, n, rfl, this⟩)))
  | start_game i d =>
    have : r' = (onStartGame r i d).1 := by simpa [step, hs, onEvent] using hr.symm
    subst this
    simp only [onStartGame]
    split
    · exact Or.inl (roomUpd_refl _)
    · rcases startGame_shape r d with h | ⟨d', h1, h2⟩
      · exact Or.inl h
      · exact Or.inr (Or.inl ⟨d', h1, h2⟩)
  | disconnect i =>
    have : (onDisconnect r i).1 = some r' := by simpa [step, hs, onEvent] using hr
    exact Or.inr (Or.inr (Or.inr (Or.inr (Or.inl ⟨i, rfl, this⟩))))
  | submit_clue i c =>
    have : r' = (handleClueSubmission r i c).1 := by simpa [step, hs, onEvent] using hr.symm
    subst this
    exact Or.inl (roomUpd_handleClueSubmission _ _ _)
  | vote_player i t =>
    have : r' = (onVotePlayer r i t).1 := by simpa [step, hs, onEvent] using hr.symm
    subst this
    exact Or.inl (roomUpd_onVotePlayer _ _ _)
  | impostor_guess i w =>
    have : r' = (onImpostorGuess r i w).1 := by simpa [step, hs, onEvent] using hr.symm
    subst this
    exact Or.inl (roomUpd_onImpostorGuess _ _ _)
  | restart_round i d =>
    have : r' = (startGame r d).1 := by simpa [step, hs, onEvent, onRestartRound] using hr.symm
    subst this
    rcases startGame_shape r d with h | ⟨d', h1, h2⟩
    · exact Or.inl h
    · exact Or.inr (Or.inl ⟨d', h1, h2⟩)
  | steal_life i t =>
    have : r' = (handleStealLife r (some i) t).1 := by simpa [step, hs, onEvent] using hr.symm
    subst this
    exact Or.inl (roomUpd_handleStealLife _ _ _)
  | head_to_head_action i b d =>
    have : r' = (handleHeadToHeadAction r i b d).1 := by
      simpa [step, hs, onEvent] using hr.symm
    subst this
    exact Or.inl (roomUpd_handleHeadToHeadAction _ _ _ _)
  | debug_force_h2h i d =>
    have : r' = (onDebugForceH2H r d).1 := by simpa [step, hs, onEvent] using hr.symm
    exact Or.inr (Or.inr (Or.inr (Or.inr (Or.inr ⟨i, d, rfl, this⟩))))
  | interval_tick =>
    have : r' = (intervalTick r).1 := by simpa [step, hs, onEvent] using hr.symm
    subst this
    exact Or.inl (roomUpd_intervalTick _)

/-! ## Invariants of the state machine: lives, eliminated players, fairness -/

theorem forall₂_mem_right {α : Type} {R : α → α → Prop} {l l' : List α}
    (h : List.Forall₂ R l l') : ∀ b ∈ l', ∃ a ∈ l, R a b := by
  induction h with
  | nil => intro b hb; cases hb
  | cons hab _ ih =>
    intro b hb
    simp only [List.mem_cons] at hb
    rcases hb with rfl | hb
    · exact ⟨_, List.mem_cons_self _ _, hab⟩
    · obtain ⟨a, ha, hr⟩ := ih b hb
      exact ⟨a, List.mem_cons_of_mem _ ha, hr⟩

theorem forall₂_upd_ids {imp : Option SocketId} {l l' : List Player}
    (h : List.Forall₂ (Upd imp) l l') :
    l'.map (fun p => p.id) = l.map (fun p => p.id) := by
  induction h with
  | nil => rfl
  | cons hab _ ih => simp [hab.1, ih]

/-- The players of the room `startGame` builds: each one is a player of the old
room with the same id, lives, ghost flag and bonus card, and with
`timesImpostor || 0` increased by one at the selected position only. -/
theorem startGame_players (room : Room) (d : Draws)
    (hliving : 0 < (livingPlayers room).length) :
    ∃ (i : Nat) (p0 : Player), room.players[i]? = some p0 ∧ isLiving p0 = true
      ∧ (∀ q ∈ livingPlayers room, timesOf p0 ≤ timesOf q)
      ∧ (startGame room d).1.imposterId = some p0.id
      ∧ (startGame room d).1.phase = .COUNTDOWN
      ∧ ((startGame room d).1.players.map (fun p => p.id)).Perm
          (room.players.map (fun p => p.id))
      ∧ ∀ p' ∈ (startGame room d).1.players, ∃ (j : Nat) (p : Player),
          room.players[j]? = some p ∧ p'.id = p.id ∧ p'.lives = p.lives
          ∧ p'.isGhost = p.isGhost ∧ p'.hasBonusCard = p.hasBonusCard
          ∧ timesOf p' = (if j = i then timesOf p + 1 else timesOf p) := by
  obtain ⟨sel, _, hmem, himp, _, hph, hpl⟩ := startGame_of_candidates room d hliving
  obtain ⟨hi, hleast⟩ := mem_candidatesOf room sel hmem
  simp only [leastPlayed, List.mem_filter, List.all_eq_true, decide_eq_true_eq] at hleast
  have hl0 : isLiving sel.2 = true := (List.mem_filter.1 hleast.1).2
  refine ⟨sel.1, sel.2, hi, hl0, hleast.2, himp, hph, ?_, ?_⟩
  · rw [hpl]
    refine ((shuffle_perm _ _).map _).trans (List.Perm.of_eq ?_)
    rw [List.map_map, map_modifyAt _ _ _ _ (by intro a; rfl)]
    rfl
  · intro p' hp'
    rw [hpl] at hp'
    have hp'' := (shuffle_perm _ _).mem_iff.1 hp'
    simp only [List.mem_map] at hp''
    obtain ⟨q, hq, rfl⟩ := hp''
    obtain ⟨j, hj⟩ := List.mem_iff_getElem?.1 hq
    rw [getElem?_modifyAt] at hj
    cases hpj : room.players[j]? with
    | none => rw [hpj] at hj; cases hj
    | some p =>
      rw [hpj] at hj
      simp only [Option.map_some', Option.some.injEq] at hj
      refine ⟨j, p, hpj, ?_⟩
      subst hj
      by_cases h : j = sel.1 <;> simp [h, timesOf]

theorem onDisconnect_shape (r r' : Room) (i : SocketId)
    (h : (onDisconnect r i).1 = some r') :
    r' = r ∨ (r.phase = .LOBBY ∧ r'.phase = .LOBBY ∧ r'.imposterId = r.imposterId
      ∧ ∃ k, r'.players = r.players.eraseIdx k) := by
  simp only [onDisconnect] at h
  split at h
  · left; simpa using h.symm
  · rename_i k _
    split at h
    · rename_i hph
      split at h
      · cases h
      · right
        simp only [Option.some.injEq] at h
        subst h
        exact ⟨hph, hph, rfl, k, rfl⟩
    · left; simpa using h.symm

theorem joinRoom_shape (r : Room) (i : SocketId) (n : String) :
    (joinRoom r i n).1 = r ∨ (r.phase = .LOBBY ∧ (joinRoom r i n).1.phase = .LOBBY
      ∧ (joinRoom r i n).1.imposterId = r.imposterId
      ∧ ∃ p : Player, (joinRoom r i n).1.players = r.players ++ [p] ∧ p.id = i
          ∧ p.lives = 3 ∧ p.hasBonusCard = false ∧ p.isGhost = false
          ∧ p.timesImpostor = some 0) := by
  simp only [joinRoom]
  split
  · left; rfl
  · rename_i hph
    split
    · left; rfl
    · right
      have hph' : r.phase = .LOBBY := by simpa using hph
      exact ⟨hph', hph', rfl, _, rfl, rfl, rfl, rfl, rfl, rfl⟩

theorem room_step_exists (s : State) (e : Event) (r : Room) (hs : s.room = some r)
    (hph : r.phase ≠ .LOBBY) : ∃ r', (step s e).1.room = some r' := by
  cases e
  case timeout i rnd =>
    simp only [step, hs]
    split
    · exact ⟨r, hs⟩
    · exact ⟨_, rfl⟩
  case disconnect i =>
    simp only [step, hs, onEvent, onDisconnect]
    split
    · exact ⟨_, rfl⟩
    · simp [hph]
  all_goals (simp only [step, hs, onEvent]; exact ⟨_, rfl⟩)

theorem step_room_none (s : State) (e : Event) (h : s.room = none) :
    (step s e).1.room = none := by
  cases e
  case timeout i rnd => simp only [step, h]; split <;> simp [h]
  all_goals simp only [step, h]

theorem livesOk_roomUpd (r r' : Room) (h : RoomUpd r r')
    (hr : ∀ p ∈ r.players, LivesOk p) : ∀ p ∈ r'.players, LivesOk p := by
  intro p' hp'
  obtain ⟨p, hp, hupd⟩ := forall₂_mem_right h.2.2 p' hp'
  exact hupd.2.2.2.1 (hr p hp)

theorem livesOk_startGame (r : Room) (d : Draws)
    (hr : ∀ p ∈ r.players, LivesOk p) : ∀ p ∈ (startGame r d).1.players, LivesOk p := by
  by_cases hliving : 0 < (livingPlayers r).length
  · obtain ⟨i, p0, _, _, _, _, _, _, hpl⟩ := startGame_players r d hliving
    intro p' hp'
    obtain ⟨j, p, hj, _, hl, _, hb, _⟩ := hpl p' hp'
    have := hr p (List.getElem?_mem hj)
    simp only [LivesOk] at this ⊢
    rw [hl, hb]
    exact this
  · exact livesOk_roomUpd _ _ (startGame_nobody_living r d hliving) hr

theorem livesOk_resetToLobby (r : Room) : ∀ p ∈ (resetToLobby r).1.players, LivesOk p := by
  intro p hp
  simp only [resetToLobby, List.mem_map] at hp
  obtain ⟨q, _, rfl⟩ := hp
  simp [LivesOk, MAX_LIVES]

theorem livesOk_joinRoom (r : Room) (i : SocketId) (n : String)
    (hr : ∀ p ∈ r.players, LivesOk p) : ∀ p ∈ (joinRoom r i n).1.players, LivesOk p := by
  rcases joinRoom_shape r i n with h | ⟨_, _, _, q, hq, _, hl, hb, _⟩
  · rw [h]; exact hr
  · intro p hp
    rw [hq, List.mem_append, List.mem_singleton] at hp
    rcases hp with hp | rfl
    · exact hr p hp
    · simp [LivesOk, hl, hb]

theorem livesOk_onDisconnect (r r' : Room) (i : SocketId)
    (h : (onDisconnect r i).1 = some r')
    (hr : ∀ p ∈ r.players, LivesOk p) : ∀ p ∈ r'.players, LivesOk p := by
  rcases onDisconnect_shape r r' i h with h | ⟨_, _, _, k, hk⟩
  · rw [h]; exact hr
  · intro p hp
    rw [hk] at hp
    exact hr p (List.mem_of_mem_eraseIdx hp)

theorem livesOk_onDebugForceH2H (r : Room) (d : Nat)
    (hr : ∀ p ∈ r.players, LivesOk p) :
    ∀ p ∈ (onDebugForceH2H r d).1.players, LivesOk p := by
  simp only [onDebugForceH2H]
  split
  · apply livesOk_roomUpd _ _ (roomUpd_startHeadToHead _ _)
    intro p hp
    simp only [List.mem_append, List.mem_map] at hp
    rcases hp with ⟨q, hq, rfl⟩ | ⟨q, hq, rfl⟩
    · have := hr q (List.mem_of_mem_take hq)
      simp [LivesOk]
    · have := hr q (List.mem_of_mem_drop hq)
      simp [LivesOk]
  · exact hr

theorem livesOk_step (s : State) (e : Event)
    (h : ∀ r, s.room = some r → ∀ p ∈ r.players, LivesOk p) :
    ∀ r', (step s e).1.room = some r' → ∀ p ∈ r'.players, LivesOk p := by
  intro r' hr'
  cases hroom : s.room with
  | none => rw [step_room_none s e hroom] at hr'; cases hr'
  | some r =>
    have hr := h r hroom
    rcases step_shape s e r r' hroom hr' with h1 | ⟨d, _, h1⟩ | ⟨_, h1⟩ | ⟨i, n, _, h1⟩ |
      ⟨i, _, h1⟩ | ⟨i, d, _, h1⟩
    · exact livesOk_roomUpd r r' h1 hr
    · rw [h1]; exact livesOk_startGame r d hr
    · rw [h1]; exact livesOk_resetToLobby r
    · rw [h1]; exact livesOk_joinRoom r i n hr
    · exact livesOk_onDisconnect r r' i h1 hr
    · rw [h1]; exact livesOk_onDebugForceH2H r d hr

theorem livesOk_reachable (s : State) (h : Reachable s) :
    ∀ r, s.room = some r → ∀ p ∈ r.players, LivesOk p := by
  induction h with
  | create i n c =>
    intro r hr
    simp only [initState, Option.some.injEq] at hr
    subst hr
    intro p hp
    simp only [createRoom, List.mem_singleton] at hp
    subst hp
    simp [LivesOk, MAX_LIVES]
  | step s e _ ih => exact livesOk_step s e ih

theorem lobbyLives_step (s : State) (e : Event)
    (h : ∀ r, s.room = some r → r.phase = .LOBBY → ∀ p ∈ r.players, p.lives = 3) :
    ∀ r', (step s e).1.room = some r' → r'.phase = .LOBBY →
      ∀ p ∈ r'.players, p.lives = 3 := by
  intro r' hr' hph'
  cases hroom : s.room with
  | none => rw [step_room_none s e hroom] at hr'; cases hr'
  | some r =>
    have hr := h r hroom
    rcases step_shape s e r r' hroom hr' with h1 | ⟨d, hl, h1⟩ | ⟨_, h1⟩ | ⟨i, n, _, h1⟩ |
      ⟨i, _, h1⟩ | ⟨i, d, _, h1⟩
    · obtain ⟨h2, h3⟩ := h1.2.1 hph'
      rw [h3]; exact hr h2
    · obtain ⟨_, _, _, _, _, _, hph, _⟩ := startGame_players r d hl
      rw [h1, hph] at hph'; cases hph'
    · intro p hp
      rw [h1] at hp
      simp only [resetToLobby, List.mem_map] at hp
      obtain ⟨q, _, rfl⟩ := hp
      rfl
    · rcases joinRoom_shape r i n with h2 | ⟨h2, _, _, q, hq, _, hl, _⟩
      · rw [h1, h2] at hph' ⊢; exact hr hph'
      · intro p hp
        rw [h1, hq, List.mem_append, List.mem_singleton] at hp
        rcases hp with hp | rfl
        · exact hr h2 p hp
        · exact hl
    · rcases onDisconnect_shape r r' i h1 with h2 | ⟨h2, _, _, k, hk⟩
      · rw [h2] at hph' ⊢; exact hr hph'
      · intro p hp
        rw [hk] at hp
        exact hr h2 p (List.mem_of_mem_eraseIdx hp)
    · rw [h1] at hph' ⊢
      simp only [onDebugForceH2H] at hph' ⊢
      split at hph'
      · simp [startHeadToHead] at hph'
      · rename_i hlen
        simp only [hlen, if_false]
        exact hr hph'

theorem lobbyLives_reachable (s : State) (h : Reachable s) :
    ∀ r, s.room = some r → r.phase = .LOBBY → ∀ p ∈ r.players, p.lives = 3 := by
  induction h with
  | create i n c =>
    intro r hr _
    simp only [initState, Option.some.injEq] at hr
    subst hr
    intro p hp
    simp only [createRoom, List.mem_singleton] at hp
    subst hp
    rfl
  | step s e _ ih => exact lobbyLives_step s e ih

theorem eliminated_step (id : SocketId) (s : State) (e : Event) (r : Room)
    (hroom : s.room = some r) (h : Eliminated id r)
    (hreset : firesReset s e = false) (hdebug : isDebugForce e = false) :
    ∃ r', (step s e).1.room = some r' ∧ Eliminated id r' := by
  obtain ⟨hph, himp, ⟨p1, hp1, hid1⟩, hdead⟩ := h
  obtain ⟨r', hr'⟩ := room_step_exists s e r hroom hph
  refine ⟨r', hr', ?_⟩
  rcases step_shape s e r r' hroom hr' with h1 | ⟨d, hl, h1⟩ | ⟨h0, _⟩ | ⟨i, n, _, h1⟩ |
    ⟨i, _, h1⟩ | ⟨i, d, he, _⟩
  · obtain ⟨a1, a2, a3⟩ := h1
    refine ⟨fun hc => hph (a2 hc).1, by rw [a1]; exact himp, ?_, ?_⟩
    · have hids := forall₂_upd_ids a3
      have : id ∈ r'.players.map (fun p => p.id) := by
        rw [hids]; exact List.mem_map.2 ⟨p1, hp1, hid1⟩
      obtain ⟨q, hq, hqid⟩ := List.mem_map.1 this
      exact ⟨q, hq, hqid⟩
    · intro p' hp' hid'
      obtain ⟨p, hp, hupd⟩ := forall₂_mem_right a3 p' hp'
      have hpid : p.id = id := by rw [← hupd.1]; exact hid'
      rcases hupd.2.2.2.2.1 (hdead p hp hpid) with h0 | h0
      · exact h0
      · rw [hpid] at h0; exact absurd h0 himp
  · obtain ⟨i0, p0, hi0, hl0, _, himp', hph', hperm, hpl⟩ := startGame_players r d hl
    rw [h1]
    refine ⟨by rw [hph']; simp, ?_, ?_, ?_⟩
    · rw [himp']
      intro hc
      have hc' : p0.id = id := Option.some.inj hc
      have := hdead p0 (List.getElem?_mem hi0) hc'
      simp [isLiving, this] at hl0
    · have : id ∈ (startGame r d).1.players.map (fun p => p.id) := by
        rw [hperm.mem_iff]; exact List.mem_map.2 ⟨p1, hp1, hid1⟩
      obtain ⟨q, hq, hqid⟩ := List.mem_map.1 this
      exact ⟨q, hq, hqid⟩
    · intro p' hp' hid'
      obtain ⟨j, p, hj, hpid, hlives, _⟩ := hpl p' hp'
      rw [hlives]
      exact hdead p (List.getElem?_mem hj) (by rw [← hpid]; exact hid')
  · rw [hreset] at h0; cases h0
  · rcases joinRoom_shape r i n with h2 | ⟨h2, _⟩
    · rw [h1, h2]; exact ⟨hph, himp, ⟨p1, hp1, hid1⟩, hdead⟩
    · exact absurd h2 hph
  · rcases onDisconnect_shape r r' i h1 with h2 | ⟨h2, _⟩
    · rw [h2]; exact ⟨hph, himp, ⟨p1, hp1, hid1⟩, hdead⟩
    · exact absurd h2 hph
  · rw [he] at hdebug; simp [isDebugForce] at hdebug

theorem eliminated_run (id : SocketId) (es : List Event) (s : State) (r : Room)
    (hroom : s.room = some r) (h : Eliminated id r) (hes : withoutReset s es = true) :
    ∃ r', (run s es).room = some r' ∧ Eliminated id r' := by
  induction es generalizing s r with
  | nil => exact ⟨r, hroom, h⟩
  | cons e rest ih =>
    simp only [withoutReset, Bool.and_eq_true, Bool.not_eq_true'] at hes
    obtain ⟨r1, hr1, h1⟩ := eliminated_step id s e r hroom h hes.1.1 hes.1.2
    exact ih (step s e).1 r1 hr1 h1 hes.2

theorem index_of_id (l : List Player) (hnd : (l.map (fun p => p.id)).Nodup) (i j : Nat)
    (a b : Player) (hi : l[i]? = some a) (hj : l[j]? = some b) (h : a.id = b.id) : i = j := by
  induction l generalizing i j with
  | nil => simp at hi
  | cons c rest ih =>
    simp only [List.map_cons, List.nodup_cons] at hnd
    cases i with
    | zero =>
      cases j with
      | zero => rfl
      | succ m =>
        simp only [List.getElem?_cons_zero, Option.some.injEq] at hi
        simp only [List.getElem?_cons_succ] at hj
        subst hi
        exact absurd (h ▸ List.mem_map_of_mem (fun p => p.id) (List.getElem?_mem hj)) hnd.1
    | succ k =>
      cases j with
      | zero =>
        simp only [List.getElem?_cons_zero, Option.some.injEq] at hj
        simp only [List.getElem?_cons_succ] at hi
        subst hj
        exact absurd (h ▸ List.mem_map_of_mem (fun p => p.id) (List.getElem?_mem hi)) hnd.1
      | succ m =>
        simp only [List.getElem?_cons_succ] at hi hj
        rw [ih hnd.2 k m hi hj]

theorem inPlay_of_upd (r r' : Room) (p p' : Player) (himp : r'.imposterId = r.imposterId)
    (hupd : Upd r.imposterId p p') (h : InPlay r' p') : InPlay r p := by
  obtain ⟨h1, _, h3, _, _, h6⟩ := hupd
  rcases h with h | h
  · simp only [isLiving, Bool.and_eq_true, Bool.not_eq_true', decide_eq_true_eq] at h
    by_cases hl : p.lives ≤ 0
    · rcases h6 hl with h0 | h0
      · omega
      · exact Or.inr h0
    · left
      simp only [isLiving, Bool.and_eq_true, Bool.not_eq_true', decide_eq_true_eq]
      exact ⟨by rw [← h3]; exact h.1, by omega⟩
  · right
    rw [← himp, h, h1]

theorem fair_roomUpd (r r' : Room) (h : RoomUpd r r') (hf : Fair r) : Fair r' := by
  obtain ⟨a1, a2, a3⟩ := h
  obtain ⟨f1, f2, f3⟩ := hf
  refine ⟨by rw [forall₂_upd_ids a3]; exact f1, ?_, ?_⟩
  · intro hph
    obtain ⟨h1, h2⟩ := a2 hph
    rw [h2]; exact f2 h1
  · intro p' hp' q' hq' hip hiq
    obtain ⟨p, hp, hpu⟩ := forall₂_mem_right a3 p' hp'
    obtain ⟨q, hq, hqu⟩ := forall₂_mem_right a3 q' hq'
    have := f3 p hp q hq (inPlay_of_upd r r' p p' a1 hpu hip) (inPlay_of_upd r r' q q' a1 hqu hiq)
    have e1 : timesOf p' = timesOf p := by simp only [timesOf, hpu.2.1]
    have e2 : timesOf q' = timesOf q := by simp only [timesOf, hqu.2.1]
    rw [e1, e2]; exact this

theorem fair_startGame (r : Room) (d : Draws) (hf : Fair r) : Fair (startGame r d).1 := by
  by_cases hliving : 0 < (livingPlayers r).length
  · obtain ⟨f1, _, f3⟩ := hf
    obtain ⟨i, p0, hi, hl0, hmin, himp, hph, hperm, hpl⟩ := startGame_players r d hliving
    refine ⟨hperm.nodup_iff.2 f1, by rw [hph]; simp, ?_⟩
    have key : ∀ p' ∈ (startGame r d).1.players, InPlay (startGame r d).1 p' →
        ∃ (j : Nat) (p : Player), r.players[j]? = some p ∧ isLiving p = true
          ∧ timesOf p' = (if j = i then timesOf p + 1 else timesOf p) := by
      intro p' hp' hip
      obtain ⟨j, p, hj, hid, hlives, hghost, _, ht⟩ := hpl p' hp'
      refine ⟨j, p, hj, ?_, ht⟩
      rcases hip with h | h
      · simpa only [isLiving, hlives, hghost] using h
      · rw [himp] at h
        have hid' : p0.id = p.id := by rw [← hid]; exact Option.some.inj h
        have := index_of_id r.players f1 i j p0 p hi hj hid'
        subst this
        rw [hi] at hj
        cases hj
        exact hl0
    intro p' hp' q' hq' hip hiq
    obtain ⟨j, p, hj, hlp, htp⟩ := key p' hp' hip
    obtain ⟨k, q, hk, hlq, htq⟩ := key q' hq' hiq
    have hpm := List.getElem?_mem hj
    have hqm := List.getElem?_mem hk
    have hJ := f3 p hpm q hqm (Or.inl hlp) (Or.inl hlq)
    rw [htp, htq]
    by_cases hji : j = i
    · subst hji
      rw [hi] at hj
      cases hj
      have := hmin q (List.mem_filter.2 ⟨hqm, hlq⟩)
      by_cases hkj : k = j <;> simp [hkj] <;> omega
    · by_cases hki : k = i <;> simp [hji, hki] <;> omega
  · exact fair_roomUpd _ _ (startGame_nobody_living r d hliving) hf

theorem fair_of_zero (r : Room) (hids : (r.players.map (fun p => p.id)).Nodup)
    (hzero : ∀ p ∈ r.players, timesOf p = 0) : Fair r :=
  ⟨hids, fun _ => hzero, fun p hp q _ _ _ => by rw [hzero p hp]; omega⟩

theorem fair_resetToLobby (r : Room) (hf : Fair r) : Fair (resetToLobby r).1 := by
  apply fair_of_zero
  · simp only [resetToLobby, List.map_map]
    exact hf.1
  · intro p hp
    simp only [resetToLobby, List.mem_map] at hp
    obtain ⟨q, _, rfl⟩ := hp
    rfl

theorem fair_joinRoom (r : Room) (i : SocketId) (n : String) (hf : Fair r)
    (hnew : r.players.any (fun p => p.id == i) = false) : Fair (joinRoom r i n).1 := by
  rcases joinRoom_shape r i n with h | ⟨hph, _, _, q, hq, hid, _, _, _, ht⟩
  · rw [h]; exact hf
  · apply fair_of_zero
    · rw [hq, List.map_append, List.map_singleton]
      apply List.Nodup.append hf.1 (List.nodup_singleton _)
      rw [List.disjoint_singleton]
      intro hc
      obtain ⟨p, hp, hpid⟩ := List.mem_map.1 hc
      have := List.any_eq_false.1 hnew p hp
      simp [hpid, hid] at this
    · intro p hp
      rw [hq, List.mem_append, List.mem_singleton] at hp
      rcases hp with hp | rfl
      · exact hf.2.1 hph p hp
      · simp [timesOf, ht]

theorem fair_onDisconnect (r r' : Room) (i : SocketId) (h : (onDisconnect r i).1 = some r')
    (hf : Fair r) : Fair r' := by
  rcases onDisconnect_shape r r' i h with h | ⟨hph, _, himp, k, hk⟩
  · rw [h]; exact hf
  · obtain ⟨f1, f2, _⟩ := hf
    apply fair_of_zero
    · rw [hk]
      exact f1.sublist ((List.eraseIdx_sublist _ _).map _)
    · intro p hp
      rw [hk] at hp
      exact f2 hph p (List.mem_of_mem_eraseIdx hp)

theorem fair_step (s : State) (e : Event) (r : Room) (hroom : s.room = some r) (hf : Fair r)
    (hdebug : isDebugForce e = false) (hjoin : joinsAgain s e = false) :
    ∀ r', (step s e).1.room = some r' → Fair r' := by
  intro r' hr'
  rcases step_shape s e r r' hroom hr' with h1 | ⟨d, _, h1⟩ | ⟨_, h1⟩ | ⟨i, n, he, h1⟩ |
    ⟨i, _, h1⟩ | ⟨i, d, he, _⟩
  · exact fair_roomUpd r r' h1 hf
  · rw [h1]; exact fair_startGame r d hf
  · rw [h1]; exact fair_resetToLobby r hf
  · rw [h1]
    apply fair_joinRoom r i n hf
    simpa [joinsAgain, he, hroom] using hjoin
  · exact fair_onDisconnect r r' i h1 hf
  · rw [he] at hdebug; simp [isDebugForce] at hdebug

theorem fair_run (es : List Event) (s : State)
    (h : ∀ r, s.room = some r → Fair r) (hes : normalPlay s es = true) :
    ∀ r, (run s es).room = some r → Fair r := by
  induction es generalizing s with
  | nil => exact h
  | cons e rest ih =>
    simp only [normalPlay, Bool.and_eq_true, Bool.not_eq_true'] at hes
    apply ih (step s e).1 _ hes.2
    intro r' hr'
    cases hroom : s.room with
    | none => rw [step_room_none s e hroom] at hr'; cases hr'
    | some r => exact fair_step s e r hroom (h r hroom) hes.1.1 hes.1.2 r' hr'

/-! ## Fairness of the draw, bounds on lives, eliminated players -/

/-- C18: run the server from any state whose players have pairwise distinct ids
and `timesImpostor` 0 or unset (such as a lobby before the first round), by
any sequence of player actions and timer events that contains neither
`debug_force_h2h` nor a `join_room` by a socket that is already in the room.
Then in every state reached, after any number of rounds, the values of
`timesImpostor || 0` of any two living players differ by at most 1. -/
theorem impostor_draw_fairness (s : State) (r0 : Room) (es : List Event)
    (h0 : s.room = some r0)
    (hids : (r0.players.map (fun p => p.id)).Nodup)
    (hzero : ∀ p ∈ r0.players, timesOf p = 0)
    (hes : normalPlay s es = true) :
    ∀ r, (run s es).room = some r → ∀ p ∈ r.players, ∀ q ∈ r.players,
      isLiving p = true → isLiving q = true → timesOf p ≤ timesOf q + 1 := by
  intro r hr p hp q hq hlp hlq
  have hfair : ∀ r1, s.room = some r1 → Fair r1 := by
    intro r1 h1
    rw [h0] at h1
    cases h1
    exact fair_of_zero r0 hids hzero
  exact (fair_run es s hfair hes r hr).2.2 p hp q hq (Or.inl hlp) (Or.inl hlq)

set_option maxRecDepth 100000 in
/-- Witness of C18: the three rounds of `threeRounds`, from `create_room` on. -/
theorem impostor_draw_fairness_witness :
    normalPlay (initState 1 "A" "ROOM") threeRounds = true
    ∧ ∀ r, (run (initState 1 "A" "ROOM") threeRounds).room = some r →
        ∀ p ∈ r.players, ∀ q ∈ r.players,
          isLiving p = true → isLiving q = true → timesOf p ≤ timesOf q + 1 :=
  ⟨by decide,
   impostor_draw_fairness (initState 1 "A" "ROOM") (createRoom 1 "A" "ROOM") threeRounds rfl
     (by decide) (by decide) (by decide)⟩

set_option maxRecDepth 100000 in
/-- C19, counterexample: after the three rounds of `toHeadToHead` A and B, who
each hold 3 lives and a bonus card, are the last two living players;
`startHeadToHead` turns each bonus card into a life, so both have 4 lives. -/
theorem four_lives_in_head_to_head :
    Reachable (run (initState 1 "A" "ROOM") toHeadToHead)
    ∧ (run (initState 1 "A" "ROOM") toHeadToHead).room.map (fun r => r.phase)
        = some .HEAD_TO_HEAD
    ∧ livesOf (run (initState 1 "A" "ROOM") toHeadToHead) = some [(1, 4), (2, 4), (3, 0)] :=
  ⟨reachable_run _ _ (Reachable.create 1 "A" "ROOM"), by decide, by decide⟩

/-- C19, amended: in every room state reachable from `create_room` by player
actions and timer events, every player's lives is between 0 and 4 inclusive,
and at most 3 while the player holds a bonus card. -/
theorem lives_between_zero_and_four (s : State) (r : Room) (h : Reachable s)
    (hr : s.room = some r) :
    ∀ p ∈ r.players, 0 ≤ p.lives ∧ p.lives ≤ 4 ∧ (p.hasBonusCard = true → p.lives ≤ 3) :=
  livesOk_reachable s h r hr

/-- Witness of C19 (amended): the bounds in the room after `startGame` on the
three-player lobby. -/
theorem lives_between_zero_and_four_witness :
    Reachable (step { room := some lobby3, pending := [] } (.restart_round 1 (drawsWithPick 0))).1
    ∧ ∀ p ∈ (startGame lobby3 (drawsWithPick 0)).1.players,
        0 ≤ p.lives ∧ p.lives ≤ 4 ∧ (p.hasBonusCard = true → p.lives ≤ 3) :=
  ⟨Reachable.step _ _
      (Reachable.step _ (.join_room 3 "C")
        (Reachable.step _ (.join_room 2 "B") (Reachable.create 1 "A" "ROOM"))),
   lives_between_zero_and_four
      (step { room := some lobby3, pending := [] } (.restart_round 1 (drawsWithPick 0))).1
      (startGame lobby3 (drawsWithPick 0)).1
      (Reachable.step _ _
        (Reachable.step _ (.join_room 3 "C")
          (Reachable.step _ (.join_room 2 "B") (Reachable.create 1 "A" "ROOM"))))
      rfl⟩

set_option maxRecDepth 100000 in
/-- C20, counterexample: after the three rounds of `bLosesAll` B has no lives
left; `debug_force_h2h`, which is not the reset to the lobby, sets the lives
of the first two players (A and B) to 1, so B has 1 life again. -/
theorem debug_force_h2h_revives :
    Reachable (run (initState 1 "A" "ROOM") bLosesAll)
    ∧ livesOf (run (initState 1 "A" "ROOM") bLosesAll) = some [(1, 3), (2, 0), (3, 3)]
    ∧ firesReset (run (initState 1 "A" "ROOM") bLosesAll) (.debug_force_h2h 1 0) = false
    ∧ livesOf (step (run (initState 1 "A" "ROOM") bLosesAll) (.debug_force_h2h 1 0)).1
        = some [(1, 2), (2, 1), (3, 0)] :=
  ⟨reachable_run _ _ (Reachable.create 1 "A" "ROOM"), by decide, rfl, by decide⟩

/-- C20, amended: from a room state reachable from `create_room` in which the
players of socket `id` have 0 lives and `id` is not the room's `imposterId`,
every sequence of player actions and timer events that neither fires the
reset to the lobby nor contains `debug_force_h2h` leads to a room in which
the socket is still a player and its lives are still 0. -/
theorem eliminated_player_stays_at_zero (s : State) (r : Room) (id : SocketId)
    (es : List Event) (hs : Reachable s) (hroom : s.room = some r)
    (hmem : ∃ p ∈ r.players, p.id = id)
    (hdead : ∀ p ∈ r.players, p.id = id → p.lives = 0)
    (himp : r.imposterId ≠ some id)
    (hes : withoutReset s es = true) :
    ∃ r', (run s es).room = some r' ∧ (∃ p ∈ r'.players, p.id = id)
      ∧ ∀ p ∈ r'.players, p.id = id → p.lives = 0 := by
  have hph : r.phase ≠ .LOBBY := by
    intro hc
    obtain ⟨p, hp, hid⟩ := hmem
    have h3 := lobbyLives_reachable s hs r hroom hc p hp
    rw [hdead p hp hid] at h3
    cases h3
  obtain ⟨r', hr', _, _, h3, h4⟩ := eliminated_run id es s r hroom ⟨hph, himp, hmem, hdead⟩ hes
  exact ⟨r', hr', h3, h4⟩

set_option maxRecDepth 100000 in
/-- Witness of C20 (amended): after `bLosesAll` B has no lives left and C is
the impostor; the next round (the head-to-head of A and C) starts and A
presses an unsafe button; B is still at 0 lives. -/
theorem eliminated_player_stays_at_zero_witness :
    livesOf (run (initState 1 "A" "ROOM") bLosesAll) = some [(1, 3), (2, 0), (3, 3)]
    ∧ ∃ r', (run (run (initState 1 "A" "ROOM") bLosesAll)
          [.timeout 0 firstPick, .head_to_head_action 1 1 0]).room = some r'
        ∧ (∃ p ∈ r'.players, p.id = 2) ∧ ∀ p ∈ r'.players, p.id = 2 → p.lives = 0 :=
  ⟨by decide,
   eliminated_player_stays_at_zero (run (initState 1 "A" "ROOM") bLosesAll)
     ((run (initState 1 "A" "ROOM") bLosesAll).room.getD lobby3) 2
     [.timeout 0 firstPick, .head_to_head_action 1 1 0]
     (reachable_run _ _ (Reachable.create 1 "A" "ROOM"))
     (by decide) (by decide) (by decide) (by decide) (by decide)⟩

/-! ## The head-to-head buttons, the lobby reset, and what every step keeps -/

theorem h2hShuffle_ok (d : Nat) :
    (h2hShuffle d).length = 3 ∧ (h2hShuffle d).count 0 = 1 ∧ (h2hShuffle d).count 1 = 2 := by
  unfold h2hShuffle
  split <;> decide

theorem buttonsOk_startHeadToHead (room : Room) (d : Nat) :
    (startHeadToHead room d).1.phase = .HEAD_TO_HEAD ∧ ButtonsOk (startHeadToHead room d).1 :=
  ⟨rfl, h2hShuffle d, rfl, h2hShuffle_ok d⟩

theorem buttonsOk_handleHeadToHeadAction (room : Room) (i : SocketId) (b d : Nat)
    (h : ButtonsOk room) :
    (handleHeadToHeadAction room i b d).1.phase = room.phase
    ∧ ButtonsOk (handleHeadToHeadAction room i b d).1 := by
  simp only [handleHeadToHeadAction]
  repeat' split
  all_goals first
    | exact ⟨rfl, h⟩
    | exact ⟨rfl, h2hShuffle d, rfl, h2hShuffle_ok d⟩

theorem buttonsOk_duel (room : Room) (d : Nat) (actions : List (SocketId × Nat × Nat)) :
    (duel room d actions).phase = .HEAD_TO_HEAD ∧ ButtonsOk (duel room d actions) := by
  unfold duel
  induction actions using List.reverseRecOn with
  | nil => exact buttonsOk_startHeadToHead room d
  | append_singleton rest a ih =>
    rw [List.foldl_append]
    simp only [List.foldl_cons, List.foldl_nil]
    have := buttonsOk_handleHeadToHeadAction _ a.1 a.2.1 a.2.2 ih.2
    exact ⟨this.1.trans ih.1, this.2⟩

/-- C25: when the duel has ended with a winner, the GAME_OVER continuation
schedules the reset; the reset leaves the room in phase LOBBY with the same
players in the same order, each with id, name and isHost unchanged and with
lives 3, role null, isGhost false, hasBonusCard false, votesReceived 0,
timesImpostor 0 (and score 0); category, targetIndex and imposterId are null
and words, clues and votes are empty. -/
theorem resetToLobby_clears_match (room : Room) (rnd : Rand) :
    (∀ w : Player, scheduled (firePending room (.h2hGameOver (some w)) rnd).2 = [.resetToLobby])
    ∧ firePending room .resetToLobby rnd = resetToLobby room
    ∧ (resetToLobby room).1.phase = .LOBBY
    ∧ (resetToLobby room).1.players = room.players.map (fun p =>
        ({ id := p.id, name := p.name, isHost := p.isHost, lives := 3, role := none,
           isGhost := false, hasBonusCard := false, votesReceived := some 0,
           timesImpostor := some 0, score := some 0 } : Player))
    ∧ (resetToLobby room).1.category = none
    ∧ (resetToLobby room).1.targetIndex = none
    ∧ (resetToLobby room).1.imposterId = none
    ∧ (resetToLobby room).1.words = []
    ∧ (resetToLobby room).1.clues = []
    ∧ (resetToLobby room).1.votes = []
    ∧ (resetToLobby room).1.id = room.id :=
  ⟨fun _ => rfl, rfl, rfl, rfl, rfl, rfl, rfl, rfl, rfl, rfl, rfl⟩

theorem keeps_refl (r : Room) : Keeps r r := ⟨List.Perm.refl _, id, id⟩

theorem keeps_trans {r r' r'' : Room} (h1 : Keeps r r') (h2 : Keeps r' r'') : Keeps r r'' :=
  ⟨h2.1.trans h1.1, fun h => h2.2.1 (h1.2.1 h), fun h => h2.2.2 (h1.2.2 h)⟩

theorem keeps_of_names {r r' : Room}
    (h1 : r'.players.map (fun p => p.name) = r.players.map (fun p => p.name))
    (h2 : -1 ≤ r.currentTurnIndex → -1 ≤ r'.currentTurnIndex)
    (h3 : ButtonsInv r → ButtonsInv r') : Keeps r r' :=
  ⟨List.Perm.of_eq h1, h2, h3⟩

theorem keeps_handleStealLife (room : Room) (a b : Option SocketId) :
    Keeps room (handleStealLife room a b).1 := by
  simp only [handleStealLife]
  repeat' split
  all_goals first
    | exact keeps_refl _
    | exact keeps_of_names (by simp [map_modifyFirst]) id id

theorem keeps_resolveVotes (room : Room) : Keeps room (resolveVotes room).1 := by
  simp only [resolveVotes]
  repeat' split
  all_goals exact keeps_of_names rfl id (fun _ h => by simp at h)

theorem keeps_startVotingPhase (room : Room) : Keeps room (startVotingPhase room).1 := by
  simp only [startVotingPhase]
  exact keeps_of_names (by simp) id (fun _ h => by simp at h)

theorem keeps_nextTurnLoop (fuel : Nat) (room : Room) :
    Keeps room (nextTurnLoop fuel room).1 := by
  induction fuel generalizing room with
  | zero => exact keeps_refl _
  | succ n ih =>
    have hstep : Keeps room { room with currentTurnIndex := room.currentTurnIndex + 1 } :=
      keeps_of_names rfl (fun h => by simp only; omega)
        (fun h hph => ⟨(h hph).1, by have := (h hph).2; simp only; omega⟩)
    simp only [nextTurnLoop]
    repeat' split
    all_goals first
      | exact hstep
      | exact keeps_trans hstep (keeps_startVotingPhase _)
      | exact keeps_trans hstep (ih _)

theorem keeps_nextTurn (room : Room) : Keeps room (nextTurn room).1 :=
  keeps_nextTurnLoop _ room

theorem keeps_startCluePhase (room : Room) : Keeps room (startCluePhase room).1 := by
  simp only [startCluePhase]
  refine keeps_trans ?_ (keeps_nextTurn _)
  exact keeps_of_names rfl (fun _ => by simp) (fun _ h => by simp at h)

theorem keeps_handleClueSubmission (room : Room) (i : SocketId) (t : String) :
    Keeps room (handleClueSubmission room i t).1 := by
  simp only [handleClueSubmission]
  repeat' split
  all_goals exact keeps_trans (keeps_of_names rfl id id) (keeps_nextTurn _)

theorem keeps_proceedToSetup (room : Room) : Keeps room (proceedToSetup room).1 :=
  keeps_of_names rfl (fun _ => by simp [proceedToSetup])
    (fun _ h => by simp [proceedToSetup] at h)

theorem keeps_checkVotingResult (room : Room) : Keeps room (checkVotingResult room).1 := by
  simp only [checkVotingResult]
  repeat' split
  all_goals exact keeps_refl _

theorem keeps_onVotePlayer (room : Room) (i : SocketId) (t : Target) :
    Keeps room (onVotePlayer room i t).1 := by
  simp only [onVotePlayer]
  repeat' split
  all_goals first
    | exact keeps_refl _
    | exact keeps_trans (keeps_of_names rfl id id) (keeps_checkVotingResult _)

theorem keeps_onImpostorGuess (room : Room) (i : SocketId) (w : Nat) :
    Keeps room (onImpostorGuess room i w).1 := by
  simp only [onImpostorGuess]
  split
  · exact keeps_refl _
  · rename_i hphase
    have hph : room.phase = .RESOLUTION := by simpa using hphase
    repeat' split
    all_goals first
      | exact keeps_refl _
      | exact keeps_of_names rfl id (fun _ h => by simp at h)
      | exact keeps_of_names (by simp [map_modifyFirst]) id (fun _ h => by simp [hph] at h)

theorem keeps_startHeadToHead (room : Room) (d : Nat) :
    Keeps room (startHeadToHead room d).1 := by
  refine keeps_of_names ?_ (fun _ => by simp [startHeadToHead])
    (fun _ _ => ⟨(buttonsOk_startHeadToHead room d).2, by simp [startHeadToHead]⟩)
  simp only [startHeadToHead, List.map_map]
  apply List.map_congr_left
  intro p _
  simp only [Function.comp]
  repeat' split
  all_goals rfl

theorem keeps_handleHeadToHeadAction (room : Room) (i : SocketId) (b d : Nat) :
    Keeps room (handleHeadToHeadAction room i b d).1 := by
  simp only [handleHeadToHeadAction]
  repeat' split
  all_goals first
    | exact keeps_refl _
    | exact keeps_of_names (by simp [map_modifyAt]) id id
    | exact keeps_of_names (by simp [map_modifyAt]) (fun h => by simp only; omega)
        (fun h hph => ⟨⟨h2hShuffle d, rfl, h2hShuffle_ok d⟩,
          by have := (h hph).2; simp only; omega⟩)

theorem keeps_intervalTick (room : Room) : Keeps room (intervalTick room).1 := by
  simp only [intervalTick]
  split
  · exact keeps_refl _
  · split
    · exact keeps_refl _
    · split
      · split
        · refine keeps_trans ?_ (keeps_handleClueSubmission _ _ _)
          exact keeps_of_names rfl id id
        · exact keeps_of_names rfl id id
      · split
        · refine keeps_trans ?_ (keeps_resolveVotes _)
          exact keeps_of_names rfl id id
        · exact keeps_of_names rfl id id
      · split
        · refine keeps_trans ?_ (keeps_handleStealLife _ _ _)
          exact keeps_of_names rfl id id
        · exact keeps_of_names rfl id id

theorem keeps_startGame (room : Room) (d : Draws) : Keeps room (startGame room d).1 := by
  simp only [startGame]
  split
  · exact keeps_of_names rfl id id
  · split
    · exact keeps_of_names rfl id id
    · refine ⟨?_, id, fun _ h => by simp at h⟩
      refine ((shuffle_perm _ _).map _).trans (List.Perm.of_eq ?_)
      rw [List.map_map, map_modifyAt _ _ _ _ (by intro a; rfl)]
      rfl

theorem keeps_resetToLobby (room : Room) : Keeps room (resetToLobby room).1 := by
  refine keeps_of_names ?_ (fun _ => by simp [resetToLobby])
    (fun _ h => by simp [resetToLobby] at h)
  simp only [resetToLobby, List.map_map]
  rfl

theorem keeps_onDebugForceH2H (room : Room) (d : Nat) :
    Keeps room (onDebugForceH2H room d).1 := by
  simp only [onDebugForceH2H]
  split
  · refine keeps_trans ?_ (keeps_startHeadToHead _ _)
    refine keeps_of_names ?_ id id
    simp only [List.map_append, List.map_map]
    conv => rhs; rw [← List.take_append_drop 2 room.players]
    rw [List.map_append]
    rfl
  · exact keeps_refl _

theorem keeps_startNextRound (room : Room) (rnd : Rand) :
    Keeps room (startNextRound room rnd).1 := by
  simp only [startNextRound]
  split
  · exact keeps_of_names rfl id (fun _ h => by simp at h)
  · split
    · exact keeps_startHeadToHead _ _
    · exact keeps_startGame _ _

theorem keeps_firePending (room : Room) (k : Pending) (rnd : Rand) :
    Keeps room (firePending room k rnd).1 := by
  cases k with
  | countdown n =>
    simp only [firePending]
    split
    · exact keeps_refl _
    · exact keeps_proceedToSetup _
  | startCluePhase => exact keeps_startCluePhase _
  | stealTimerStart => exact keeps_of_names rfl id id
  | roundEndFailed => exact keeps_refl _
  | startNextRound => exact keeps_startNextRound _ _
  | h2hTurn n =>
    simp only [firePending]
    split <;> exact keeps_refl _
  | h2hGameOver w =>
    simp only [firePending]
    split <;> exact keeps_of_names rfl id (fun _ h => by simp at h)
  | resetToLobby => exact keeps_resetToLobby _

/-- What one step other than `join_room` and `disconnect` keeps. -/
theorem keeps_step (s : State) (e : Event) (r r' : Room) (hs : s.room = some r)
    (hr : (step s e).1.room = some r') :
    Keeps r r'
    ∨ (∃ id name, e = .join_room id name ∧ r' = (joinRoom r id name).1)
    ∨ (∃ id, e = .disconnect id ∧ (onDisconnect r id).1 = some r') := by
  cases e with
  | timeout i rnd =>
    simp only [step, hs] at hr
    split at hr
    · rw [hs] at hr; cases hr; exact Or.inl (keeps_refl _)
    · simp only [Option.some.injEq] at hr; subst hr
      exact Or.inl (keeps_firePending _ _ _)
  | join_room i n =>
    have : r' = (joinRoom r i n).1 := by simpa [step, hs, onEvent] using hr.symm
    exact Or.inr (Or.inl ⟨i, n, rfl, this⟩)
  | start_game i d =>
    have : r' = (onStartGame r i d).1 := by simpa [step, hs, onEvent] using hr.symm
    subst this
    simp only [onStartGame]
    split
    · exact Or.inl (keeps_refl _)
    · exact Or.inl (keeps_startGame _ _)
  | disconnect i =>
    have : (onDisconnect r i).1 = some r' := by simpa [step, hs, onEvent] using hr
    exact Or.inr (Or.inr ⟨i, rfl, this⟩)
  | submit_clue i c =>
    have : r' = (handleClueSubmission r i c).1 := by simpa [step, hs, onEvent] using hr.symm
    subst this
    exact Or.inl (keeps_handleClueSubmission _ _ _)
  | vote_player i t =>
    have : r' = (onVotePlayer r i t).1 := by simpa [step, hs, onEvent] using hr.symm
    subst this
    exact Or.inl (keeps_onVotePlayer _ _ _)
  | impostor_guess i w =>
    have : r' = (onImpostorGuess r i w).1 := by simpa [step, hs, onEvent] using hr.symm
    subst this
    exact Or.inl (keeps_onImpostorGuess _ _ _)
  | restart_round i d =>
    have : r' = (startGame r d).1 := by simpa [step, hs, onEvent, onRestartRound] using hr.symm
    subst this
    exact Or.inl (keeps_startGame _ _)
  | steal_life i t =>
    have : r' = (handleStealLife r (some i) t).1 := by simpa [step, hs, onEvent] using hr.symm
    subst this
    exact Or.inl (keeps_handleStealLife _ _ _)
  | head_to_head_action i b d =>
    have : r' = (handleHeadToHeadAction r i b d).1 := by
      simpa [step, hs, onEvent] using hr.symm
    subst this
    exact Or.inl (keeps_handleHeadToHeadAction _ _ _ _)
  | debug_force_h2h i d =>
    have : r' = (onDebugForceH2H r d).1 := by simpa [step, hs, onEvent] using hr.symm
    subst this
    exact Or.inl (keeps_onDebugForceH2H _ _)
  | interval_tick =>
    have : r' = (intervalTick r).1 := by simpa [step, hs, onEvent] using hr.symm
    subst this
    exact Or.inl (keeps_intervalTick _)

theorem roster_step (s : State) (e : Event) (h : ∀ r, s.room = some r → Roster r) :
    ∀ r', (step s e).1.room = some r' → Roster r' := by
  intro r' hr'
  cases hroom : s.room with
  | none => rw [step_room_none s e hroom] at hr'; cases hr'
  | some r =>
    obtain ⟨h1, h2, h3, h4⟩ := h r hroom
    rcases keeps_step s e r r' hroom hr' with hk | ⟨i, n, _, hj⟩ | ⟨i, _, hd⟩
    · obtain ⟨k1, k2, k3⟩ := hk
      refine ⟨k1.nodup_iff.2 h1, ?_, k2 h3, k3 h4⟩
      intro hc
      have hlen := k1.length_eq
      rw [hc] at hlen
      simp only [List.map_nil, List.length_nil, List.length_map] at hlen
      exact h2 (List.length_eq_zero.1 hlen.symm)
    · rw [hj]
      simp only [joinRoom]
      split
      · exact ⟨h1, h2, h3, h4⟩
      · split
        · exact ⟨h1, h2, h3, h4⟩
        · rename_i hph hname
          refine ⟨?_, by simp, h3, h4⟩
          simp only [List.map_append, List.map_singleton]
          apply List.Nodup.append h1 (List.nodup_singleton _)
          rw [List.disjoint_singleton]
          intro hc
          obtain ⟨p, hp, hpn⟩ := List.mem_map.1 hc
          apply hname
          simp only [List.any_eq_true, beq_iff_eq]
          exact ⟨p, hp, hpn⟩
    · simp only [onDisconnect] at hd
      split at hd
      · simp only [Option.some.injEq] at hd; subst hd; exact ⟨h1, h2, h3, h4⟩
      · split at hd
        · split at hd
          · cases hd
          · rename_i hne
            simp only [Option.some.injEq] at hd; subst hd
            refine ⟨h1.sublist ((List.eraseIdx_sublist _ _).map _), ?_, h3, h4⟩
            intro hc
            apply hne
            simp only at hc
            simp [hc]
        · simp only [Option.some.injEq] at hd; subst hd; exact ⟨h1, h2, h3, h4⟩

theorem roster_reachable (s : State) (h : Reachable s) : ∀ r, s.room = some r → Roster r := by
  induction h with
  | create i n c =>
    intro r hr
    simp only [initState, Option.some.injEq] at hr
    subst hr
    refine ⟨by simp [createRoom], by simp [createRoom], by simp [createRoom], ?_⟩
    intro h
    simp [createRoom] at h
  | step s e _ ih => exact roster_step s e ih

/-- C23: after `startHeadToHead` and any number of `head_to_head_action` calls,
whatever the sockets, buttons and random draws, the room is in HEAD_TO_HEAD and
`h2hButtons` has exactly three entries, one of them safe (0) and two unsafe
(1); and so has every room in HEAD_TO_HEAD that is reachable from
`create_room` by player actions and timer events. -/
theorem h2hButtons_one_of_three_safe :
    (∀ (room : Room) (d : Nat) (actions : List (SocketId × Nat × Nat)),
        (duel room d actions).phase = .HEAD_TO_HEAD ∧ ButtonsOk (duel room d actions))
    ∧ (∀ (s : State) (r : Room), Reachable s → s.room = some r →
        r.phase = .HEAD_TO_HEAD → ButtonsOk r) :=
  ⟨buttonsOk_duel, fun s r hs hr hph => ((roster_reachable s hs r hr).2.2.2 hph).1⟩

/-- Witness of C23: the head-to-head of `lobby3` after three actions of A, B, A
with buttons 0, 1, 2 and draws 0, 1, 2. -/
theorem h2hButtons_one_of_three_safe_witness :
    ButtonsOk (duel lobby3 0 [(1, 0, 0), (2, 1, 1), (1, 2, 2)]) :=
  (h2hButtons_one_of_three_safe.1 lobby3 0 [(1, 0, 0), (2, 1, 1), (1, 2, 2)]).2

/-! ## Guards of the socket handlers and of the timers -/

theorem lobbyLiving_step (s : State) (e : Event)
    (h : ∀ r, s.room = some r → r.phase = .LOBBY → ∀ p ∈ r.players, isLiving p = true) :
    ∀ r', (step s e).1.room = some r' → r'.phase = .LOBBY →
      ∀ p ∈ r'.players, isLiving p = true := by
  intro r' hr' hph'
  cases hroom : s.room with
  | none => rw [step_room_none s e hroom] at hr'; cases hr'
  | some r =>
    have hr := h r hroom
    rcases step_shape s e r r' hroom hr' with h1 | ⟨d, hl, h1⟩ | ⟨_, h1⟩ | ⟨i, n, _, h1⟩ |
      ⟨i, _, h1⟩ | ⟨i, d, _, h1⟩
    · obtain ⟨h2, h3⟩ := h1.2.1 hph'
      rw [h3]; exact hr h2
    · obtain ⟨_, _, _, _, _, _, hph, _⟩ := startGame_players r d hl
      rw [h1, hph] at hph'; cases hph'
    · intro p hp
      rw [h1] at hp
      simp only [resetToLobby, List.mem_map] at hp
      obtain ⟨q, _, rfl⟩ := hp
      rfl
    · rcases joinRoom_shape r i n with h2 | ⟨h2, _, _, q, hq, _, hl, _, hg, _⟩
      · rw [h1, h2] at hph' ⊢; exact hr hph'
      · intro p hp
        rw [h1, hq, List.mem_append, List.mem_singleton] at hp
        rcases hp with hp | rfl
        · exact hr h2 p hp
        · simp [isLiving, hl, hg]
    · rcases onDisconnect_shape r r' i h1 with h2 | ⟨h2, _, _, k, hk⟩
      · rw [h2] at hph' ⊢; exact hr hph'
      · intro p hp
        rw [hk] at hp
        exact hr h2 p (List.mem_of_mem_eraseIdx hp)
    · rw [h1] at hph' ⊢
      simp only [onDebugForceH2H] at hph' ⊢
      split at hph'
      · simp [startHeadToHead] at hph'
      · rename_i hlen
        simp only [hlen, if_false]
        exact hr hph'

theorem lobbyLiving_reachable (s : State) (h : Reachable s) :
    ∀ r, s.room = some r → r.phase = .LOBBY → ∀ p ∈ r.players, isLiving p = true := by
  induction h with
  | create i n c =>
    intro r hr _
    simp only [initState, Option.some.injEq] at hr
    subst hr
    intro p hp
    simp only [createRoom, List.mem_singleton] at hp
    subst hp
    rfl
  | step s e _ ih => exact lobbyLiving_step s e ih

/-- C21: in a state reachable from `create_room`, `join_room` reports `Room not
found` and changes nothing when the room does not exist; when the room exists,
is in LOBBY and no player has the name, it appends the player `joined` (lives 3,
not ghost, no bonus card, timesImpostor 0, not host) and changes nothing else;
in every other case it leaves the state unchanged and emits one error to the
socket.  The names of the players are pairwise distinct before and after. -/
theorem join_room_contract (s : State) (socketId : SocketId) (playerName : String)
    (hs : Reachable s) :
    (s.room = none →
        step s (.join_room socketId playerName)
          = (s, [ .emit (.socket socketId) (.error "Room not found") ]))
    ∧ (∀ r, s.room = some r →
        (r.phase = .LOBBY ∧ (∀ p ∈ r.players, p.name ≠ playerName) →
          (step s (.join_room socketId playerName)).1
            = { room := some { r with players := r.players ++ [joined socketId playerName] },
                pending := s.pending })
        ∧ (¬ (r.phase = .LOBBY ∧ ∀ p ∈ r.players, p.name ≠ playerName) →
          (step s (.join_room socketId playerName)).1 = s
          ∧ ∃ msg, (step s (.join_room socketId playerName)).2
              = [ .emit (.socket socketId) (.error msg) ])
        ∧ (r.players.map (fun p => p.name)).Nodup
        ∧ ∀ r', (step s (.join_room socketId playerName)).1.room = some r' →
            (r'.players.map (fun p => p.name)).Nodup) := by
  constructor
  · intro hnone
    obtain ⟨room, pending⟩ := s
    simp only at hnone
    subst hnone
    rfl
  · intro r hr
    obtain ⟨hnd, hne, _, _⟩ := roster_reachable s hs r hr
    refine ⟨?_, ?_, hnd, ?_⟩
    · rintro ⟨hph, hname⟩
      have hany : r.players.any (fun p => p.name == playerName) = false := by
        rw [List.any_eq_false]
        intro p hp
        simpa using hname p hp
      have hlen : (r.players.length == 0) = false := by
        cases hpl : r.players with
        | nil => exact absurd hpl hne
        | cons a rest => rfl
      simp [step, hr, onEvent, joinRoom, hph, hany, hlen, scheduled, joined, MAX_LIVES]
    · intro hnot
      obtain ⟨room, pending⟩ := s
      simp only at hr
      subst hr
      by_cases hph : r.phase = .LOBBY
      · have hany : r.players.any (fun p => p.name == playerName) = true := by
          by_contra hc
          apply hnot
          refine ⟨hph, fun p hp hn => hc ?_⟩
          simp only [List.any_eq_true, beq_iff_eq]
          exact ⟨p, hp, hn⟩
        simp [step, onEvent, joinRoom, hph, hany, scheduled]
      · simp [step, onEvent, joinRoom, hph, scheduled]
    · intro r' hr'
      exact (roster_reachable _ (Reachable.step s _ hs) r' hr').1

/-- Witness of C21: B joins the room A has created; a second A is refused. -/
theorem join_room_contract_witness :
    (step (initState 1 "A" "ROOM") (.join_room 2 "B")).1
      = { room := some { createRoom 1 "A" "ROOM" with
                    players := (createRoom 1 "A" "ROOM").players ++ [joined 2 "B"] },
          pending := [] }
    ∧ (step (initState 1 "A" "ROOM") (.join_room 2 "A")).1 = initState 1 "A" "ROOM" :=
  ⟨((join_room_contract (initState 1 "A" "ROOM") 2 "B" (Reachable.create 1 "A" "ROOM")).2
      (createRoom 1 "A" "ROOM") rfl).1 (by decide),
   (((join_room_contract (initState 1 "A" "ROOM") 2 "A" (Reachable.create 1 "A" "ROOM")).2
      (createRoom 1 "A" "ROOM") rfl).2.1 (by decide)).1⟩

set_option maxRecDepth 100000 in
/-- C22, counterexample: after the three rounds of `bLosesAll` the room has
three players of whom two are living; `start_game` passes its guard
(`room.players.length < 3` is false) and starts a round. -/
theorem start_game_with_two_living :
    Reachable (run (initState 1 "A" "ROOM") bLosesAll)
    ∧ (run (initState 1 "A" "ROOM") bLosesAll).room.map (fun r => (livingPlayers r).length)
        = some 2
    ∧ phaseOf (run (initState 1 "A" "ROOM") bLosesAll) = some .STEAL_LIFE
    ∧ phaseOf (step (run (initState 1 "A" "ROOM") bLosesAll)
        (.start_game 1 (drawsWithPick 0))).1 = some .COUNTDOWN :=
  ⟨reachable_run _ _ (Reachable.create 1 "A" "ROOM"), by decide, by decide, by decide⟩

/-- C22, amended: `start_game` is rejected, with the error `Need at least 3
players` and the room unchanged, when the room has fewer than 3 players
(living or not); with 3 or more players of whom one is living it runs
`startGame` and the phase becomes COUNTDOWN.  In a reachable room in LOBBY
every player is living, so there the guard counts the living players. -/
theorem start_game_counts_players :
    (∀ (room : Room) (socketId : SocketId) (d : Draws), room.players.length < 3 →
        onStartGame room socketId d
          = (room, [ .emit (.socket socketId) (.error "Need at least 3 players") ]))
    ∧ (∀ (room : Room) (socketId : SocketId) (d : Draws), 3 ≤ room.players.length →
        0 < (livingPlayers room).length →
        onStartGame room socketId d = startGame room d
        ∧ (onStartGame room socketId d).1.phase = .COUNTDOWN)
    ∧ (∀ (s : State) (r : Room), Reachable s → s.room = some r → r.phase = .LOBBY →
        livingPlayers r = r.players) := by
  refine ⟨?_, ?_, ?_⟩
  · intro room socketId d h
    simp [onStartGame, h]
  · intro room socketId d h hl
    have h' : ¬ room.players.length < 3 := by omega
    obtain ⟨_, _, _, _, _, hph, _⟩ := startGame_of_candidates room d hl
    have he : onStartGame room socketId d = startGame room d := by
      simp only [onStartGame, h', if_false]
    exact ⟨he, by rw [he]; exact hph⟩
  · intro s r hs hr hph
    exact List.filter_eq_self.2 (lobbyLiving_reachable s hs r hr hph)

/-- Witness of C22 (amended): `start_game` on the three-player lobby and on the
room with the host alone. -/
theorem start_game_counts_players_witness :
    (onStartGame lobby3 1 (drawsWithPick 0)).1.phase = .COUNTDOWN
    ∧ onStartGame (createRoom 1 "A" "ROOM") 1 (drawsWithPick 0)
        = (createRoom 1 "A" "ROOM",
           [ .emit (.socket 1) (.error "Need at least 3 players") ]) :=
  ⟨(start_game_counts_players.2.1 lobby3 1 (drawsWithPick 0) (by decide) (by decide)).2,
   start_game_counts_players.1 (createRoom 1 "A" "ROOM") 1 (drawsWithPick 0) (by decide)⟩

set_option maxRecDepth 100000 in
/-- C26, the code at the failing inputs.  In CLUE, on the turn of A (index 0),
a `submit_clue` of B is logged as a clue of B and the turn moves on to index
1.  In VOTE, with one vote cast, a `submit_clue` of C is logged, the turn
index goes from 3 to 4 and the voting phase starts again with the votes
emptied. -/
theorem submit_clue_unchecked :
    phaseOf (run (initState 1 "A" "ROOM") toClue) = some .CLUE
    ∧ cluesOf (run (initState 1 "A" "ROOM") toClue) = some []
    ∧ turnOf (run (initState 1 "A" "ROOM") toClue) = some (0, [], 20)
    ∧ cluesOf (run (initState 1 "A" "ROOM") (toClue ++ [.submit_clue 2 "x"]))
        = some [(2, "x")]
    ∧ turnOf (run (initState 1 "A" "ROOM") (toClue ++ [.submit_clue 2 "x"]))
        = some (1, [], 20)
    ∧ phaseOf (run (initState 1 "A" "ROOM") toVote) = some .VOTE
    ∧ cluesOf (run (initState 1 "A" "ROOM") toVote) = some [(1, "a"), (2, "b"), (3, "c")]
    ∧ turnOf (run (initState 1 "A" "ROOM") toVote) = some (3, [(1, .player 2)], 30)
    ∧ cluesOf (run (initState 1 "A" "ROOM") (toVote ++ [.submit_clue 3 "late"]))
        = some [(1, "a"), (2, "b"), (3, "c"), (3, "late")]
    ∧ turnOf (run (initState 1 "A" "ROOM") (toVote ++ [.submit_clue 3 "late"]))
        = some (4, [], 30) :=
  ⟨by decide, by decide, by decide, by decide, by decide, by decide, by decide, by decide,
   by decide, by decide⟩

set_option maxRecDepth 100000 in
/-- C27, counterexample: round 1 ends with the steal, which schedules
`startNextRound` in STEAL_LIFE; `start_game` then starts a round (COUNTDOWN, B
the impostor); the scheduled `startNextRound` fires in COUNTDOWN and draws
again: C is the impostor now. -/
theorem stale_startNextRound_draws_again :
    Reachable (run (initState 1 "A" "ROOM") (roundOneSteal ++ [.start_game 1 (drawsWithPick 0)]))
    ∧ phaseOf (run (initState 1 "A" "ROOM") roundOneSteal) = some .STEAL_LIFE
    ∧ (run (initState 1 "A" "ROOM") roundOneSteal).pending = [.startNextRound]
    ∧ phaseOf (run (initState 1 "A" "ROOM")
        (roundOneSteal ++ [.start_game 1 (drawsWithPick 0)])) = some .COUNTDOWN
    ∧ (run (initState 1 "A" "ROOM")
        (roundOneSteal ++ [.start_game 1 (drawsWithPick 0)])).room.map (fun r => r.imposterId)
        = some (some 2)
    ∧ (run (initState 1 "A" "ROOM")
        (roundOneSteal ++ [.start_game 1 (drawsWithPick 0), .timeout 0 firstPick])).room.map
          (fun r => r.imposterId) = some (some 3) :=
  ⟨reachable_run _ _ (Reachable.create 1 "A" "ROOM"), by decide, by decide, by decide,
   by decide, by decide⟩

theorem startGame_ignores_phase (room : Room) (d : Draws) (ph : Phase)
    (hliving : 0 < (livingPlayers room).length) :
    startGame { room with phase := ph } d = startGame room d := by
  have hne := living_enum_ne_nil room.players hliving
  have hlen : ¬ (room.players.enum.filter (fun ip => isLiving ip.2)).length < 1 := by
    have := List.length_pos.2 hne
    omega
  have hcn := candidatesOf_ne_nil room hliving
  have hc : (if (List.filter (fun ip => timesOf ip.2 ==
        minTimes (room.players.enum.filter (fun ip => isLiving ip.2)))
        (room.players.enum.filter (fun ip => isLiving ip.2))).length = 0
      then room.players.enum.filter (fun ip => isLiving ip.2)
      else List.filter (fun ip => timesOf ip.2 ==
        minTimes (room.players.enum.filter (fun ip => isLiving ip.2)))
        (room.players.enum.filter (fun ip => isLiving ip.2))) = candidatesOf room := by
    rw [if_neg]
    · rfl
    · intro h
      exact hcn (List.length_eq_zero.1 h)
  obtain ⟨sel, hsel⟩ := selectImposter_isSome room.lastImposterId d _ hcn
  rw [← hc] at hsel
  simp only [startGame, hlen, if_false, hsel]

/-- C27, amended: `startNextRound` does not read the phase of the room: its
result (room and messages) is the same whatever the phase is when it fires,
and it always sets a phase, GAME_OVER with fewer than two living players,
HEAD_TO_HEAD with two, COUNTDOWN with three or more. -/
theorem startNextRound_ignores_phase (room : Room) (rnd : Rand) (ph : Phase) :
    startNextRound { room with phase := ph } rnd = startNextRound room rnd
    ∧ ((startNextRound room rnd).1.phase = .GAME_OVER
        ∨ (startNextRound room rnd).1.phase = .HEAD_TO_HEAD
        ∨ (startNextRound room rnd).1.phase = .COUNTDOWN) := by
  have hl : livingPlayers { room with phase := ph } = livingPlayers room := rfl
  constructor
  · simp only [startNextRound, hl]
    split
    · rfl
    · split
      · rfl
      · rename_i h2 h3
        exact startGame_ignores_phase room rnd.game ph (by omega)
  · simp only [startNextRound]
    split
    · exact Or.inl rfl
    · split
      · exact Or.inr (Or.inl rfl)
      · rename_i h2 h3
        obtain ⟨_, _, _, _, _, hph, _⟩ :=
          startGame_of_candidates room rnd.game (by omega)
        exact Or.inr (Or.inr hph)

set_option maxRecDepth 100000 in
/-- C29, the code at the failing inputs.  In STEAL_LIFE with the 10-second timer
running, a `steal_life` of the impostor B with an unknown target (99), or
with B's own id, stops the timer; twelve ticks later nothing else has
happened, whereas ten ticks without that action end the round.  With C at 0
lives, a `steal_life` of B with target C is carried out: B gets the bonus
card and the round ends. -/
theorem invalid_steal_stops_timer :
    (stealTimed 3).timerInterval = some { kind := .steal, active := true }
    ∧ (handleStealLife (stealTimed 3) (some 2) (some 99)).1
        = { stealTimed 3 with timerInterval := some { kind := .steal, active := false } }
    ∧ (handleStealLife (stealTimed 3) (some 2) (some 2)).1
        = { stealTimed 3 with timerInterval := some { kind := .steal, active := false } }
    ∧ run { room := some (stealTimed 3), pending := [] }
        ([.steal_life 2 (some 99)] ++ List.replicate 12 .interval_tick)
        = { room := some { stealTimed 3 with
                      timerInterval := some { kind := .steal, active := false } },
            pending := [] }
    ∧ (run { room := some (stealTimed 3), pending := [] }
        (List.replicate 10 .interval_tick)).pending = [.startNextRound]
    ∧ livesOf (run { room := some (stealTimed 0), pending := [] } [.steal_life 2 (some 3)])
        = some [(1, 3), (2, 3), (3, 0), (4, 3)]
    ∧ (run { room := some (stealTimed 0), pending := [] } [.steal_life 2 (some 3)]).pending
        = [.startNextRound]
    ∧ (run { room := some (stealTimed 0), pending := [] } [.steal_life 2 (some 3)]).room.map
        (fun r => r.players.map (fun p => p.hasBonusCard)) = some [false, true, false, false] :=
  ⟨by decide, by decide, by decide, by decide, by decide, by decide, by decide, by decide⟩

theorem majority_unique (room : Room)
    (hvotes : room.votes.length ≤ (livingPlayers room).length) (c c' : SocketId)
    (h : (livingPlayers room).length < 2 * votesFor room c)
    (h' : (livingPlayers room).length < 2 * votesFor room c') : c = c' := by
  by_contra hne
  have h1 := votesFor_add_le room.votes c c' hne
  have h2 : room.votes.countP (fun v => v.2 != Target.SKIP) ≤ room.votes.length :=
    List.countP_le_length _
  unfold votesFor at h h'
  omega

theorem nonSkipVotes_le (room : Room)
    (hvotes : room.votes.length ≤ (livingPlayers room).length) :
    nonSkipVotes room ≤ (livingPlayers room).length :=
  le_trans (List.countP_le_length _) hvotes

theorem electedId_perm (room : Room) (votes' : List (SocketId × Target))
    (hvotes : room.votes.length ≤ (livingPlayers room).length)
    (hperm : votes'.Perm room.votes) :
    electedId { room with votes := votes' } = electedId room := by
  have hv : ∀ c, votesFor { room with votes := votes' } c = votesFor room c :=
    fun c => hperm.countP_eq _
  have hl : livingPlayers { room with votes := votes' } = livingPlayers room := rfl
  have hvotes' : nonSkipVotes { room with votes := votes' }
      ≤ (livingPlayers { room with votes := votes' }).length := by
    apply nonSkipVotes_le
    rw [hl]
    simpa [hperm.length_eq] using hvotes
  cases he : electedId room with
  | some c =>
    have := electedId_majority room c he
    apply electedId_of_majority _ c hvotes'
    rw [hl, hv]; exact this
  | none =>
    cases he' : electedId { room with votes := votes' } with
    | none => rfl
    | some c' =>
      have := electedId_majority _ c' he'
      rw [hl, hv] at this
      obtain ⟨e, hee, _⟩ := electedId_isSome_of_majority room c' this
      rw [he] at hee; cases hee

/-- C30: in a room whose vote map has at most as many entries as there are
living players, at most one candidate has a strict majority; in whatever
order the tally is iterated the first entry with a majority is the candidate
`resolveVotes` elects; and for any other order of the vote map the elected
candidate, the phase and the stealReason after `resolveVotes` are the same. -/
theorem election_independent_of_order (room : Room)
    (hvotes : room.votes.length ≤ (livingPlayers room).length) :
    (∀ c c' : SocketId, (livingPlayers room).length < 2 * votesFor room c →
        (livingPlayers room).length < 2 * votesFor room c' → c = c')
    ∧ (∀ t' : List (SocketId × Nat), t'.Perm (tally room.votes) →
        (t'.find? (fun e => decide ((livingPlayers room).length < 2 * e.2))).map (fun e => e.1)
          = electedId room)
    ∧ (∀ votes' : List (SocketId × Target), votes'.Perm room.votes →
        electedId { room with votes := votes' } = electedId room
        ∧ (resolveVotes { room with votes := votes' }).1.phase = (resolveVotes room).1.phase
        ∧ (resolveVotes { room with votes := votes' }).1.stealReason
            = (resolveVotes room).1.stealReason) := by
  refine ⟨majority_unique room hvotes, ?_, ?_⟩
  · intro t' hperm
    have hentry : ∀ e ∈ t', (livingPlayers room).length < 2 * e.2 →
        (livingPlayers room).length < 2 * votesFor room e.1 := by
      intro e he hmaj
      have hm := hperm.mem_iff.1 he
      obtain ⟨k, n⟩ := e
      have := countOf_of_mem _ _ _ (tally_nodup room.votes) hm
      rw [countOf_tally] at this
      unfold votesFor
      simp only at hmaj ⊢
      omega
    cases hf : t'.find? (fun e => decide ((livingPlayers room).length < 2 * e.2)) with
    | some e =>
      have hp := List.find?_some hf
      simp only [decide_eq_true_eq] at hp
      have hmaj := hentry e (List.mem_of_find?_eq_some hf) hp
      simp only [Option.map_some']
      exact (electedId_of_majority room e.1 (nonSkipVotes_le room hvotes) hmaj).symm
    | none =>
      simp only [Option.map_none']
      cases he : electedId room with
      | none => rfl
      | some c =>
        exfalso
        unfold electedId at he
        rw [Option.map_eq_some'] at he
        obtain ⟨e, hfe, _⟩ := he
        have hp := List.find?_some hfe
        have hm := hperm.mem_iff.2 (List.mem_of_find?_eq_some hfe)
        rw [List.find?_eq_none] at hf
        exact hf e hm hp
  · intro votes' hperm
    have he := electedId_perm room votes' hvotes hperm
    refine ⟨he, ?_, ?_⟩
    · simp only [resolveVotes, he]
      split <;> rfl
    · simp only [resolveVotes, he]
      split <;> rfl

/-- Witness of C30: the votes {A->B, B->B, C->B, D->SKIP} and the same votes in
reverse order elect B. -/
theorem election_independent_of_order_witness :
    electedId { room4 votesThreeForB with votes := votesThreeForB.reverse }
      = electedId (room4 votesThreeForB)
    ∧ electedId (room4 votesThreeForB) = some 2 :=
  ⟨((election_independent_of_order (room4 votesThreeForB) (by decide)).2.2
      votesThreeForB.reverse (List.reverse_perm _)).1, by decide⟩

/-! ## Turn order of the clue phase -/

theorem nextTurnLoop_found (fuel : Nat) (room : Room) (m j : Nat) (p : Player)
    (hidx : room.currentTurnIndex = (m : Int) - 1) (hj : m ≤ j)
    (hp : room.players[j]? = some p) (hl : isLiving p = true)
    (hskip : ∀ k, m ≤ k → k < j → ∀ q, room.players[k]? = some q → isLiving q = false)
    (hfuel : j < m + fuel) :
    (nextTurnLoop fuel room).1
      = { room with currentTurnIndex := j, timer := 20,
                    timerInterval := some { kind := .clue p.id, active := true } } := by
  induction fuel generalizing room m with
  | zero => omega
  | succ n ih =>
    have hjn : j < room.players.length := by
      rcases Nat.lt_or_ge j room.players.length with h | h
      · exact h
      · rw [List.getElem?_eq_none h] at hp; cases hp
    have h1 : room.currentTurnIndex + 1 = (m : Int) := by omega
    have hge : ¬ ((m : Int) ≥ (room.players.length : Int)) := by omega
    have hneg : ¬ ((m : Int) < 0) := by omega
    simp only [nextTurnLoop, h1, hge, hneg, if_false, Int.toNat_ofNat]
    rcases Nat.eq_or_lt_of_le hj with hmj | hmj
    · subst hmj
      have hl' : (decide (p.lives ≤ 0) || p.isGhost) = false := by
        simp only [isLiving, Bool.and_eq_true, Bool.not_eq_true', decide_eq_true_eq] at hl
        simp [hl.1]
        omega
      simp only [hp, hl', CLUE_TIME_LIMIT]
      rfl
    · have hmn : m < room.players.length := by omega
      obtain ⟨q, hq⟩ : ∃ q, room.players[m]? = some q :=
        ⟨room.players[m], List.getElem?_eq_getElem hmn⟩
      have hql := hskip m (le_refl _) hmj q hq
      have hq' : (decide (q.lives ≤ 0) || q.isGhost) = true := by
        simp only [isLiving, Bool.and_eq_false_iff, Bool.not_eq_false', decide_eq_false_iff_not]
          at hql
        rcases hql with h | h
        · simp [h]
        · simp only [Bool.or_eq_true, decide_eq_true_eq]
          left; omega
      simp only [hq, hq', if_true]
      rw [ih { room with currentTurnIndex := (m : Int) } (m + 1) (by simp) hmj hp
        (fun k hk hkj q hq => hskip k (by omega) hkj q hq) (by omega)]

theorem nextTurnLoop_exhausted (fuel : Nat) (room : Room) (m : Nat)
    (hidx : room.currentTurnIndex = (m : Int) - 1)
    (hskip : ∀ k, m ≤ k → ∀ q, room.players[k]? = some q → isLiving q = false)
    (hfuel : room.players.length < m + fuel) (hpos : 0 < fuel) :
    nextTurnLoop fuel room
      = startVotingPhase
          { room with currentTurnIndex := max (m : Int) (room.players.length : Int) } := by
  induction fuel generalizing room m with
  | zero => omega
  | succ n ih =>
    have h1 : room.currentTurnIndex + 1 = (m : Int) := by omega
    simp only [nextTurnLoop, h1]
    by_cases hge : (m : Int) ≥ (room.players.length : Int)
    · simp only [hge, if_true]
      have : max (m : Int) (room.players.length : Int) = m := by omega
      rw [this]
    · have hneg : ¬ ((m : Int) < 0) := by omega
      have hmn : m < room.players.length := by omega
      obtain ⟨q, hq⟩ : ∃ q, room.players[m]? = some q :=
        ⟨room.players[m], List.getElem?_eq_getElem hmn⟩
      have hql := hskip m (le_refl _) q hq
      have hq' : (decide (q.lives ≤ 0) || q.isGhost) = true := by
        simp only [isLiving, Bool.and_eq_false_iff, Bool.not_eq_false', decide_eq_false_iff_not]
          at hql
        rcases hql with h | h
        · simp [h]
        · simp only [Bool.or_eq_true, decide_eq_true_eq]
          left; omega
      simp only [hge, hneg, if_false, Int.toNat_ofNat, hq, hq', if_true]
      rw [ih { room with currentTurnIndex := (m : Int) } (m + 1) (by simp)
        (fun k hk q hq => hskip k (by omega) q hq) (by simp only; omega) (by omega)]
      have e1 : max ((m + 1 : Nat) : Int) (room.players.length : Int) = room.players.length := by
        omega
      have e2 : max (m : Int) (room.players.length : Int) = room.players.length := by omega
      simp only [e1, e2]

theorem nextTurn_spec (room : Room) (hidx : -1 ≤ room.currentTurnIndex) :
    (∀ (j : Nat) (p : Player), room.currentTurnIndex < j → room.players[j]? = some p →
        isLiving p = true →
        (∀ (k : Nat) (q : Player), room.currentTurnIndex < k → k < j →
          room.players[k]? = some q → isLiving q = false) →
        (nextTurn room).1
          = { room with currentTurnIndex := j, timer := 20,
                        timerInterval := some { kind := .clue p.id, active := true } })
    ∧ ((∀ (k : Nat) (q : Player), room.currentTurnIndex < k →
          room.players[k]? = some q → isLiving q = false) →
        (nextTurn room).1
          = { room with
              currentTurnIndex := max (room.currentTurnIndex + 1) room.players.length,
              phase := .VOTE, votes := [], timer := 30,
              players := room.players.map (fun (p : Player) => { p with votesReceived := some 0 }),
              timerInterval := some { kind := .vote, active := true } })
    ∧ ((∃ (j : Nat) (p : Player), room.currentTurnIndex < j ∧ room.players[j]? = some p
          ∧ isLiving p = true
          ∧ ∀ (k : Nat) (q : Player), room.currentTurnIndex < k → k < j →
              room.players[k]? = some q → isLiving q = false)
        ∨ (∀ (k : Nat) (q : Player), room.currentTurnIndex < k →
            room.players[k]? = some q → isLiving q = false)) := by
  obtain ⟨m, hm⟩ : ∃ m : Nat, room.currentTurnIndex = (m : Int) - 1 :=
    ⟨(room.currentTurnIndex + 1).toNat, by omega⟩
  refine ⟨?_, ?_, ?_⟩
  · intro j p hj hp hl hskip
    have hjn : j < room.players.length := by
      rcases Nat.lt_or_ge j room.players.length with h | h
      · exact h
      · rw [List.getElem?_eq_none h] at hp; cases hp
    exact nextTurnLoop_found _ room m j p hm (by omega) hp hl
      (fun k hk hkj q hq => hskip k q (by omega) hkj hq) (by omega)
  · intro hskip
    have := nextTurnLoop_exhausted (room.players.length + 1) room m hm
      (fun k hk q hq => hskip k q (by omega) hq) (by omega) (by omega)
    unfold nextTurn
    rw [this]
    have e : room.currentTurnIndex + 1 = (m : Int) := by omega
    simp only [startVotingPhase, e]
  · by_cases h : ∃ j : Nat, room.currentTurnIndex < j ∧
        ∃ p, room.players[j]? = some p ∧ isLiving p = true
    · left
      obtain ⟨hj, p, hp, hl⟩ := Nat.find_spec h
      refine ⟨Nat.find h, p, hj, hp, hl, ?_⟩
      intro k q hk hkj hq
      have := Nat.find_min h hkj
      by_contra hc
      exact this ⟨hk, q, hq, by simpa using hc⟩
    · right
      intro k q hk hq
      by_contra hc
      exact h ⟨k, hk, q, hq, by simpa using hc⟩

/-- C28: on a room whose turn index is at least -1, `nextTurn` (which calls
itself once for each player it skips) comes to an end with the room it is
meant to give: if `j` is the smallest index greater than `currentTurnIndex`
whose player is living, the turn index becomes `j`, the timer 20 and the clue
timer of that player is started, the phase and everything else staying as they
are; if no index greater than `currentTurnIndex` has a living player, the phase
becomes VOTE, the votes are emptied, the timer is 30 and the vote timer is
started.  One of the two cases always applies.  Every room reachable from
`create_room` has a turn index of at least -1. -/
theorem nextTurn_moves_to_next_living :
    (∀ room : Room, -1 ≤ room.currentTurnIndex →
      (∀ (j : Nat) (p : Player), room.currentTurnIndex < j → room.players[j]? = some p →
          isLiving p = true →
          (∀ (k : Nat) (q : Player), room.currentTurnIndex < k → k < j →
            room.players[k]? = some q → isLiving q = false) →
          (nextTurn room).1
            = { room with currentTurnIndex := j, timer := 20,
                          timerInterval := some { kind := .clue p.id, active := true } })
      ∧ ((∀ (k : Nat) (q : Player), room.currentTurnIndex < k →
            room.players[k]? = some q → isLiving q = false) →
          (nextTurn room).1
            = { room with
                currentTurnIndex := max (room.currentTurnIndex + 1) room.players.length,
                phase := .VOTE, votes := [], timer := 30,
                players :=
                  room.players.map (fun (p : Player) => { p with votesReceived := some 0 }),
                timerInterval := some { kind := .vote, active := true } })
      ∧ ((∃ (j : Nat) (p : Player), room.currentTurnIndex < j ∧ room.players[j]? = some p
            ∧ isLiving p = true
            ∧ ∀ (k : Nat) (q : Player), room.currentTurnIndex < k → k < j →
                room.players[k]? = some q → isLiving q = false)
          ∨ (∀ (k : Nat) (q : Player), room.currentTurnIndex < k →
              room.players[k]? = some q → isLiving q = false)))
    ∧ (∀ (s : State) (room : Room), Reachable s → s.room = some room →
        -1 ≤ room.currentTurnIndex) :=
  ⟨nextTurn_spec, fun s room hs hr => (roster_reachable s hs room hr).2.2.1⟩

/-- Witness of C28: in `clueRoom` the turn passes from A (index 0) over B, who
has no lives, to C (index 2). -/
theorem nextTurn_moves_to_next_living_witness :
    (nextTurn clueRoom).1
      = { clueRoom with currentTurnIndex := 2, timer := 20,
                        timerInterval := some { kind := .clue 3, active := true } } :=
  (nextTurn_moves_to_next_living.1 clueRoom (by decide)).1 2
    (mkPlayer 3 "C" (some .INNOCENT) 3) (by decide) rfl rfl (by
      intro k q hk hkj hq
      have hk' : (0 : Int) < (k : Int) := hk
      have hk1 : k = 1 := by omega
      subst hk1
      cases hq
      rfl)

/-! ## Turn order of the head-to-head -/

theorem duelistAt_pair {α : Type} (x y : α) (i : Int) (h : 0 ≤ i) :
    duelistAt [x, y] i = some (if i % 2 = 0 then x else y) := by
  unfold duelistAt
  rw [Int.tmod_eq_emod h (by decide)]
  have h1 : ¬ (i % 2 < 0) := by omega
  simp only [h1, if_false]
  by_cases h0 : i % 2 = 0
  · simp [h0]
  · have h2 : i % 2 = 1 := by omega
    simp [h2]

theorem filter_enumFrom_modifyAt (l : List Player) (i n : Nat) (f : Player → Player)
    (h : ∀ p, l[i]? = some p → isLiving (f p) = isLiving p) :
    ((modifyAt i f l).enumFrom n).filter (fun ip => isLiving ip.2)
      = ((l.enumFrom n).filter (fun ip => isLiving ip.2)).map
          (fun ip => if ip.1 = n + i then (ip.1, f ip.2) else ip) := by
  induction l generalizing i n with
  | nil => simp [modifyAt]
  | cons a rest ih =>
    cases i with
    | zero =>
      have ha := h a (by simp)
      have hrest : ((rest.enumFrom (n + 1)).filter (fun ip => isLiving ip.2)).map
          (fun ip => if ip.1 = n then (ip.1, f ip.2) else ip)
          = (rest.enumFrom (n + 1)).filter (fun ip => isLiving ip.2) := by
        conv => rhs; rw [← List.map_id ((rest.enumFrom (n + 1)).filter (fun ip => isLiving ip.2))]
        apply List.map_congr_left
        intro ip hip
        have := List.le_fst_of_mem_enumFrom (List.mem_filter.1 hip).1
        have hne : ¬ ip.1 = n := by omega
        simp [hne]
      simp only [modifyAt, List.enumFrom_cons, List.filter_cons, ha, Nat.add_zero]
      by_cases hl : isLiving a = true
      · simp only [hl, if_true, List.map_cons, hrest]
      · simp only [hl]
        exact hrest.symm
    | succ k =>
      have hk := ih k (n + 1) (fun p hp => h p (by simpa using hp))
      simp only [modifyAt, List.enumFrom_cons, List.filter_cons]
      by_cases hl : isLiving a = true
      · simp only [hl, if_true, List.map_cons, hk]
        have hne : ¬ n = n + (k + 1) := by omega
        simp only [hne, if_false]
        congr 1
        apply List.map_congr_left
        intro ip _
        have e : n + 1 + k = n + (k + 1) := by omega
        rw [e]
      · simp only [hl, hk]
        apply List.map_congr_left
        intro ip _
        have e : n + 1 + k = n + (k + 1) := by omega
        rw [e]

theorem h2h_not_current (room : Room) (pid : SocketId) (b d : Nat)
    (h : ∀ cur, currentDuelist room = some cur → cur.2.id ≠ pid) :
    handleHeadToHeadAction room pid b d = (room, []) := by
  simp only [handleHeadToHeadAction]
  split
  · rfl
  · split
    · rfl
    · rename_i cur hcur
      have := h cur hcur
      simp [this]

theorem h2h_accepted (room : Room) (cur : Nat × Player) (buttons : List Nat) (b d : Nat)
    (hphase : room.phase = .HEAD_TO_HEAD) (hcur : currentDuelist room = some cur)
    (hbuttons : room.h2hButtons = some buttons) (hb : b ≤ 2) :
    (handleHeadToHeadAction room cur.2.id b d).1.players
        = (if buttons[b]? = some 0 then room.players
           else modifyAt cur.1 (fun (p : Player) => { p with lives := p.lives - 1 })
             room.players)
    ∧ (handleHeadToHeadAction room cur.2.id b d).1.phase = .HEAD_TO_HEAD
    ∧ (handleHeadToHeadAction room cur.2.id b d).2 ≠ []
    ∧ ((buttons[b]? = some 0 ∨ 1 < cur.2.lives) →
        (handleHeadToHeadAction room cur.2.id b d).1.currentTurnIndex
          = room.currentTurnIndex + 1
        ∧ (handleHeadToHeadAction room cur.2.id b d).1.h2hButtons = some (h2hShuffle d)) := by
  have hcur' : duelistAt (room.players.enum.filter (fun ip => isLiving ip.2))
      room.currentTurnIndex = some cur := hcur
  have hmem : cur ∈ room.players.enum.filter (fun ip => isLiving ip.2) := by
    simp only [duelistAt] at hcur'
    split at hcur'
    · cases hcur'
    · exact List.getElem?_mem hcur'
  have hliv : 0 < cur.2.lives := by
    have := (List.mem_filter.1 hmem).2
    simp only [isLiving, Bool.and_eq_true, decide_eq_true_eq] at this
    exact this.2
  have hb' : ¬ b > 2 := by omega
  by_cases hsafe : buttons[b]? = some 0
  · have hl : ¬ cur.2.lives ≤ 0 := by omega
    simp [handleHeadToHeadAction, hphase, hcur', hbuttons, hb', hsafe, hl]
  · by_cases hdead : cur.2.lives - 1 ≤ 0
    · have h1 : ¬ 1 < cur.2.lives := by omega
      simp [handleHeadToHeadAction, hphase, hcur', hbuttons, hb', hsafe, hdead, h1]
    · have h1 : 1 < cur.2.lives := by omega
      simp [handleHeadToHeadAction, hphase, hcur', hbuttons, hb', hsafe, hdead, h1]

theorem duelists_pair (room : Room) (x y cur other : Nat × Player)
    (hliving : room.players.enum.filter (fun ip => isLiving ip.2) = [x, y])
    (hids : x.2.id ≠ y.2.id) (hturn : 0 ≤ room.currentTurnIndex)
    (hcur : (cur, other) = if room.currentTurnIndex % 2 = 0 then (x, y) else (y, x)) :
    currentDuelist room = some cur
    ∧ room.players[cur.1]? = some cur.2 ∧ room.players[other.1]? = some other.2
    ∧ cur.1 ≠ other.1 ∧ cur.2.id ≠ other.2.id ∧ isLiving cur.2 = true := by
  have hx : x ∈ room.players.enum.filter (fun ip => isLiving ip.2) := by simp [hliving]
  have hy : y ∈ room.players.enum.filter (fun ip => isLiving ip.2) := by simp [hliving]
  obtain ⟨hx1, hx2⟩ := List.mem_filter.1 hx
  obtain ⟨hy1, hy2⟩ := List.mem_filter.1 hy
  have hxg : room.players[x.1]? = some x.2 := List.mk_mem_enum_iff_getElem?.1 hx1
  have hyg : room.players[y.1]? = some y.2 := List.mk_mem_enum_iff_getElem?.1 hy1
  have hxy : x.1 ≠ y.1 := by
    intro e
    rw [e, hyg] at hxg
    exact hids (by rw [Option.some.inj hxg])
  have hcd : currentDuelist room = some (if room.currentTurnIndex % 2 = 0 then x else y) := by
    unfold currentDuelist
    rw [hliving]
    exact duelistAt_pair x y _ hturn
  by_cases hpar : room.currentTurnIndex % 2 = 0
  · simp only [hpar, if_true, Prod.mk.injEq] at hcur hcd
    obtain ⟨rfl, rfl⟩ := hcur
    exact ⟨hcd, hxg, hyg, hxy, hids, hx2⟩
  · simp only [hpar, if_false, Prod.mk.injEq] at hcur hcd
    obtain ⟨rfl, rfl⟩ := hcur
    exact ⟨hcd, hyg, hxg, fun e => hxy e.symm, fun e => hids e.symm, hy2⟩

theorem currentDuelist_after (room : Room) (x y cur other : Nat × Player)
    (buttons : List Nat) (b d : Nat)
    (hphase : room.phase = .HEAD_TO_HEAD)
    (hliving : room.players.enum.filter (fun ip => isLiving ip.2) = [x, y])
    (hids : x.2.id ≠ y.2.id) (hturn : 0 ≤ room.currentTurnIndex)
    (hbuttons : room.h2hButtons = some buttons)
    (hcur : (cur, other) = if room.currentTurnIndex % 2 = 0 then (x, y) else (y, x))
    (hb : b ≤ 2) (hsurv : buttons[b]? = some 0 ∨ 1 < cur.2.lives) :
    currentDuelist (handleHeadToHeadAction room cur.2.id b d).1 = some other := by
  obtain ⟨hcd, hcg, hog, hne, _, hlc⟩ := duelists_pair room x y cur other hliving hids hturn hcur
  obtain ⟨hpl, _, _, hnext⟩ := h2h_accepted room cur buttons b d hphase hcd hbuttons hb
  obtain ⟨hidx, _⟩ := hnext hsurv
  have hlist : (handleHeadToHeadAction room cur.2.id b d).1.players.enum.filter
      (fun ip => isLiving ip.2)
      = [x, y].map (fun ip => if ip.1 = cur.1 then
          (ip.1, if buttons[b]? = some 0 then ip.2
                 else ({ ip.2 with lives := ip.2.lives - 1 } : Player)) else ip) := by
    rw [hpl]
    by_cases hsafe : buttons[b]? = some 0
    · simp only [hsafe, if_true, hliving]
      simp
    · have h1 : 1 < cur.2.lives := by
        rcases hsurv with h | h
        · exact absurd h hsafe
        · exact h
      simp only [hsafe, if_false]
      have := filter_enumFrom_modifyAt room.players cur.1 0
        (fun (p : Player) => { p with lives := p.lives - 1 }) (by
          intro p hp
          rw [hcg] at hp
          cases hp
          simp only [isLiving, Bool.and_eq_true, Bool.not_eq_true', decide_eq_true_eq] at hlc
          simp only [isLiving, hlc.1]
          simp
          omega)
      simp only [List.enum]
      rw [this]
      simp only [Nat.zero_add]
      have hl' : List.filter (fun ip => isLiving ip.2) (List.enumFrom 0 room.players) = [x, y] :=
        hliving
      rw [hl']
  unfold currentDuelist
  rw [hlist, hidx]
  simp only [List.map_cons, List.map_nil]
  rw [duelistAt_pair _ _ _ (by omega)]
  by_cases hpar : room.currentTurnIndex % 2 = 0
  · simp only [hpar, if_true, Prod.mk.injEq] at hcur
    obtain ⟨rfl, rfl⟩ := hcur
    have h2 : ¬ (room.currentTurnIndex + 1) % 2 = 0 := by omega
    have h3 : ¬ other.1 = cur.1 := fun e => hne e.symm
    simp only [h2, if_false, h3]
  · simp only [hpar, if_false, Prod.mk.injEq] at hcur
    obtain ⟨rfl, rfl⟩ := hcur
    have h2 : (room.currentTurnIndex + 1) % 2 = 0 := by omega
    have h3 : ¬ other.1 = cur.1 := fun e => hne e.symm
    simp only [h2, if_true, h3, if_false]

theorem h2h_turn_spec (room : Room) (x y cur other : Nat × Player)
    (buttons : List Nat)
    (hphase : room.phase = .HEAD_TO_HEAD)
    (hliving : room.players.enum.filter (fun ip => isLiving ip.2) = [x, y])
    (hids : x.2.id ≠ y.2.id) (hturn : 0 ≤ room.currentTurnIndex)
    (hbuttons : room.h2hButtons = some buttons)
    (hcur : (cur, other) = if room.currentTurnIndex % 2 = 0 then (x, y) else (y, x)) :
    (∀ (pid : SocketId) (b d : Nat), pid ≠ cur.2.id →
        handleHeadToHeadAction room pid b d = (room, []))
    ∧ (∀ b d : Nat, b ≤ 2 →
        (handleHeadToHeadAction room cur.2.id b d).1.players
          = (if buttons[b]? = some 0 then room.players
             else modifyAt cur.1 (fun (p : Player) => { p with lives := p.lives - 1 })
               room.players)
        ∧ (handleHeadToHeadAction room cur.2.id b d).1.players[cur.1]?
            = some (if buttons[b]? = some 0 then cur.2
                    else { cur.2 with lives := cur.2.lives - 1 })
        ∧ ∀ (j : Nat) (p : Player), j ≠ cur.1 → room.players[j]? = some p →
            (handleHeadToHeadAction room cur.2.id b d).1.players[j]? = some p)
    ∧ (∀ b d : Nat, b ≤ 2 → (buttons[b]? = some 0 ∨ 1 < cur.2.lives) →
        (handleHeadToHeadAction room cur.2.id b d).1.phase = .HEAD_TO_HEAD
        ∧ (∀ (pid : SocketId) (b' d' : Nat), pid ≠ other.2.id →
            handleHeadToHeadAction (handleHeadToHeadAction room cur.2.id b d).1 pid b' d'
              = ((handleHeadToHeadAction room cur.2.id b d).1, []))
        ∧ (∀ b' d' : Nat, b' ≤ 2 →
            (handleHeadToHeadAction (handleHeadToHeadAction room cur.2.id b d).1
              other.2.id b' d').2 ≠ [])) := by
  obtain ⟨hcd, hcg, hog, hne, hidne, hlc⟩ :=
    duelists_pair room x y cur other hliving hids hturn hcur
  refine ⟨?_, ?_, ?_⟩
  · intro pid b d hpid
    apply h2h_not_current
    intro c hc
    rw [hcd] at hc
    cases hc
    exact fun e => hpid e.symm
  · intro b d hb
    obtain ⟨hpl, _, _, _⟩ := h2h_accepted room cur buttons b d hphase hcd hbuttons hb
    refine ⟨hpl, ?_, ?_⟩
    · rw [hpl]
      by_cases hsafe : buttons[b]? = some 0
      · simp only [hsafe, if_true, hcg]
      · simp only [hsafe, if_false, getElem?_modifyAt, hcg, Option.map_some', if_true]
    · intro j p hj hp
      rw [hpl]
      by_cases hsafe : buttons[b]? = some 0
      · simp only [hsafe, if_true, hp]
      · simp only [hsafe, if_false, getElem?_modifyAt, hp, Option.map_some', hj]
  · intro b d hb hsurv
    have hnext := currentDuelist_after room x y cur other buttons b d hphase hliving hids hturn
      hbuttons hcur hb hsurv
    obtain ⟨_, hph, _, hn⟩ := h2h_accepted room cur buttons b d hphase hcd hbuttons hb
    obtain ⟨_, hbut⟩ := hn hsurv
    refine ⟨hph, ?_, ?_⟩
    · intro pid b' d' hpid
      apply h2h_not_current
      intro c hc
      rw [hnext] at hc
      cases hc
      exact fun e => hpid e.symm
    · intro b' d' hb'
      exact (h2h_accepted _ other (h2hShuffle d) b' d' hph hnext hbut hb').2.2.1

/-- C24: let the room be in HEAD_TO_HEAD with exactly two living players `x` and
`y` (paired with their positions) of different sockets, a turn index that is
not negative and the buttons `buttons`; let `cur` be the duelist at
`currentTurnIndex % 2` and `other` the other one.  Then an action of any socket
but that of `cur` leaves the room as it is and emits nothing.  An action of
`cur` with a button 0..2 takes one life from `cur` when the button is unsafe
and none when it is safe, and changes no other player.  When `cur` survives
(the button is safe, or `cur` had more than one life), the room stays in
HEAD_TO_HEAD, an action of any socket but that of `other` is ignored, and an
action of `other` with a button 0..2 is accepted.  Every room in HEAD_TO_HEAD
reachable from `create_room` has its buttons and a turn index that is not
negative. -/
theorem head_to_head_turns :
    (∀ (room : Room) (x y cur other : Nat × Player) (buttons : List Nat),
      room.phase = .HEAD_TO_HEAD →
      room.players.enum.filter (fun ip => isLiving ip.2) = [x, y] →
      x.2.id ≠ y.2.id → 0 ≤ room.currentTurnIndex →
      room.h2hButtons = some buttons →
      (cur, other) = (if room.currentTurnIndex % 2 = 0 then (x, y) else (y, x)) →
      (∀ (pid : SocketId) (b d : Nat), pid ≠ cur.2.id →
          handleHeadToHeadAction room pid b d = (room, []))
      ∧ (∀ b d : Nat, b ≤ 2 →
          (handleHeadToHeadAction room cur.2.id b d).1.players
            = (if buttons[b]? = some 0 then room.players
               else modifyAt cur.1 (fun (p : Player) => { p with lives := p.lives - 1 })
                 room.players)
          ∧ (handleHeadToHeadAction room cur.2.id b d).1.players[cur.1]?
              = some (if buttons[b]? = some 0 then cur.2
                      else { cur.2 with lives := cur.2.lives - 1 })
          ∧ ∀ (j : Nat) (p : Player), j ≠ cur.1 → room.players[j]? = some p →
              (handleHeadToHeadAction room cur.2.id b d).1.players[j]? = some p)
      ∧ (∀ b d : Nat, b ≤ 2 → (buttons[b]? = some 0 ∨ 1 < cur.2.lives) →
          (handleHeadToHeadAction room cur.2.id b d).1.phase = .HEAD_TO_HEAD
          ∧ (∀ (pid : SocketId) (b' d' : Nat), pid ≠ other.2.id →
              handleHeadToHeadAction (handleHeadToHeadAction room cur.2.id b d).1 pid b' d'
                = ((handleHeadToHeadAction room cur.2.id b d).1, []))
          ∧ (∀ b' d' : Nat, b' ≤ 2 →
              (handleHeadToHeadAction (handleHeadToHeadAction room cur.2.id b d).1
                other.2.id b' d').2 ≠ [])))
    ∧ (∀ (s : State) (r : Room), Reachable s → s.room = some r →
        r.phase = .HEAD_TO_HEAD → ButtonsOk r ∧ 0 ≤ r.currentTurnIndex) :=
  ⟨fun room x y cur other buttons h1 h2 h3 h4 h5 h6 =>
      h2h_turn_spec room x y cur other buttons h1 h2 h3 h4 h5 h6,
   fun s r hs hr hph => (roster_reachable s hs r hr).2.2.2 hph⟩

/-- Witness of C24: in `h2hRoom` an action of B, whose turn it is not, is
ignored; A presses the unsafe button 1 and goes from 3 lives to 2; then an
action of B is accepted. -/
theorem head_to_head_turns_witness :
    handleHeadToHeadAction h2hRoom 2 0 0 = (h2hRoom, [])
    ∧ (handleHeadToHeadAction h2hRoom 1 1 0).1.players[0]?
        = some { mkPlayer 1 "A" (some .INNOCENT) 3 with lives := 2 }
    ∧ (handleHeadToHeadAction (handleHeadToHeadAction h2hRoom 1 1 0).1 2 0 0).2 ≠ [] :=
  ⟨(head_to_head_turns.1 h2hRoom (0, mkPlayer 1 "A" (some .INNOCENT) 3)
      (1, mkPlayer 2 "B" (some .IMPOSTOR) 3) (0, mkPlayer 1 "A" (some .INNOCENT) 3)
      (1, mkPlayer 2 "B" (some .IMPOSTOR) 3) [0, 1, 1] rfl (by decide) (by decide)
      (by decide) rfl (by decide)).1 2 0 0 (by decide),
   ((head_to_head_turns.1 h2hRoom (0, mkPlayer 1 "A" (some .INNOCENT) 3)
      (1, mkPlayer 2 "B" (some .IMPOSTOR) 3) (0, mkPlayer 1 "A" (some .INNOCENT) 3)
      (1, mkPlayer 2 "B" (some .IMPOSTOR) 3) [0, 1, 1] rfl (by decide) (by decide)
      (by decide) rfl (by decide)).2.1 1 0 (by decide)).2.1,
   ((head_to_head_turns.1 h2hRoom (0, mkPlayer 1 "A" (some .INNOCENT) 3)
      (1, mkPlayer 2 "B" (some .IMPOSTOR) 3) (0, mkPlayer 1 "A" (some .INNOCENT) 3)
      (1, mkPlayer 2 "B" (some .IMPOSTOR) 3) [0, 1, 1] rfl (by decide) (by decide)
      (by decide) rfl (by decide)).2.2 1 0 (by decide) (by decide)).2.2 0 0 (by decide)⟩

end ImpostorGame
